import Mathlib

/-!
# hiboot: the reflection-driven dependency injection engine

A shallow embedding of `pkg/inject/inject.go`, of the parts of
`pkg/utils/reflector/reflect.go` it relies on, and of the registration functions of
`pkg/app/application.go`.

* Go types are first-order terms (`GoType`); declared types (structs, interfaces, defined
  basic types) live in a type environment and are referred to by package path and name, so
  that a struct may refer to itself through a pointer.  Pointer and slice types, and the
  declared types over them, are written structurally.
* Go values are trees (`Val`); pointers are addresses of cells of a heap (`List Val`).
* `reflect.Value` is `Value`: the zero Value, a non-addressable value, or an addressable
  place (heap cell and field path) together with the two read-only flags of package reflect.
* The process-wide variables `appFactory` and the instance registry behind it, the heap and
  an event trace form the `State`; `tagsContainer` is passed along in the context.
* User code called by the engine (`Tag.Init`, `Tag.Decode`, the `Init` hook) is not part of
  the engine: `Decode` is a function of its arguments, the body of a hook is a function on the
  heap, and every call is recorded in the event trace.
* Recursion that Go does not bound is bounded by fuel; `Outcome.diverge` marks exhausted fuel,
  `Outcome.panic` a run-time panic.
-/

namespace Hiboot

/-! ## Strings -/

/-- The scanning loop of the camel-case conversion: letters and digits are kept, a letter that
follows a separator (`_`, `-` or a blank) is capitalised, every other character is dropped. -/
def camelLoop : Bool → List Char → List Char
  | _, [] => []
  | capNext, v :: rest =>
    (if v.isUpper || v.isDigit then [v]
     else if v.isLower then [if capNext then v.toUpper else v]
     else []) ++ camelLoop (v == '_' || v == ' ' || v == '-') rest

/-- Modelled from the spec: `str.ToLowerCamel` (package `str` is not among the sources); the
lower-camel-case of a name: first letter in lower case, word separators removed and the letter
after each separator capitalised. -/
def ToLowerCamel (s : String) : String :=
  match s.toList with
  | [] => s
  | c :: cs => String.mk (camelLoop false ((if c.isUpper then c.toLower else c) :: cs))

/-- Modelled from the spec: `str.LowerFirst` (package `str` is not among the sources).  The
specification gives the key under which `saveInstance` stores an instance, and the keyword of a
resolver, as the lower-camel-case of the name: the conversion of `str.ToLowerCamel`. -/
def LowerFirst (s : String) : String :=
  ToLowerCamel s

/-- The loop of `strings.Replace(s, old, "", -1)` for a non-empty `old`: `skip` counts the
characters of a matched occurrence that are still to be dropped. -/
def removeAllLoop (old : List Char) : Nat → List Char → List Char
  | _, [] => []
  | skip + 1, _ :: cs => removeAllLoop old skip cs
  | 0, c :: cs =>
    if old.isPrefixOf (c :: cs) then removeAllLoop old (old.length - 1) cs
    else c :: removeAllLoop old 0 cs

/-- Go's `strings.Replace(s, old, "", -1)`: every non-overlapping occurrence of `old`, found
from left to right, is removed (an empty `old` removes nothing). -/
def stringsRemoveAll (s old : String) : String :=
  if old.toList = [] then s else String.mk (removeAllLoop old.toList 0 s.toList)

/-- The characters after the last `/` of a path, the accumulator holding the current element. -/
def lastElemLoop : List Char → List Char → List Char
  | acc, [] => acc
  | acc, c :: cs => if c = '/' then lastElemLoop [] cs else lastElemLoop (acc ++ [c]) cs

/-- Modelled from the spec: `io.DirName` (package `io` of the repository is not among the
sources); the last element of a package path, the "originating namespace" of a type. -/
def DirName (path : String) : String :=
  String.mk (lastElemLoop [] path.toList)

/-! ## Types (package reflect) -/

/-- The kinds of `reflect.Kind` the engine distinguishes. -/
inductive Kind
  | Invalid | Bool | Int | String | Func | Interface | Map | Ptr | Slice | Struct
  deriving DecidableEq, Repr

/-- A Go type: a predeclared or unnamed type of a non-composite kind, a declared type of a
kind other than pointer and slice, the pointer type `*elem`, the slice type `[]elem`, and the
declared types with a pointer or a slice type as underlying type (`type P *elem` and
`type L []elem`). -/
inductive GoType
  | basic (k : Kind)
  | named (pkgPath : String) (name : String)
  | ptr (elem : GoType)
  | slice (elem : GoType)
  | definedPtr (pkgPath : String) (name : String) (elem : GoType)
  | definedSlice (pkgPath : String) (name : String) (elem : GoType)
  deriving DecidableEq, Repr

/-- A parsed struct tag: the key/value pairs of the conventional tag string, in order. -/
abbrev StructTag := List (String × String)

/-- Go's `StructTag.Lookup`: the value of the first pair with the key; a tag string has no
pair with an empty key. -/
def StructTag.Lookup (tag : StructTag) (key : String) : Option String :=
  if key = "" then none else tag.lookup key

/-- Go's `reflect.StructField`; `PkgPath` is empty exactly for exported fields. -/
structure StructField where
  Name : String
  PkgPath : String := ""
  Typ : GoType
  Tag : StructTag := []
  Anonymous : Bool := false
  deriving DecidableEq, Repr

/-- The method named `Init` of a declared type: whether its receiver is a pointer, and the
types of its parameters after the receiver. -/
structure Method where
  ptrRecv : Bool := true
  In : List GoType := []
  deriving DecidableEq, Repr

/-- A type declaration.  `kind` is the kind of the underlying type, `Fields` the members of a
struct, `Init` its initialization hook when it has one, `Impl` (for an interface) the types
whose method set satisfies it, `In` (for a function type) the types of the parameters. -/
structure TypeDecl where
  PkgPath : String := ""
  Name : String
  kind : Kind := Kind.Struct
  Fields : List StructField := []
  Init : Option Method := none
  Impl : List GoType := []
  In : List GoType := []
  deriving DecidableEq, Repr

/-- The type environment: the declarations of the program. -/
abbrev TypeEnv := List TypeDecl

/-- The declaration of a named type. -/
def TypeEnv.decl (env : TypeEnv) (pkgPath name : String) : Option TypeDecl :=
  env.find? (fun d => d.PkgPath == pkgPath && d.Name == name)

/-- Go's `Type.Kind()`.  The types of pointer and slice kind are the pointer and slice types
and the declared types over them (`ptr`, `definedPtr`, `slice`, `definedSlice`); `basic` and
a declaration of the environment stand for types of the other kinds only. -/
def GoType.Kind (env : TypeEnv) : GoType → Kind
  | .basic k => if k = Kind.Ptr ∨ k = Kind.Slice then Kind.Invalid else k
  | .named p n =>
    match env.decl p n with
    | some d => if d.kind = Kind.Ptr ∨ d.kind = Kind.Slice then Kind.Invalid else d.kind
    | none => Kind.Invalid
  | .ptr _ => Kind.Ptr
  | .slice _ => Kind.Slice
  | .definedPtr _ _ _ => Kind.Ptr
  | .definedSlice _ _ _ => Kind.Slice

/-- Go's `Type.Name()`: empty for unnamed types. -/
def GoType.Name : GoType → String
  | .basic Kind.Bool => "bool"
  | .basic Kind.Int => "int"
  | .basic Kind.String => "string"
  | .basic _ => ""
  | .named _ n => n
  | .ptr _ => ""
  | .slice _ => ""
  | .definedPtr _ n _ => n
  | .definedSlice _ n _ => n

/-- Go's `Type.PkgPath()`. -/
def GoType.PkgPath : GoType → String
  | .named p _ => p
  | .definedPtr p _ _ => p
  | .definedSlice p _ _ => p
  | _ => ""

/-- The members of a struct type (`Type.NumField` / `Type.Field`). -/
def GoType.Fields (env : TypeEnv) : GoType → List StructField
  | .named p n =>
    match env.decl p n with
    | some d => if d.kind = Kind.Struct then d.Fields else []
    | none => []
  | _ => []

/-- The parameter types of a function type (`Type.NumIn` / `Type.In`). -/
def GoType.In (env : TypeEnv) : GoType → List GoType
  | .named p n =>
    match env.decl p n with
    | some d => if d.kind = Kind.Func then d.In else []
    | none => []
  | _ => []

/-- The function `reflector.IndirectType`: the element type is taken while the kind is
pointer or slice. -/
def IndirectType : GoType → GoType
  | .ptr e => IndirectType e
  | .slice e => IndirectType e
  | .definedPtr _ _ e => IndirectType e
  | .definedSlice _ _ e => IndirectType e
  | t => t

/-- The loop over the members in `reflector.DeepFields`; `deep` is the recursive call. -/
def deepFieldsLoop (deep : GoType → Option (List StructField)) :
    List StructField → Option (List StructField)
  | [] => some []
  | v :: rest =>
    if v.Anonymous then
      match deep v.Typ with
      | none => none
      | some sub =>
        match deepFieldsLoop deep rest with
        | none => none
        | some fields => some (sub ++ fields)
    else
      match deepFieldsLoop deep rest with
      | none => none
      | some fields => some (v :: fields)

/-- The function `reflector.DeepFields`.  Go does not bound the recursion through anonymous
members; `none` is exhausted fuel. -/
def DeepFields (env : TypeEnv) : Nat → GoType → Option (List StructField)
  | 0, _ => none
  | fuel + 1, reflectType =>
    if (IndirectType reflectType).Kind env = Kind.Struct then
      deepFieldsLoop (DeepFields env fuel) ((IndirectType reflectType).Fields env)
    else some []

/-- Go's assignability of a value of dynamic type `src` to a place of type `dst`, as checked by
`Value.Set` and `Value.Call`: the types are identical, or `dst` is an interface that `src`
implements, or the underlying types are identical and one of the two is not a declared type
(a declared pointer or slice type and the pointer or slice type under it). -/
def assignable (env : TypeEnv) (src dst : GoType) : Bool :=
  src == dst ||
  (dst == GoType.basic Kind.Interface) ||
  (match dst with
   | .named p n =>
     match env.decl p n with
     | some d => d.kind == Kind.Interface && d.Impl.contains src
     | none => false
   | _ => false) ||
  (match src, dst with
   | .definedPtr _ _ e, .ptr e1 => e == e1
   | .ptr e, .definedPtr _ _ e1 => e == e1
   | .definedSlice _ _ e, .slice e1 => e == e1
   | .slice e, .definedSlice _ _ e1 => e == e1
   | _, _ => false)

/-- The method `Init` in the method set of a type (`Type.MethodByName`): `*T` has the methods
of `T` with either receiver, `T` those with a value receiver; the result is the list of the
method's parameter types, the receiver first. -/
def MethodByName (env : TypeEnv) : GoType → Option (List GoType)
  | .ptr (.named p n) =>
    match env.decl p n with
    | some d =>
      if d.kind = Kind.Struct then
        match d.Init with
        | some m => some (GoType.ptr (.named p n) :: m.In)
        | none => none
      else none
    | none => none
  | .named p n =>
    match env.decl p n with
    | some d =>
      if d.kind = Kind.Struct then
        match d.Init with
        | some m => if m.ptrRecv then none else some (GoType.named p n :: m.In)
        | none => none
      else none
    | none => none
  | _ => none

/-! ## Values -/

mutual
/-- A Go value. -/
inductive Val
  | nil
  | bool (b : Bool)
  | int (n : Int)
  | str (s : String)
  | func (id : Nat)
  | ptr (addr : Nat)
  | iface (dyn : GoType) (v : Val)
  | struct (fields : Fields)
  deriving DecidableEq, Repr
/-- The members of a struct value, by name. -/
inductive Fields
  | nil
  | cons (name : String) (v : Val) (rest : Fields)
  deriving DecidableEq, Repr
end

/-- The value of a member. -/
def Fields.get : Fields → String → Option Val
  | .nil, _ => none
  | .cons n v rest, name => if n = name then some v else rest.get name

/-- The members with the first member called `name` replaced. -/
def Fields.set : Fields → String → Val → Fields
  | .nil, _, _ => .nil
  | .cons n v rest, name, new =>
    if n = name then .cons n new rest else .cons n v (rest.set name new)

/-- The value at a field path inside a value. -/
def Val.atPath : Val → List String → Option Val
  | v, [] => some v
  | .struct fs, n :: path =>
    match fs.get n with
    | some v => v.atPath path
    | none => none
  | _, _ :: _ => none

/-- The value with the value at a field path replaced; `none` when the path does not exist. -/
def Val.update : Val → List String → Val → Option Val
  | _, [], new => some new
  | .struct fs, n :: path, new =>
    match fs.get n with
    | some v =>
      match v.update path new with
      | some w => some (.struct (fs.set n w))
      | none => none
    | none => none
  | _, _ :: _, _ => none

/-- The heap: the cells that pointers point to. -/
abbrev Heap := List Val

/-- A non-nil `interface{}`: the dynamic type and the value. -/
abbrev Inst := GoType × Val

/-- Go's `reflect.Value`: the zero Value, a value that is not addressable, or an addressable
place, a field path inside a heap cell.  `sticky` and `embed` are the read-only flags
`flagStickyRO` and `flagEmbedRO`. -/
inductive Value
  | zero
  | imm (typ : GoType) (val : Val) (sticky embed : Bool)
  | ref (typ : GoType) (addr : Nat) (path : List String) (sticky embed : Bool)
  deriving DecidableEq, Repr

/-- Go's `reflect.ValueOf`. -/
def ValueOf : Option Inst → Value
  | none => Value.zero
  | some (t, v) => Value.imm t v false false

/-- Go's `Value.IsValid`. -/
def Value.IsValid : Value → Bool
  | .zero => false
  | _ => true

/-- Go's `Value.Type` (only called on valid Values). -/
def Value.Type : Value → GoType
  | .zero => GoType.basic Kind.Invalid
  | .imm t _ _ _ => t
  | .ref t _ _ _ _ => t

/-- Go's `Value.Kind`. -/
def Value.Kind (env : TypeEnv) : Value → Kind
  | .zero => Kind.Invalid
  | v => v.Type.Kind env

/-- Go's `Value.CanSet`: addressable and not obtained through an unexported field. -/
def Value.CanSet : Value → Bool
  | .ref _ _ _ sticky embed => !sticky && !embed
  | _ => false

/-- The current content of a Value (`nil` for a place that does not exist). -/
def Value.load (h : Heap) : Value → Val
  | .zero => Val.nil
  | .imm _ v _ _ => v
  | .ref _ a path _ _ =>
    match h[a]? with
    | some cell => (cell.atPath path).getD Val.nil
    | none => Val.nil

/-- Go's `Value.Elem` on a Value of pointer kind: the pointee, addressable, with the read-only
flags kept; the zero Value for a nil pointer. -/
def Value.Elem (h : Heap) (v : Value) : Value :=
  match v.Type, v.load h with
  | .ptr e, .ptr a =>
    match v with
    | .imm _ _ sticky embed => Value.ref e a [] sticky embed
    | .ref _ _ _ sticky embed => Value.ref e a [] sticky embed
    | .zero => Value.zero
  | .definedPtr _ _ e, .ptr a =>
    match v with
    | .imm _ _ sticky embed => Value.ref e a [] sticky embed
    | .ref _ _ _ sticky embed => Value.ref e a [] sticky embed
    | .zero => Value.zero
  | _, _ => Value.zero

/-- Go's `reflect.Indirect`: one pointer is followed. -/
def reflectIndirect (env : TypeEnv) (h : Heap) (v : Value) : Value :=
  if v.Kind env ≠ Kind.Ptr then v else v.Elem h

/-- The number of pointer wrappers at the head of a type. -/
def GoType.ptrDepth : GoType → Nat
  | .ptr e => e.ptrDepth + 1
  | .definedPtr _ _ e => e.ptrDepth + 1
  | _ => 0

/-- The loop of `reflector.Indirect`, at most `n` rounds. -/
def indirectLoop (env : TypeEnv) (h : Heap) : Nat → Value → Value
  | 0, v => v
  | n + 1, v => if v.Kind env = Kind.Ptr then indirectLoop env h n (v.Elem h) else v

/-- The function `reflector.Indirect`: pointers are followed while the kind is pointer.  The
number of rounds is bounded by the pointer depth of the static type. -/
def Indirect (env : TypeEnv) (h : Heap) (reflectValue : Value) : Value :=
  indirectLoop env h reflectValue.Type.ptrDepth reflectValue

/-- Go's `Value.Field` for the member `f` of a struct Value. -/
def Value.Field (v : Value) (f : StructField) : Value :=
  match v with
  | .zero => Value.zero
  | .imm _ val sticky _ =>
    Value.imm f.Typ (((val.atPath [f.Name]).getD Val.nil))
      (sticky || (f.PkgPath != "" && !f.Anonymous)) (f.PkgPath != "" && f.Anonymous)
  | .ref _ a path sticky _ =>
    Value.ref f.Typ a (path ++ [f.Name])
      (sticky || (f.PkgPath != "" && !f.Anonymous)) (f.PkgPath != "" && f.Anonymous)

/-- The struct type that an embedded member of type `T` or `*T` gives access to. -/
def embeddedStruct (env : TypeEnv) (f : StructField) : Option GoType :=
  if f.Anonymous then
    match f.Typ with
    | .ptr e => if e.Kind env = Kind.Struct then some e else none
    | t => if t.Kind env = Kind.Struct then some t else none
  else none

/-- The chains of members that lead from the struct type `t` through exactly `d` embedded
structs to a member called `name`. -/
def fieldChains (env : TypeEnv) (name : String) : Nat → GoType → List (List StructField)
  | 0, t => ((t.Fields env).filter (fun f => f.Name == name)).map (fun f => [f])
  | d + 1, t =>
    (t.Fields env).flatMap (fun f =>
      match embeddedStruct env f with
      | some e => (fieldChains env name d e).map (fun chain => f :: chain)
      | none => [])

/-- The breadth-first search of Go's `Type.FieldByName`, one depth level at a time: the
member is found at the shallowest depth that has a member of this name, and only when that
depth has exactly one. -/
def searchField (env : TypeEnv) (name : String) (t : GoType) :
    Nat → Nat → Option (List StructField)
  | 0, _ => none
  | levels + 1, d =>
    match fieldChains env name d t with
    | [] => searchField env name t levels (d + 1)
    | [chain] => some chain
    | _ :: _ :: _ => none

/-- Go's `Type.FieldByName`, as the chain of members to follow.  A chain never visits a struct
type twice before it finds the member, so the depth is bounded by the number of declarations. -/
def GoType.FieldByName (env : TypeEnv) (t : GoType) (name : String) : Option (List StructField) :=
  searchField env name t env.length 0

/-- Go's `Value.FieldByIndex`: the members of the chain are selected in turn, an embedded
pointer to a struct is followed and panics (`none`) when it is nil. -/
def Value.FieldByIndex (env : TypeEnv) (h : Heap) : Bool → Value → List StructField → Option Value
  | _, v, [] => some v
  | first, v, f :: rest =>
    if !first && v.Kind env = Kind.Ptr && (match v.Type with
        | .ptr e => e.Kind env == Kind.Struct
        | .definedPtr _ _ e => e.Kind env == Kind.Struct
        | _ => false) then
      if v.load h = Val.nil then none
      else Value.FieldByIndex env h false ((v.Elem h).Field f) rest
    else Value.FieldByIndex env h false (v.Field f) rest

/-- Go's `Value.FieldByName` on a struct Value: the zero Value when the type has no such
member, `none` for the panic of `FieldByIndex`. -/
def Value.FieldByName (env : TypeEnv) (h : Heap) (v : Value) (name : String) : Option Value :=
  match v.Type.FieldByName env name with
  | some chain => Value.FieldByIndex env h true v chain
  | none => some Value.zero

/-- The zero values of the members of a struct. -/
def zeroFields (zero : GoType → Val) : List StructField → Fields
  | [] => Fields.nil
  | f :: rest => Fields.cons f.Name (zero f.Typ) (zeroFields zero rest)

/-- The zero value of a type; the fuel bounds the nesting of structs by value. -/
def zeroVal (env : TypeEnv) : Nat → GoType → Val
  | 0, _ => Val.nil
  | n + 1, t =>
    match t.Kind env with
    | Kind.Bool => Val.bool false
    | Kind.Int => Val.int 0
    | Kind.String => Val.str ""
    | Kind.Struct => Val.struct (zeroFields (zeroVal env n) (t.Fields env))
    | _ => Val.nil

/-! ## The instance registry, the tag resolvers and the state -/

/-- Modelled from the spec: the instance registry behind `factory.ConfigurableFactory` (package
`factory` is not among the sources), a mapping from names to instances consumed through
`Lookup` and `StoreIfAbsent`. -/
abbrev Registry := List (String × Inst)

/-- Modelled from the spec: `GetInstance`, the operation `Lookup(name)`: the instance stored
under the name, nil when there is none. -/
def Registry.GetInstance (r : Registry) (name : String) : Option Inst :=
  r.lookup name

/-- Modelled from the spec: `SetInstance`, the operation `StoreIfAbsent(name, instance)`: a
second writer for the same name gets an error (`false`) and the first writer's value stands. -/
def Registry.SetInstance (r : Registry) (name : String) (inst : Inst) : Registry × Bool :=
  match r.lookup name with
  | some _ => (r, false)
  | none => (r ++ [(name, inst)], true)

/-- What the engine does to the world outside it, in the order it happens.  `tagInit` and
`tagDecode` are the calls of `Init` and `Decode` of the resolver at position `tag` of the
resolver list, made for the member `field` of `object`; `store` is a call of `SetInstance` and
its success; `set` an assignment to a member; `call` the invocation of the `Init` hook with
its receiver (the place whose address is passed) and its further arguments; `invoke` the
invocation of a function by `IntoFunc`. -/
inductive Event
  | tagInit (tag : Nat) (object : Value) (field : String)
  | tagDecode (tag : Nat) (object : Value) (field : String) (value : String)
  | store (name : String) (inst : Inst) (ok : Bool)
  | set (addr : Nat) (path : List String) (inst : Inst)
  | call (recv : Value) (args : List Value)
  | invoke (fn : Value) (args : List Value)
  deriving DecidableEq, Repr

/-- The mutable state: the package variable `appFactory` (nil or the registry it gives access
to), the heap and the trace of events. -/
structure State where
  appFactory : Option Registry
  heap : Heap
  trace : List Event := []
  deriving DecidableEq, Repr

/-- Modelled from the spec: the `Tag` interface (its declaration is not among the sources), a
tag resolver with the operations `Init`, `Decode` and `IsSingleton`.  `self` is the resolver
as an `interface{}` (its type name gives the keyword); `Init` has no result and is recorded in
the trace only. -/
structure Tag where
  self : Option Inst
  Decode : Value → StructField → String → Option Inst
  IsSingleton : Bool

/-- The errors of package inject; `notInjected` is the error that `IntoFunc` formats with the
name of a parameter type, `instanceExists` the error of `SetInstance` for a name that is
taken. -/
inductive Error
  | ErrNotImplemented
  | ErrInvalidObject
  | ErrInvalidTagName
  | ErrSystemConfiguration
  | ErrInvalidFunc
  | ErrFactoryIsNil
  | notInjected (typeName : String)
  | instanceExists (name : String)
  deriving DecidableEq, Repr

/-- How a call ends: it returns `a` in state `s`, it panics, or the fuel is exhausted. -/
inductive Outcome (α : Type)
  | done (a : α) (s : State)
  | panic (s : State)
  | diverge
  deriving DecidableEq, Repr

/-- The context of a call: the declared types, the package variable `tagsContainer`, the
bodies of the functions of the program (what the function `id` returns for its arguments, each
result as an `interface{}`), and the bodies of the `Init` hooks (what a call with this
receiver and these arguments makes of the heap; a hook does not change the registry and does
not call the engine). -/
structure Ctx where
  env : TypeEnv
  tagsContainer : List Tag := []
  funcs : Nat → List Value → List (Option Inst) := fun _ _ => []
  hooks : Value → List Value → Heap → Heap := fun _ _ h => h

/-- The function `AddTag`. -/
def AddTag (tagsContainer : List Tag) (tag : Tag) : List Tag :=
  tagsContainer ++ [tag]

/-- The function `SetFactory`. -/
def SetFactory (f : Option Registry) (s : State) : State :=
  { s with appFactory := f }

/-- The state with one more event. -/
def State.emit (s : State) (e : Event) : State :=
  { s with trace := s.trace ++ [e] }

/-- The function `getInstanceByName`. -/
def getInstanceByName (s : State) (name : String) : Option Inst :=
  match s.appFactory with
  | some r => r.GetInstance (ToLowerCamel name)
  | none => none

/-- The function `saveInstance`. -/
def saveInstance (name : String) (inst : Inst) (s : State) : Option Error × State :=
  match s.appFactory with
  | none => (some Error.ErrFactoryIsNil, s)
  | some r =>
    match r.SetInstance (LowerFirst name) inst with
    | (r1, ok) =>
      (if ok then none else some (Error.instanceExists (LowerFirst name)),
       ({ s with appFactory := some r1 }).emit (Event.store (LowerFirst name) inst ok))

/-- The function `reflector.GetName`: the name of the type of the dereferenced object, `none`
for the error `ErrInvalidInput`. -/
def GetName (env : TypeEnv) (h : Heap) (data : Option Inst) : Option String :=
  if (Indirect env h (ValueOf data)).IsValid then some (Indirect env h (ValueOf data)).Type.Name
  else none

/-- The function `reflector.ParseObjectName`, e.g. ExampleObject => example. -/
def ParseObjectName (env : TypeEnv) (h : Heap) (obj : Option Inst) (eliminator : String) : String :=
  match GetName env h obj with
  | some name => LowerFirst (stringsRemoveAll name eliminator)
  | none => ""

/-! ## Field injection -/

/-- The type `*system.Configuration` of the instance `systemConfiguration`. -/
def systemConfigurationType : GoType :=
  GoType.ptr (GoType.named "github.com/hidevopsio/hiboot/pkg/system" "Configuration")

/-- The type `cmap.ConcurrentMap` of the instance `configurations`. -/
def concurrentMapType : GoType :=
  GoType.named "github.com/hidevopsio/hiboot/pkg/utils/cmap" "ConcurrentMap"

/-- How the body of a loop of `IntoObjectValue` ends: `ret e` is `return e` from the function,
`next v` carries on with `v`. -/
inductive Flow (α : Type)
  | ret (e : Error)
  | next (v : α)
  deriving DecidableEq, Repr

/-- The loop over the resolvers of `IntoObjectValue` (lines 150 to 170) for the member `f` of
`object`; `i` is the position of the first resolver of the list in the whole resolver list.
It ends with `return ErrInvalidTagName` or with the injected object, nil when no resolver
produced one. -/
def tagLoop (c : Ctx) (object : Value) (f : StructField) :
    List Tag → Nat → State → Flow (Option Inst) × State
  | [], _, s => (Flow.next none, s)
  | tagImpl :: rest, i, s =>
    if ParseObjectName c.env s.heap tagImpl.self "Tag" = "" then (Flow.ret Error.ErrInvalidTagName, s)
    else
      match f.Tag.Lookup (ParseObjectName c.env s.heap tagImpl.self "Tag") with
      | some tag =>
        match tagImpl.Decode object f tag with
        | some injectedObject =>
          if tagImpl.IsSingleton then
            (Flow.next (some injectedObject),
             (saveInstance f.Name injectedObject
               ((s.emit (Event.tagInit i object f.Name)).emit
                 (Event.tagDecode i object f.Name tag))).2)
          else
            (Flow.next (some injectedObject),
             (s.emit (Event.tagInit i object f.Name)).emit (Event.tagDecode i object f.Name tag))
        | none =>
          tagLoop c object f rest (i + 1)
            ((s.emit (Event.tagInit i object f.Name)).emit (Event.tagDecode i object f.Name tag))
      | none => tagLoop c object f rest (i + 1) s

/-- Lines 148 to 171 of `IntoObjectValue`: the convention lookup by the name of the member and,
when it finds nothing, the loop over the resolvers. -/
def resolveField (c : Ctx) (object : Value) (targetTags : List Tag) (f : StructField)
    (s : State) : Flow (Option Inst) × State :=
  match getInstanceByName s f.Name with
  | some injectedObject => (Flow.next (some injectedObject), s)
  | none => tagLoop c object f targetTags 0 s

/-- Go's `Value.Set` on a settable Value, with the value of an `interface{}`: it panics when
the type of the value is not assignable to the type of the place. -/
def Value.Set (env : TypeEnv) (fieldObj : Value) (inst : Inst) (s : State) : Outcome Unit :=
  match fieldObj with
  | .ref t a path _ _ =>
    if assignable env inst.1 t then
      match s.heap[a]? with
      | some cell =>
        match cell.update path (if t.Kind env = Kind.Interface then Val.iface inst.1 inst.2 else inst.2) with
        | some cell1 =>
          Outcome.done () (({ s with heap := s.heap.set a cell1 }).emit (Event.set a path inst))
        | none => Outcome.panic s
      | none => Outcome.panic s
    else Outcome.panic s
  | _ => Outcome.panic s

/-- Lines 173 to 177 of `IntoObjectValue`: the injected object is assigned when there is one
and the member can be set. -/
def assignField (env : TypeEnv) (fieldObj : Value) (injectedObject : Option Inst) (s : State) :
    Outcome Unit :=
  match injectedObject with
  | some inst => if fieldObj.CanSet then Value.Set env fieldObj inst s else Outcome.done () s
  | none => Outcome.done () s

/-- Lines 181 to 186 of `IntoObjectValue`: the recursive call on a member that dereferences to
a struct of another type than the object; `recur` is `IntoObjectValue`. -/
def nestedField (env : TypeEnv) (recur : Value → List Tag → State → Outcome (Option Error))
    (obj fieldObj : Value) (tags : List Tag) (err : Option Error) (s : State) :
    Outcome (Option Error) :=
  if (reflectIndirect env s.heap fieldObj).Kind env = Kind.Struct ∧ fieldObj.IsValid = true ∧
      fieldObj.CanSet = true ∧ (reflectIndirect env s.heap fieldObj).Type ≠ obj.Type then
    recur fieldObj tags s
  else Outcome.done err s

/-- Lines 134 to 177 of `IntoObjectValue`, the injection proper for one member: the member is
looked up by name in the object, resolved and assigned.  The result is the member's Value. -/
def injectStep (c : Ctx) (object obj : Value) (targetTags : List Tag) (f : StructField)
    (s : State) : Outcome (Flow Value) :=
  match (if obj.IsValid && obj.Kind c.env == Kind.Struct then obj.FieldByName c.env s.heap f.Name
         else some Value.zero) with
  | none => Outcome.panic s
  | some fieldObj =>
    match resolveField c object targetTags f s with
    | (Flow.ret e, s1) => Outcome.done (Flow.ret e) s1
    | (Flow.next injectedObject, s1) =>
      match assignField c.env fieldObj injectedObject s1 with
      | Outcome.done _ s2 => Outcome.done (Flow.next fieldObj) s2
      | Outcome.panic s2 => Outcome.panic s2
      | Outcome.diverge => Outcome.diverge

/-- The body of the loop over the members of `IntoObjectValue` (lines 132 to 186). -/
def injectField (c : Ctx) (recur : Value → List Tag → State → Outcome (Option Error))
    (object obj : Value) (tags targetTags : List Tag) (f : StructField) (err : Option Error)
    (s : State) : Outcome (Flow (Option Error)) :=
  match injectStep c object obj targetTags f s with
  | Outcome.done (Flow.ret e) s1 => Outcome.done (Flow.ret e) s1
  | Outcome.done (Flow.next fieldObj) s2 =>
    match nestedField c.env recur obj fieldObj tags err s2 with
    | Outcome.done err1 s3 => Outcome.done (Flow.next err1) s3
    | Outcome.panic s3 => Outcome.panic s3
    | Outcome.diverge => Outcome.diverge
  | Outcome.panic s1 => Outcome.panic s1
  | Outcome.diverge => Outcome.diverge

/-- The loop over the members of `IntoObjectValue` (line 131). -/
def fieldLoop (c : Ctx) (recur : Value → List Tag → State → Outcome (Option Error))
    (object obj : Value) (tags targetTags : List Tag) :
    List StructField → Option Error → State → Outcome (Flow (Option Error))
  | [], err, s => Outcome.done (Flow.next err) s
  | f :: rest, err, s =>
    match injectField c recur object obj tags targetTags f err s with
    | Outcome.done (Flow.next err1) s1 => fieldLoop c recur object obj tags targetTags rest err1 s1
    | Outcome.done (Flow.ret e) s1 => Outcome.done (Flow.ret e) s1
    | Outcome.panic s1 => Outcome.panic s1
    | Outcome.diverge => Outcome.diverge

/-! ## Method injection -/

/-- Go's `reflect.New`: a new cell with the zero value of the type, and the pointer to it. -/
def reflectNew (env : TypeEnv) (t : GoType) (s : State) : Inst × State :=
  ((GoType.ptr t, Val.ptr s.heap.length),
   { s with heap := s.heap ++ [zeroVal env (env.length + 1) t] })

/-- The function `parseMethodInput`: the parameter value and whether there is one. -/
def parseMethodInput (c : Ctx) (inType : GoType) (s : State) : (Value × Bool) × State :=
  match getInstanceByName s (IndirectType inType).Name with
  | some inst => ((ValueOf (some inst), true), s)
  | none =>
    match getInstanceByName s
        (DirName (IndirectType inType).PkgPath ++ (IndirectType inType).Name) with
    | some inst => ((ValueOf (some inst), true), s)
    | none =>
      if (IndirectType inType).Kind c.env = Kind.Interface ∨
          (IndirectType inType).Kind c.env = Kind.Slice then
        ((Value.zero, false), s)
      else
        ((ValueOf (some (reflectNew c.env (IndirectType inType) s).1), true),
         (saveInstance (IndirectType inType).Name (reflectNew c.env (IndirectType inType) s).1
           (reflectNew c.env (IndirectType inType) s).2).2)

/-- The loop over the parameters of the hook (lines 197 to 210): the inputs collected so far,
whether every parameter was resolved, and the error of the last recursive call. -/
def paramLoop (c : Ctx) (recur : Value → List Tag → State → Outcome (Option Error))
    (obj : Value) (tags : List Tag) :
    List GoType → List Value → Option Error → State → Outcome ((Bool × List Value) × Option Error)
  | [], inputs, err, s => Outcome.done ((true, inputs), err) s
  | inType :: rest, inputs, err, s =>
    match parseMethodInput c inType s with
    | ((val, true), s1) =>
      if val.IsValid = true ∧ (reflectIndirect c.env s1.heap val).IsValid = true ∧
          (reflectIndirect c.env s1.heap val).Type ≠ obj.Type ∧
          (reflectIndirect c.env s1.heap val).Kind c.env = Kind.Struct then
        match recur val tags s1 with
        | Outcome.done err1 s2 => paramLoop c recur obj tags rest (inputs ++ [val]) err1 s2
        | Outcome.panic s2 => Outcome.panic s2
        | Outcome.diverge => Outcome.diverge
      else paramLoop c recur obj tags rest (inputs ++ [val]) err s1
    | ((_, false), s1) => Outcome.done ((false, inputs), err) s1

/-- Whether a Value was obtained through an unexported member (`flagRO`). -/
def Value.isRO : Value → Bool
  | .zero => false
  | .imm _ _ sticky embed => sticky || embed
  | .ref _ _ _ sticky embed => sticky || embed

/-- Go's `Value.Call` for the hook, with the address of `obj` as receiver: it panics when an
argument is not assignable to the type of its parameter or was obtained through an unexported
member; otherwise the body of the hook runs on the heap and the call is recorded in the
trace. -/
def callHook (c : Ctx) (obj : Value) (ins : List GoType) (args : List Value) (s : State) :
    Outcome Unit :=
  if (List.zipWith (fun (a : GoType) (t : GoType) => assignable c.env a t)
        (GoType.ptr obj.Type :: args.map Value.Type) ins).all (fun ok => ok) && !obj.isRO then
    Outcome.done () (({ s with heap := c.hooks obj args s.heap }).emit (Event.call obj args))
  else Outcome.panic s

/-- Lines 191 to 215 of `IntoObjectValue`: the hook `Init` is looked up on the type of the
object, its parameters are resolved and it is called. -/
def injectMethod (c : Ctx) (recur : Value → List Tag → State → Outcome (Option Error))
    (object obj : Value) (tags : List Tag) (err : Option Error) (s : State) :
    Outcome (Option Error) :=
  match MethodByName c.env object.Type with
  | none => Outcome.done err s
  | some ins =>
    match obj with
    | .ref _ _ _ _ _ =>
      match paramLoop c recur obj tags ins.tail [] err s with
      | Outcome.done ((true, inputs), err1) s1 =>
        match callHook c obj ins inputs s1 with
        | Outcome.done _ s2 => Outcome.done err1 s2
        | Outcome.panic s2 => Outcome.panic s2
        | Outcome.diverge => Outcome.diverge
      | Outcome.done ((false, _), err1) s1 => Outcome.done err1 s1
      | Outcome.panic s1 => Outcome.panic s1
      | Outcome.diverge => Outcome.diverge
    | _ => Outcome.panic s

/-! ## The entry points -/

/-- The function `IntoObjectValue`. -/
def IntoObjectValue (c : Ctx) : Nat → Value → List Tag → State → Outcome (Option Error)
  | 0, _, _, _ => Outcome.diverge
  | fuel + 1, object, tags, s =>
    match s.appFactory with
    | none => Outcome.done (some Error.ErrSystemConfiguration) s
    | some factory =>
      if (Indirect c.env s.heap object).Kind c.env ≠ Kind.Struct then
        Outcome.done (some Error.ErrInvalidObject) s
      else
        match factory.GetInstance "systemConfiguration" with
        | none => Outcome.done (some Error.ErrSystemConfiguration) s
        | some sc =>
          if sc.1 ≠ systemConfigurationType then Outcome.panic s
          else
            match factory.GetInstance "configurations" with
            | none => Outcome.done (some Error.ErrSystemConfiguration) s
            | some cs =>
              if cs.1 ≠ concurrentMapType then Outcome.panic s
              else
                match DeepFields c.env fuel object.Type with
                | none => Outcome.diverge
                | some fields =>
                  match fieldLoop c (IntoObjectValue c fuel) object (Indirect c.env s.heap object)
                      tags (if tags.length ≠ 0 then tags else c.tagsContainer) fields none s with
                  | Outcome.done (Flow.ret e) s1 => Outcome.done (some e) s1
                  | Outcome.done (Flow.next err) s1 =>
                    injectMethod c (IntoObjectValue c fuel) object
                      (Indirect c.env s.heap object) tags err s1
                  | Outcome.panic s1 => Outcome.panic s1
                  | Outcome.diverge => Outcome.diverge

/-- The function `IntoObject`. -/
def IntoObject (c : Ctx) (fuel : Nat) (object : Option Inst) (s : State) : Outcome (Option Error) :=
  IntoObjectValue c fuel (ValueOf object) [] s

/-! ## Function injection -/

/-- The loop over the parameters of `IntoFunc` (lines 260 to 273): the inputs collected so far
and the error of the last call of `IntoObjectValue`; it ends with the `return` of the error
that names the type of a parameter that is not injected. -/
def funcParamLoop (c : Ctx) (fuel : Nat) :
    List GoType → List Value → Option Error → State →
      Outcome (Flow (List Value × Option Error))
  | [], inputs, err, s => Outcome.done (Flow.next (inputs, err)) s
  | fnInType :: rest, inputs, err, s =>
    match parseMethodInput c fnInType s with
    | ((val, true), s1) =>
      if val.IsValid = true ∧ (reflectIndirect c.env s1.heap val).IsValid = true ∧
          (reflectIndirect c.env s1.heap val).Kind c.env = Kind.Struct then
        match IntoObjectValue c fuel val [] s1 with
        | Outcome.done err1 s2 => funcParamLoop c fuel rest (inputs ++ [val]) err1 s2
        | Outcome.panic s2 => Outcome.panic s2
        | Outcome.diverge => Outcome.diverge
      else funcParamLoop c fuel rest (inputs ++ [val]) err s1
    | ((_, false), s1) => Outcome.done (Flow.ret (Error.notInjected fnInType.Name)) s1

/-- Go's `Value.Call` for a function: it panics for a nil function and when an argument is not
assignable to the type of its parameter; otherwise the call is recorded in the trace and the
results are those of the body. -/
def callFunc (c : Ctx) (fn : Value) (args : List Value) (s : State) :
    Outcome (List (Option Inst)) :=
  match fn.load s.heap with
  | Val.func body =>
    if (List.zipWith (fun (a : GoType) (t : GoType) => assignable c.env a t)
          (args.map Value.Type) (fn.Type.In c.env)).all (fun ok => ok) then
      Outcome.done (c.funcs body args) (s.emit (Event.invoke fn args))
    else Outcome.panic s
  | _ => Outcome.panic s

/-- The function `IntoFunc`: the first result of the function when it has one, and the error. -/
def IntoFunc (c : Ctx) (fuel : Nat) (object : Option Inst) (s : State) :
    Outcome (Option Inst × Option Error) :=
  if (ValueOf object).Kind c.env = Kind.Func then
    match funcParamLoop c fuel ((ValueOf object).Type.In c.env) [] none s with
    | Outcome.done (Flow.ret e) s1 => Outcome.done (none, some e) s1
    | Outcome.done (Flow.next (inputs, _)) s1 =>
      match callFunc c (ValueOf object) inputs s1 with
      | Outcome.done results s2 =>
        match results with
        | r :: _ => Outcome.done (r, none) s2
        | [] => Outcome.done (none, none) s2
      | Outcome.panic s2 => Outcome.panic s2
      | Outcome.diverge => Outcome.diverge
    | Outcome.panic s1 => Outcome.panic s1
    | Outcome.diverge => Outcome.diverge
  else Outcome.done (none, some Error.ErrInvalidFunc) s

/-! ## Embedded interface members -/

/-- The zero `reflect.StructField`. -/
def StructField.zero : StructField :=
  { Name := "", Typ := GoType.basic Kind.Invalid }

/-- The loop over the members in `reflector.GetEmbeddedInterfaceFieldByType`; `search` is the
recursive call.  The first anonymous member ends the loop. -/
def embeddedInterfaceLoop (env : TypeEnv) (search : GoType → Option StructField) :
    List StructField → Option StructField
  | [] => some StructField.zero
  | v :: rest =>
    if v.Anonymous then
      if v.Typ.Kind env = Kind.Interface then some v else search v.Typ
    else embeddedInterfaceLoop env search rest

/-- The function `reflector.GetEmbeddedInterfaceFieldByType`; `none` is exhausted fuel. -/
def GetEmbeddedInterfaceFieldByType (env : TypeEnv) : Nat → GoType → Option StructField
  | 0, _ => none
  | fuel + 1, typ =>
    if typ.Kind env = Kind.Struct then
      embeddedInterfaceLoop env (GetEmbeddedInterfaceFieldByType env fuel) (typ.Fields env)
    else some StructField.zero

/-- The function `reflector.GetEmbeddedInterfaceField`. -/
def GetEmbeddedInterfaceField (env : TypeEnv) (fuel : Nat) (object : Option Inst) :
    Option StructField :=
  match object with
  | none => some StructField.zero
  | some inst => GetEmbeddedInterfaceFieldByType env fuel (IndirectType inst.1)

/-! ## Registration (package app) -/

/-- The error of package app. -/
inductive AppError
  | ErrInvalidObjectType
  deriving DecidableEq, Repr

/-- The function `hasTwoParams` of package app; `none` is the panic of
`reflect.TypeOf(params[0]).Kind()` for a nil first parameter. -/
def hasTwoParams (env : TypeEnv) (params : List (Option Inst)) : Option Bool :=
  if params.length = 2 then
    match params[0]? with
    | some (some inst) => some (inst.1.Kind env == Kind.String)
    | _ => none
  else some false

/-- The function `appendParams` of package app: the container that is returned and the error;
`none` is a panic.  An item has two places. -/
def appendParams (env : TypeEnv) (container : List (List (Option Inst)))
    (params : List (Option Inst)) : Option (List (List (Option Inst)) × Option AppError) :=
  if params.length = 0 ∨ params[0]? = some none then
    some (container, some AppError.ErrInvalidObjectType)
  else
    match hasTwoParams env params with
    | none => none
    | some two =>
      match (if two then (params[1]?).getD none else (params[0]?).getD none) with
      | some inst =>
        if inst.1.Kind env = Kind.Func ∨ inst.1.Kind env = Kind.Ptr then
          some (container ++
            [if two then [(params[0]?).getD none, (params[1]?).getD none]
             else [(params[0]?).getD none, none]], none)
        else some (container, some AppError.ErrInvalidObjectType)
      | none => some (container, some AppError.ErrInvalidObjectType)

/-- The package variables `configContainer` and `componentContainer` of package app. -/
structure Containers where
  configContainer : List (List (Option Inst)) := []
  componentContainer : List (List (Option Inst)) := []
  deriving DecidableEq, Repr

/-- The function `AutoConfiguration` of package app; `none` is a panic. -/
def AutoConfiguration (env : TypeEnv) (params : List (Option Inst)) (a : Containers) :
    Option (Option AppError × Containers) :=
  match appendParams env a.configContainer params with
  | some (r, err) => some (err, { a with configContainer := r })
  | none => none

/-- The function `Component` of package app; `none` is a panic. -/
def Component (env : TypeEnv) (params : List (Option Inst)) (a : Containers) :
    Option (Option AppError × Containers) :=
  match appendParams env a.componentContainer params with
  | some (r, err) => some (err, { a with componentContainer := r })
  | none => none

/-! ## Notions used in the statements -/

/-- The position, in the resolver list, of the resolver that an event is a call of. -/
def Event.tagIndex : Event → Option Nat
  | .tagInit i _ _ => some i
  | .tagDecode i _ _ _ => some i
  | _ => none

/-- The name of the member for which an event calls a resolver. -/
def Event.tagField : Event → Option String
  | .tagInit _ _ n => some n
  | .tagDecode _ _ n _ => some n
  | _ => none

/-- Whether an event is a call of `SetInstance`. -/
def Event.isStore : Event → Bool
  | .store _ _ _ => true
  | _ => false

/-- What a resolver yields for the member `f` of `object`: the result of its `Decode` when its
keyword is a key of the tag of the member, nothing otherwise. -/
def decodes (c : Ctx) (h : Heap) (object : Value) (f : StructField) (t : Tag) : Option Inst :=
  (f.Tag.Lookup (ParseObjectName c.env h t.self "Tag")).bind (t.Decode object f)

/-- A configured system: the registry reference is set and the registry holds the system
configuration and the shared configuration mapping under their well-known names. -/
def State.configured (s : State) : Bool :=
  match s.appFactory with
  | some r =>
    (match r.GetInstance "systemConfiguration" with
     | some sc => sc.1 == systemConfigurationType
     | none => false) &&
    (match r.GetInstance "configurations" with
     | some cs => cs.1 == concurrentMapType
     | none => false)
  | none => false

/-- The registry is well typed: what it holds under the two well-known names, if anything, is
the system configuration (a `*system.Configuration`) and the shared configuration mapping (a
`cmap.ConcurrentMap`). -/
def State.wellTyped (s : State) : Bool :=
  match s.appFactory with
  | some r =>
    (match r.GetInstance "systemConfiguration" with
     | some sc => sc.1 == systemConfigurationType
     | none => true) &&
    (match r.GetInstance "configurations" with
     | some cs => cs.1 == concurrentMapType
     | none => true)
  | none => true

/-- The value at a field path of a heap cell. -/
def Heap.valAt (h : Heap) (a : Nat) (path : List String) : Option Val :=
  h[a]?.bind (fun cell => cell.atPath path)

/-- A property of the way a call ends: `P` of the result and the state when it returns, `Q` of
the state when it panics. -/
def Outcome.holds {α : Type} (o : Outcome α) (P : α → State → Prop) (Q : State → Prop) : Prop :=
  match o with
  | .done a s => P a s
  | .panic s => Q s
  | .diverge => True

/-- The returned value and the final state of a call that returned. -/
def Outcome.returned {α : Type} : Outcome α → Option (α × State)
  | .done a s => some (a, s)
  | _ => none

/-! ## Example programs -/

/-- The type `Foo` of the examples. -/
def fooType : GoType := GoType.named "app" "Foo"

/-- The type `Baz` of the examples. -/
def bazType : GoType := GoType.named "app" "Baz"

/-- The declarations `type Foo struct { Bar *Baz }` and `type Baz struct { X int }`, together
with a struct `Priv` with the unexported member `bar *Baz`, a struct `Holder` with the tagged
member `My_Dep *Baz`, three resolver types, and the configuration type of package system: the
struct `Configuration` with the members `App`, `Server` and `Logging` that package web reads
from it, of the types `App`, `Server` and `Logging` of `pkg/system/properties.go` (the
declaration of `Configuration` itself is not among the sources). -/
def exampleEnv : TypeEnv :=
  [ { PkgPath := "app", Name := "Foo", Fields := [{ Name := "Bar", Typ := GoType.ptr bazType }] },
    { PkgPath := "app", Name := "Baz", Fields := [{ Name := "X", Typ := GoType.basic Kind.Int }] },
    { PkgPath := "app", Name := "Priv",
      Fields := [{ Name := "bar", PkgPath := "app", Typ := GoType.ptr bazType }] },
    { PkgPath := "app", Name := "Holder",
      Fields := [{ Name := "My_Dep", Typ := GoType.ptr bazType,
                   Tag := [("first", "a"), ("second", "b")] }] },
    { PkgPath := "app", Name := "firstTag" },
    { PkgPath := "app", Name := "secondTag" },
    { PkgPath := "app", Name := "Tag" },
    { PkgPath := "github.com/hidevopsio/hiboot/pkg/system", Name := "Configuration",
      Fields := [{ Name := "App",
                   Typ := GoType.named "github.com/hidevopsio/hiboot/pkg/system" "App" },
                 { Name := "Server",
                   Typ := GoType.named "github.com/hidevopsio/hiboot/pkg/system" "Server" },
                 { Name := "Logging",
                   Typ := GoType.named "github.com/hidevopsio/hiboot/pkg/system" "Logging" }] },
    { PkgPath := "github.com/hidevopsio/hiboot/pkg/system", Name := "Profiles",
      Fields := [{ Name := "Include", Typ := GoType.slice (GoType.basic Kind.String),
                   Tag := [("json", "include")] },
                 { Name := "Active", Typ := GoType.basic Kind.String,
                   Tag := [("json", "active"), ("default", "$\x7bAPP_PROFILES_ACTIVE:dev\x7d")] }] },
    { PkgPath := "github.com/hidevopsio/hiboot/pkg/system", Name := "App",
      Fields := [{ Name := "Project", Typ := GoType.basic Kind.String,
                   Tag := [("json", "project"), ("default", "hidevopsio")] },
                 { Name := "Name", Typ := GoType.basic Kind.String,
                   Tag := [("json", "name"), ("default", "hiboot-app")] },
                 { Name := "Profiles",
                   Typ := GoType.named "github.com/hidevopsio/hiboot/pkg/system" "Profiles",
                   Tag := [("json", "profiles")] }] },
    { PkgPath := "github.com/hidevopsio/hiboot/pkg/system", Name := "Server",
      Fields := [{ Name := "Port", Typ := GoType.basic Kind.String,
                   Tag := [("json", "port"), ("default", "8080")] }] },
    { PkgPath := "github.com/hidevopsio/hiboot/pkg/system", Name := "Logging",
      Fields := [{ Name := "Level", Typ := GoType.basic Kind.String,
                   Tag := [("json", "level"), ("default", "info")] }] } ]

/-- The heap of the examples: a zero system configuration (cell 0), `Baz{X: 5}` (cell 1), a
zero `Foo` (cell 2), a zero `Priv` (cell 3), a zero `Holder` (cell 4), three resolver objects
(cells 5 to 7) and a pointer to the `Foo` (cell 8). -/
def exampleHeap : Heap :=
  [ Val.struct
      (Fields.cons "App"
        (Val.struct (Fields.cons "Project" (Val.str "") (Fields.cons "Name" (Val.str "")
          (Fields.cons "Profiles"
            (Val.struct (Fields.cons "Include" Val.nil
              (Fields.cons "Active" (Val.str "") Fields.nil))) Fields.nil))))
        (Fields.cons "Server" (Val.struct (Fields.cons "Port" (Val.str "") Fields.nil))
          (Fields.cons "Logging" (Val.struct (Fields.cons "Level" (Val.str "") Fields.nil))
            Fields.nil))),
    Val.struct (Fields.cons "X" (Val.int 5) Fields.nil),
    Val.struct (Fields.cons "Bar" Val.nil Fields.nil),
    Val.struct (Fields.cons "bar" Val.nil Fields.nil),
    Val.struct (Fields.cons "My_Dep" Val.nil Fields.nil),
    Val.struct Fields.nil,
    Val.struct Fields.nil,
    Val.struct Fields.nil,
    Val.ptr 2 ]

/-- The instance `&Baz{X: 5}`. -/
def bazInst : Inst := (GoType.ptr bazType, Val.ptr 1)

/-- The registry of a configured system with no further entry. -/
def configuredRegistry : Registry :=
  [ ("systemConfiguration", (systemConfigurationType, Val.ptr 0)),
    ("configurations", (concurrentMapType, Val.nil)) ]

/-- The state of a configured system whose registry also holds `entry`. -/
def exampleState (entries : Registry) : State :=
  { appFactory := some (configuredRegistry ++ entries), heap := exampleHeap }

/-- The context of the examples without registered resolvers. -/
def exampleCtx : Ctx := { env := exampleEnv }

/-- The pointer to the zero `Foo`. -/
def fooPtr : Inst := (GoType.ptr fooType, Val.ptr 2)

/-- The pointer to the zero `Holder`. -/
def holderPtr : Inst := (GoType.ptr (GoType.named "app" "Holder"), Val.ptr 4)

/-- A resolver of struct type `firstTag`, keyword `first`, whose `Decode` yields `result`. -/
def firstTag (result : Option Inst) (singleton : Bool) : Tag :=
  { self := some (GoType.ptr (GoType.named "app" "firstTag"), Val.ptr 5),
    Decode := fun _ _ _ => result,
    IsSingleton := singleton }

/-- A resolver of struct type `secondTag`, keyword `second`, whose `Decode` yields `result`. -/
def secondTag (result : Option Inst) (singleton : Bool) : Tag :=
  { self := some (GoType.ptr (GoType.named "app" "secondTag"), Val.ptr 6),
    Decode := fun _ _ _ => result,
    IsSingleton := singleton }

/-- A resolver of struct type `Tag`, whose keyword is empty. -/
def namelessTag : Tag :=
  { self := some (GoType.ptr (GoType.named "app" "Tag"), Val.ptr 7),
    Decode := fun _ _ _ => none,
    IsSingleton := false }

/-- The member `My_Dep` of `Holder`, with the tag keys `first` and `second`. -/
def holderField : StructField :=
  { Name := "My_Dep", Typ := GoType.ptr bazType, Tag := [("first", "a"), ("second", "b")] }

/-- The steps by which the engine itself changes the state all preserve `Inv`: the calls of a
resolver (made only for a member without convention match), `saveInstance`, the assignment of
the resolved instance to the member looked up by name, and `reflect.New`. -/
structure Steps (c : Ctx) (Inv : State → Prop) : Prop where
  tag : ∀ (s : State) (i : Nat) (object : Value) (f : StructField) (tag : String), Inv s →
    getInstanceByName s f.Name = none →
    Inv ((s.emit (Event.tagInit i object f.Name)).emit (Event.tagDecode i object f.Name tag))
  save : ∀ (s : State) (name : String) (inst : Inst), Inv s → Inv (saveInstance name inst s).2
  assign : ∀ (s s1 : State) (object obj : Value) (targetTags : List Tag) (f : StructField)
    (fieldObj : Value) (inst : Inst) (s2 : State), Inv s → Inv s1 →
    (if obj.IsValid && obj.Kind c.env == Kind.Struct then obj.FieldByName c.env s.heap f.Name
      else some Value.zero) = some fieldObj →
    resolveField c object targetTags f s = (Flow.next (some inst), s1) →
    fieldObj.CanSet = true →
    Value.Set c.env fieldObj inst s1 = Outcome.done () s2 → Inv s2
  alloc : ∀ (s : State) (t : GoType), Inv s → Inv (reflectNew c.env t s).2

/-- The steps by which a call changes the state all preserve `Inv`: those of the engine itself
and the call of a hook, whatever its receiver and its arguments. -/
structure Preserved (c : Ctx) (Inv : State → Prop) extends Steps c Inv : Prop where
  call : ∀ (s : State) (obj : Value) (args : List Value), Inv s →
    Inv (({ s with heap := c.hooks obj args s.heap }).emit (Event.call obj args))

/-- What the invariant lemmas show of a (recursive) call of `IntoObjectValue`: started in a
state with `Inv` it ends in a state with `Inv`, and it returns `ErrInvalidObject` only for a
target that does not dereference to a struct. -/
def RecSound (c : Ctx) (Inv : State → Prop)
    (recur : Value → List Tag → State → Outcome (Option Error)) : Prop :=
  ∀ (v : Value) (tags : List Tag) (s : State), Inv s →
    (recur v tags s).holds
      (fun e s2 => Inv s2 ∧
        (e = some Error.ErrInvalidObject → (Indirect c.env s.heap v).Kind c.env ≠ Kind.Struct))
      Inv

/-- The type `Service` of the examples. -/
def serviceType : GoType := GoType.named "app" "Service"

/-- The interface type `Dep` of the examples. -/
def depType : GoType := GoType.named "app" "Dep"

/-- The declarations of the examples, with more types: `Pair{Bar *Baz; Svc *Service}`;
the interface `Dep`; `Hooked`, `Sliced` and `Worker{Bar *Baz}` with the hooks
`Init(Dep)`, `Init([]Baz)` and `Init(*Service)`; `Service`; the function types
`func(*Service) *Service` and `func(*Service, Dep, *Baz)`; `Ctl{Dep; Foo; Name string}` and
`Late{Foo; Dep}` with anonymous members. -/
def moreEnv : TypeEnv :=
  exampleEnv ++
  [ { PkgPath := "app", Name := "Pair",
      Fields := [{ Name := "Bar", Typ := GoType.ptr bazType },
                 { Name := "Svc", Typ := GoType.ptr serviceType }] },
    { PkgPath := "app", Name := "Dep", kind := Kind.Interface },
    { PkgPath := "app", Name := "Hooked", Init := some { In := [depType] } },
    { PkgPath := "app", Name := "Sliced", Init := some { In := [GoType.slice bazType] } },
    { PkgPath := "app", Name := "Worker",
      Fields := [{ Name := "Bar", Typ := GoType.ptr bazType }],
      Init := some { In := [GoType.ptr serviceType] } },
    { PkgPath := "app", Name := "Service" },
    { Name := "func(*Service) *Service", kind := Kind.Func, In := [GoType.ptr serviceType] },
    { Name := "func(*Service, Dep, *Baz)", kind := Kind.Func,
      In := [GoType.ptr serviceType, depType, GoType.ptr bazType] },
    { PkgPath := "app", Name := "Ctl",
      Fields := [{ Name := "Dep", Typ := depType, Anonymous := true },
                 { Name := "Foo", Typ := fooType, Anonymous := true },
                 { Name := "Name", Typ := GoType.basic Kind.String }] },
    { PkgPath := "app", Name := "Late",
      Fields := [{ Name := "Foo", Typ := fooType, Anonymous := true },
                 { Name := "Dep", Typ := depType, Anonymous := true }] } ]

/-- The heap of the examples, with more cells: a zero `Pair` (cell 9), a zero `Hooked`
(cell 10), a zero `Sliced` (cell 11) and a zero `Worker` (cell 12). -/
def moreHeap : Heap :=
  exampleHeap ++
  [ Val.struct (Fields.cons "Bar" Val.nil (Fields.cons "Svc" Val.nil Fields.nil)),
    Val.struct Fields.nil,
    Val.struct Fields.nil,
    Val.struct (Fields.cons "Bar" Val.nil Fields.nil) ]

/-- The state of a configured system over the larger heap whose registry also holds
`entries`. -/
def moreState (entries : Registry) : State :=
  { appFactory := some (configuredRegistry ++ entries), heap := moreHeap }

/-- The function `func(s *Service) *Service { return s }`, as function 0 of the program: it
returns its argument. -/
def identityFuncs : Nat → List Value → List (Option Inst) :=
  fun _ args =>
    match args with
    | v :: _ => [some (v.Type, v.load [])]
    | [] => []

/-- The function value `func(s *Service) *Service { return s }`. -/
def identityFunc : Inst := (GoType.named "" "func(*Service) *Service", Val.func 0)

/-- The pointer to the zero `Pair`. -/
def pairPtr : Inst := (GoType.ptr (GoType.named "app" "Pair"), Val.ptr 9)

/-- The state of a configured system whose registry also holds `&Baz{X: 5}` under `bar` and a
`&Service{}` (cell 13 of its heap) under `svc`. -/
def pairState : State :=
  { appFactory := some (configuredRegistry ++
      [("bar", bazInst), ("svc", (GoType.ptr serviceType, Val.ptr 13))]),
    heap := moreHeap ++ [Val.struct Fields.nil] }

/-- The pointer to the zero `Hooked`. -/
def hookedPtr : Inst := (GoType.ptr (GoType.named "app" "Hooked"), Val.ptr 10)

/-- The pointer to the zero `Sliced`. -/
def slicedPtr : Inst := (GoType.ptr (GoType.named "app" "Sliced"), Val.ptr 11)

/-- The pointer to the zero `Worker`. -/
def workerPtr : Inst := (GoType.ptr (GoType.named "app" "Worker"), Val.ptr 12)

/-- Whether an event is the invocation of a function by `IntoFunc`. -/
def Event.isInvoke : Event → Bool
  | .invoke _ _ => true
  | _ => false

/-! ## The reference definitions of the specification -/

/-- The loop over the declared members in the reference definition of the flattening, after
the words of the specification: the flattening of the type of the member when the member is
anonymous and itself composite (its type, stripped of pointer and slice wrappers, is a
struct), and the member itself otherwise; `flat` is the flattening. -/
def flattenSpecLoop (env : TypeEnv) (flat : GoType → Option (List StructField)) :
    List StructField → Option (List StructField)
  | [] => some []
  | v :: rest =>
    if v.Anonymous = true ∧ (IndirectType v.Typ).Kind env = Kind.Struct then
      match flat v.Typ with
      | none => none
      | some sub =>
        match flattenSpecLoop env flat rest with
        | none => none
        | some fields => some (sub ++ fields)
    else
      match flattenSpecLoop env flat rest with
      | none => none
      | some fields => some (v :: fields)

/-- The reference definition of the flattening of a type, after the words of the
specification: pointer and slice wrappers are stripped; what is not a struct has the empty
flattening; for a struct the contributions of the declared members are concatenated in
declaration order.  `none` is exhausted fuel. -/
def FlattenSpec (env : TypeEnv) : Nat → GoType → Option (List StructField)
  | 0, _ => none
  | fuel + 1, t =>
    if (IndirectType t).Kind env = Kind.Struct then
      flattenSpecLoop env (FlattenSpec env fuel) ((IndirectType t).Fields env)
    else some []

/-- The reference definition of `FindCapabilityField`, after the words of the specification:
the first anonymous member of interface kind, in declaration order, of the struct type of the
object stripped of pointer and slice wrappers; the zero descriptor when there is none and for
a nil object. -/
def FindCapabilityFieldSpec (env : TypeEnv) (object : Option Inst) : StructField :=
  match object with
  | none => StructField.zero
  | some inst =>
    (((IndirectType inst.1).Fields env).find?
      (fun f => f.Anonymous && f.Typ.Kind env == Kind.Interface)).getD StructField.zero

/-- The name without the suffix at its end, when it ends with the suffix. -/
def stripSuffixSpec (name suffix : List Char) : List Char :=
  if suffix.isSuffixOf name then name.take (name.length - suffix.length) else name

/-- The reference definition of the tag keyword, after the words of the specification: the
type name with the fixed suffix stripped from its end and the remainder lower-camel-cased. -/
def TagKeywordSpec (name suffix : String) : String :=
  ToLowerCamel (String.mk (stripSuffixSpec name.toList suffix.toList))

/-- The interface type `Other` of the examples. -/
def otherType : GoType := GoType.named "app" "Other"

/-- The declarations of the examples, with more types: `Wrap{inner Baz; Open Baz}` with an
unexported and an exported member that are structs by value; the function type `func(*Baz)`;
the interface `Other`; `Ping` with the hook `Init(Other)` and `Pong` with the hook
`Init(Dep)`. -/
def lastEnv : TypeEnv :=
  moreEnv ++
  [ { PkgPath := "app", Name := "Wrap",
      Fields := [{ Name := "inner", PkgPath := "app", Typ := bazType },
                 { Name := "Open", Typ := bazType }] },
    { Name := "func(*Baz)", kind := Kind.Func, In := [GoType.ptr bazType] },
    { PkgPath := "app", Name := "Other", kind := Kind.Interface },
    { PkgPath := "app", Name := "Ping", Init := some { In := [otherType] } },
    { PkgPath := "app", Name := "Pong", Init := some { In := [depType] } } ]

/-- The heap of the examples, with more cells: a zero `Wrap` (cell 13), a zero `Ping`
(cell 14) and a zero `Pong` (cell 15). -/
def lastHeap : Heap :=
  moreHeap ++
  [ Val.struct (Fields.cons "inner" (Val.struct (Fields.cons "X" (Val.int 0) Fields.nil))
      (Fields.cons "Open" (Val.struct (Fields.cons "X" (Val.int 0) Fields.nil)) Fields.nil)),
    Val.struct Fields.nil,
    Val.struct Fields.nil ]

/-- The state of a configured system over this heap whose registry also holds `entries`. -/
def lastState (entries : Registry) : State :=
  { appFactory := some (configuredRegistry ++ entries), heap := lastHeap }

/-- The pointer to the zero `Wrap`. -/
def wrapPtr : Inst := (GoType.ptr (GoType.named "app" "Wrap"), Val.ptr 13)

/-- The pointer to the zero `Ping`. -/
def pingPtr : Inst := (GoType.ptr (GoType.named "app" "Ping"), Val.ptr 14)

/-- The pointer to the zero `Pong`. -/
def pongPtr : Inst := (GoType.ptr (GoType.named "app" "Pong"), Val.ptr 15)

/-- The registered instance of a registration, after the words of the specification: the
second argument when exactly two arguments are given and the first is a string, otherwise the
first argument; nil when there is no argument. -/
def registeredInstanceSpec (env : TypeEnv) (params : List (Option Inst)) : Option Inst :=
  match params with
  | [] => none
  | [some first, second] => if first.1.Kind env = Kind.String then second else some first
  | first :: _ => first

/-! ## Object graphs without structural self-reference -/

/-- The struct type that a value of type `T`, `*T` or of a declared pointer type over `T` is
or points to. -/
def structOf (env : TypeEnv) : GoType → Option GoType
  | .ptr e => if e.Kind env = Kind.Struct then some e else none
  | .definedPtr _ _ e => if e.Kind env = Kind.Struct then some e else none
  | t => if t.Kind env = Kind.Struct then some t else none

/-- The rank `rk` goes down along the members and the hook parameters of the struct declared
by `d`: to the type of an embedded member, to the struct type of a member of struct or
pointer-to-struct type, and to the struct type of a parameter of the hook. -/
def rankedDecl (env : TypeEnv) (rk : GoType → Nat) (d : TypeDecl) : Bool :=
  d.Fields.all (fun f =>
    (!f.Anonymous || decide (rk (IndirectType f.Typ) < rk (GoType.named d.PkgPath d.Name))) &&
    (match structOf env f.Typ with
     | some u => decide (rk u < rk (GoType.named d.PkgPath d.Name))
     | none => true)) &&
  (match d.Init with
   | some m =>
     m.In.all (fun p =>
       (IndirectType p).Kind env != Kind.Struct ||
         decide (rk (IndirectType p) < rk (GoType.named d.PkgPath d.Name)))
   | none => true)

/-- The declarations are without structural self-reference: no struct type is reachable from
itself through embedded, struct-typed or pointer-to-struct members or through hook parameter
types.  The witness is a rank that goes down along each of these steps. -/
def selfReferenceFree (env : TypeEnv) (rk : GoType → Nat) : Bool :=
  env.all (fun d => d.kind != Kind.Struct || rankedDecl env rk d)

/-- The rank also goes down from a struct with a hook to what the registry may hold under the
two names by which a parameter of the hook is looked up, `nrk` bounding the rank of what is
held under a name; and the instance created for a parameter stays within the bound of the name
it is stored under. -/
def rankedHooks (env : TypeEnv) (rk : GoType → Nat) (nrk : String → Nat) : Bool :=
  env.all (fun d =>
    d.kind != Kind.Struct ||
    (match d.Init with
     | some m =>
       m.In.all (fun p =>
         decide (nrk (ToLowerCamel (IndirectType p).Name)
           < rk (GoType.named d.PkgPath d.Name)) &&
         decide (nrk (ToLowerCamel (DirName (IndirectType p).PkgPath ++ (IndirectType p).Name))
           < rk (GoType.named d.PkgPath d.Name)) &&
         ((IndirectType p).Kind env != Kind.Struct ||
           decide (rk (IndirectType p) ≤ nrk (LowerFirst (IndirectType p).Name))))
     | none => true))

/-- Every instance of the registry that is or points to a struct is within the bound of the
name it is held under. -/
def State.rankedRegistry (env : TypeEnv) (rk : GoType → Nat) (nrk : String → Nat)
    (s : State) : Bool :=
  match s.appFactory with
  | some r =>
    r.all (fun e =>
      match structOf env e.2.1 with
      | some u => decide (rk u ≤ nrk e.1)
      | none => true)
  | none => true

/-- A call ends, by a return or a panic, in a state with the property `Inv`. -/
def Outcome.ends {α : Type} (o : Outcome α) (Inv : State → Prop) : Prop :=
  match o with
  | .done _ s => Inv s
  | .panic s => Inv s
  | .diverge => False

/-- A rank for the declarations of the examples: 2 for `Ctl`, `Late` and the system
configuration, 1 for the other structs with a member that is or points to a struct or with a
hook, 0 for every other type. -/
def exampleRank (t : GoType) : Nat :=
  if [GoType.named "app" "Ctl", GoType.named "app" "Late",
      GoType.named "github.com/hidevopsio/hiboot/pkg/system" "Configuration"].contains t then 2
  else if [GoType.named "github.com/hidevopsio/hiboot/pkg/system" "App",
      GoType.named "app" "Foo", GoType.named "app" "Priv", GoType.named "app" "Holder",
      GoType.named "app" "Pair", GoType.named "app" "Hooked", GoType.named "app" "Sliced",
      GoType.named "app" "Worker", GoType.named "app" "Wrap", GoType.named "app" "Ping",
      GoType.named "app" "Pong"].contains t then 1
  else 0

/-- A bound for the names of the registry of the examples: 2 for the name of the system
configuration, 0 for every other name. -/
def exampleBound (name : String) : Nat :=
  if name = "systemConfiguration" then 2 else 0

/-- The declared pointer type `type P *Foo` of the examples. -/
def pType : GoType := GoType.definedPtr "app" "P" fooType

/-- The declarations of the examples, with more types: `Owner` with the tagged member
`W *Worker`; the function types `func([]Dep)` and `func(*P)`. -/
def extraEnv : TypeEnv :=
  lastEnv ++
  [ { PkgPath := "app", Name := "Owner",
      Fields := [{ Name := "W", Typ := GoType.ptr (GoType.named "app" "Worker"),
                   Tag := [("first", "a")] }] },
    { Name := "func([]Dep)", kind := Kind.Func, In := [GoType.slice depType] },
    { Name := "func(*P)", kind := Kind.Func, In := [GoType.ptr pType] } ]

/-- The heap of the examples, with one more cell: a zero `Owner` (cell 16). -/
def extraHeap : Heap :=
  lastHeap ++ [Val.struct (Fields.cons "W" Val.nil Fields.nil)]

/-- The state of a configured system over this heap whose registry also holds `entries`. -/
def extraState (entries : Registry) : State :=
  { appFactory := some (configuredRegistry ++ entries), heap := extraHeap }

/-- The pointer to the zero `Owner`. -/
def ownerPtr : Inst := (GoType.ptr (GoType.named "app" "Owner"), Val.ptr 16)

/-- The member `W` of `Owner`, with the tag key `first`. -/
def ownerField : StructField :=
  { Name := "W", Typ := GoType.ptr (GoType.named "app" "Worker"), Tag := [("first", "a")] }

@[simp] theorem emit_appFactory (s : State) (e : Event) : (s.emit e).appFactory = s.appFactory := rfl

@[simp] theorem emit_trace (s : State) (e : Event) : (s.emit e).trace = s.trace ++ [e] := rfl

@[simp] theorem getInstanceByName_emit (s : State) (e : Event) (name : String) :
    getInstanceByName (s.emit e) name = getInstanceByName s name := rfl

theorem resolveField_of_match (c : Ctx) (object : Value) (targetTags : List Tag)
    (f : StructField) (s : State) (v : Inst) (h : getInstanceByName s f.Name = some v) :
    resolveField c object targetTags f s = (Flow.next (some v), s) := by
  simp [resolveField, h]

/-! ## C2: the scenario `Foo{Bar *Baz}` -/

/-- C2, as stated: with the registry entry `baz`, injection into a pointer to a zero `Foo`
returns no error and changes nothing, so `Foo.Bar` is still nil (the convention lookup asks
for `bar`, the lower-camel-case of the name of the member, not for the name of its type). -/
theorem scenario_entry_baz_leaves_bar_nil :
    IntoObject exampleCtx 3 (some fooPtr) (exampleState [("baz", bazInst)])
        = Outcome.done none (exampleState [("baz", bazInst)]) ∧
      (exampleState [("baz", bazInst)]).heap.valAt 2 ["Bar"] = some Val.nil := by
  decide

/-- C2, amended: with the registry entry `bar → &Baz{X: 5}`, injection into a pointer to a zero
`Foo` returns no error and leaves `Foo.Bar` equal to the registered pointer, whose `X` is 5. -/
theorem scenario_entry_bar_sets_bar :
    ((IntoObject exampleCtx 3 (some fooPtr) (exampleState [("bar", bazInst)])).returned.map
        (fun r => (r.1, r.2.heap.valAt 2 ["Bar"], r.2.heap.valAt 1 ["X"])))
      = some (none, some (Val.ptr 1), some (Val.int 5)) := by
  decide

/-! ## Reading and writing places -/

theorem lookup_some_keyword_ne (tag : StructTag) (key value : String)
    (h : tag.Lookup key = some value) : key ≠ "" := by
  intro hk
  simp [StructTag.Lookup, hk] at h

theorem saveInstance_heap (name : String) (inst : Inst) (s : State) :
    (saveInstance name inst s).2.heap = s.heap := by
  unfold saveInstance
  cases s.appFactory with
  | none => rfl
  | some r => rfl

theorem saveInstance_trace (name : String) (inst : Inst) (s : State) :
    ∃ evs, (saveInstance name inst s).2.trace = s.trace ++ evs ∧
      ∀ e ∈ evs, e.tagIndex = none ∧ e.tagField = none := by
  unfold saveInstance
  cases s.appFactory with
  | none => exact ⟨[], by simp, by simp⟩
  | some r =>
    refine ⟨[Event.store (LowerFirst name) inst (r.SetInstance (LowerFirst name) inst).2], ?_, ?_⟩
    · simp
    · intro e he
      simp only [List.mem_singleton] at he
      subst he
      exact ⟨rfl, rfl⟩

/-- The two events of a call of a resolver. -/
theorem tag_events (i : Nat) (object : Value) (n tag : String) (e : Event)
    (he : e = Event.tagInit i object n ∨ e = Event.tagDecode i object n tag) :
    e.isStore = false ∧ e.tagIndex = some i ∧ e.tagField = some n := by
  rcases he with he | he <;> subst he <;> exact ⟨rfl, rfl, rfl⟩

/-- The resolvers that yield nothing for a member are passed over: the loop carries on behind
them, having changed nothing but the trace, where their calls are recorded. -/
theorem tagLoop_skip (c : Ctx) (object : Value) (f : StructField) (h : Heap) (post : List Tag) :
    ∀ (pre : List Tag) (i : Nat) (s : State), s.heap = h →
      (∀ r ∈ pre, ParseObjectName c.env h r.self "Tag" ≠ "" ∧ decodes c h object f r = none) →
      ∃ evs, (∀ e ∈ evs, e.isStore = false ∧ ∀ j, e.tagIndex = some j → j < i + pre.length) ∧
        tagLoop c object f (pre ++ post) i s
          = tagLoop c object f post (i + pre.length) { s with trace := s.trace ++ evs } := by
  intro pre
  induction pre with
  | nil =>
    intro i s _ _
    exact ⟨[], by simp, by simp⟩
  | cons r pre ih =>
    intro i s hs hpre
    subst hs
    have hr := hpre r (List.mem_cons_self _ _)
    have hrest : ∀ r1 ∈ pre, ParseObjectName c.env s.heap r1.self "Tag" ≠ "" ∧
        decodes c s.heap object f r1 = none := fun r1 h1 => hpre r1 (List.mem_cons_of_mem _ h1)
    have e1 : i + 1 + pre.length = i + (pre.length + 1) := by omega
    simp only [List.cons_append, tagLoop, hr.1, if_false, List.length_cons]
    cases hl : f.Tag.Lookup (ParseObjectName c.env s.heap r.self "Tag") with
    | none =>
      obtain ⟨evs, hev, heq⟩ := ih (i + 1) s rfl hrest
      refine ⟨evs, ?_, ?_⟩
      · intro e he
        refine ⟨(hev e he).1, fun j hj => ?_⟩
        have := (hev e he).2 j hj
        omega
      · simp only [List.append_eq, heq, e1]
    | some tag =>
      have hd : r.Decode object f tag = none := by
        have := hr.2
        simpa [decodes, hl] using this
      simp only [hd]
      obtain ⟨evs, hev, heq⟩ := ih (i + 1)
        ((s.emit (Event.tagInit i object f.Name)).emit (Event.tagDecode i object f.Name tag))
        rfl hrest
      refine ⟨Event.tagInit i object f.Name :: Event.tagDecode i object f.Name tag :: evs, ?_, ?_⟩
      · intro e he
        simp only [List.mem_cons] at he
        rcases he with he | he | he
        · have := tag_events i object f.Name tag e (Or.inl he)
          refine ⟨this.1, fun j hj => ?_⟩
          rw [this.2.1] at hj
          cases hj
          omega
        · have := tag_events i object f.Name tag e (Or.inr he)
          refine ⟨this.1, fun j hj => ?_⟩
          rw [this.2.1] at hj
          cases hj
          omega
        · refine ⟨(hev e he).1, fun j hj => ?_⟩
          have := (hev e he).2 j hj
          omega
      · simp only [List.append_eq, heq, e1]
        simp [State.emit]

/-- A resolver whose keyword is a key of the tag and whose `Decode` yields an instance ends the
loop with that instance; only this resolver is called, and a resolver that is no singleton
leaves the registry alone. -/
theorem tagLoop_hit (c : Ctx) (object : Value) (f : StructField) (t : Tag) (post : List Tag)
    (i : Nat) (s : State) (tag : String) (v : Inst)
    (hl : f.Tag.Lookup (ParseObjectName c.env s.heap t.self "Tag") = some tag)
    (hd : t.Decode object f tag = some v) :
    (tagLoop c object f (t :: post) i s).1 = Flow.next (some v) ∧
    ∃ evs, (tagLoop c object f (t :: post) i s).2.trace = s.trace ++ evs ∧
      (∀ e ∈ evs, ∀ j, e.tagIndex = some j → j = i) ∧
      (t.IsSingleton = false →
        (tagLoop c object f (t :: post) i s).2.appFactory = s.appFactory ∧
        ∀ e ∈ evs, e.isStore = false) := by
  have hk := lookup_some_keyword_ne _ _ _ hl
  simp only [tagLoop, hk, if_false, hl, hd]
  by_cases hsing : t.IsSingleton = true
  · simp only [hsing, if_true, true_and]
    obtain ⟨evs, he, hp⟩ := saveInstance_trace f.Name v
      ((s.emit (Event.tagInit i object f.Name)).emit (Event.tagDecode i object f.Name tag))
    refine ⟨Event.tagInit i object f.Name :: Event.tagDecode i object f.Name tag :: evs, ?_, ?_, ?_⟩
    · simp [he]
    · intro e hmem j hj
      simp only [List.mem_cons] at hmem
      rcases hmem with hm | hm | hm
      · rw [(tag_events i object f.Name tag e (Or.inl hm)).2.1] at hj
        cases hj
        rfl
      · rw [(tag_events i object f.Name tag e (Or.inr hm)).2.1] at hj
        cases hj
        rfl
      · rw [(hp e hm).1] at hj
        cases hj
    · intro hfalse
      simp at hfalse
  · simp only [hsing, Bool.false_eq_true, if_false, true_and]
    refine ⟨[Event.tagInit i object f.Name, Event.tagDecode i object f.Name tag], by simp, ?_, ?_⟩
    · intro e hmem j hj
      simp only [List.mem_cons, List.mem_singleton, List.not_mem_nil, or_false] at hmem
      rw [(tag_events i object f.Name tag e hmem).2.1] at hj
      cases hj
      rfl
    · intro _
      refine ⟨rfl, fun e hmem => ?_⟩
      simp only [List.mem_cons, List.mem_singleton, List.not_mem_nil, or_false] at hmem
      exact (tag_events i object f.Name tag e hmem).1

/-- The loop stops at the latest at a resolver that yields an instance: no resolver behind it
is called. -/
theorem tagLoop_stops (c : Ctx) (object : Value) (f : StructField) (h : Heap) (t : Tag)
    (post : List Tag) (tag : String) (v : Inst)
    (hl : f.Tag.Lookup (ParseObjectName c.env h t.self "Tag") = some tag)
    (hd : t.Decode object f tag = some v) :
    ∀ (pre : List Tag) (i : Nat) (s : State), s.heap = h →
      ∃ evs, (tagLoop c object f (pre ++ t :: post) i s).2.trace = s.trace ++ evs ∧
        ∀ e ∈ evs, ∀ j, e.tagIndex = some j → j ≤ i + pre.length := by
  intro pre
  induction pre with
  | nil =>
    intro i s hs
    subst hs
    obtain ⟨_, evs, he, hp, _⟩ := tagLoop_hit c object f t post i s tag v hl hd
    refine ⟨evs, by simpa using he, fun e hm j hj => ?_⟩
    have := hp e hm j hj
    omega
  | cons r pre ih =>
    intro i s hs
    subst hs
    by_cases hk : ParseObjectName c.env s.heap r.self "Tag" = ""
    · simp only [List.cons_append, tagLoop, hk, if_true]
      exact ⟨[], by simp, by simp⟩
    · cases hl1 : f.Tag.Lookup (ParseObjectName c.env s.heap r.self "Tag") with
      | none =>
        simp only [List.cons_append, tagLoop, hk, if_false, hl1, List.append_eq]
        obtain ⟨evs, he, hp⟩ := ih (i + 1) s rfl
        refine ⟨evs, he, fun e hm j hj => ?_⟩
        have := hp e hm j hj
        simp only [List.length_cons]
        omega
      | some tag1 =>
        cases hd1 : r.Decode object f tag1 with
        | some w =>
          obtain ⟨_, evs, he, hp, _⟩ :=
            tagLoop_hit c object f r (pre ++ t :: post) i s tag1 w hl1 hd1
          refine ⟨evs, by simpa using he, fun e hm j hj => ?_⟩
          have := hp e hm j hj
          omega
        | none =>
          simp only [List.cons_append, tagLoop, hk, if_false, hl1, hd1, List.append_eq]
          obtain ⟨evs, he, hp⟩ := ih (i + 1)
            ((s.emit (Event.tagInit i object f.Name)).emit (Event.tagDecode i object f.Name tag1))
            rfl
          refine ⟨Event.tagInit i object f.Name :: Event.tagDecode i object f.Name tag1 :: evs,
            ?_, ?_⟩
          · simp [he]
          · intro e hmem j hj
            simp only [List.mem_cons] at hmem
            rcases hmem with hm | hm | hm
            · rw [(tag_events i object f.Name tag1 e (Or.inl hm)).2.1] at hj
              cases hj
              omega
            · rw [(tag_events i object f.Name tag1 e (Or.inr hm)).2.1] at hj
              cases hj
              omega
            · have := hp e hm j hj
              simp only [List.length_cons]
              omega

/-- When no resolver yields an instance for a member, the loop produces none. -/
theorem tagLoop_none (c : Ctx) (object : Value) (f : StructField) (h : Heap) :
    ∀ (tags : List Tag) (i : Nat) (s : State), s.heap = h →
      (∀ r ∈ tags, decodes c h object f r = none) →
      ∀ v, (tagLoop c object f tags i s).1 ≠ Flow.next (some v) := by
  intro tags
  induction tags with
  | nil =>
    intro i s _ _ v
    simp [tagLoop]
  | cons r rest ih =>
    intro i s hs hall v
    subst hs
    have hr := hall r (List.mem_cons_self _ _)
    have hrest : ∀ r1 ∈ rest, decodes c s.heap object f r1 = none :=
      fun r1 h1 => hall r1 (List.mem_cons_of_mem _ h1)
    by_cases hk : ParseObjectName c.env s.heap r.self "Tag" = ""
    · simp [tagLoop, hk]
    · cases hl : f.Tag.Lookup (ParseObjectName c.env s.heap r.self "Tag") with
      | none =>
        simp only [tagLoop, hk, if_false, hl]
        exact ih (i + 1) s rfl hrest v
      | some tag =>
        have hd : r.Decode object f tag = none := by simpa [decodes, hl] using hr
        simp only [tagLoop, hk, if_false, hl, hd]
        exact ih (i + 1)
          ((s.emit (Event.tagInit i object f.Name)).emit (Event.tagDecode i object f.Name tag))
          rfl hrest v

theorem decodes_some (c : Ctx) (h : Heap) (object : Value) (f : StructField) (t : Tag) (v : Inst)
    (hd : decodes c h object f t = some v) :
    ∃ tag, f.Tag.Lookup (ParseObjectName c.env h t.self "Tag") = some tag ∧
      t.Decode object f tag = some v := by
  unfold decodes at hd
  cases hl : f.Tag.Lookup (ParseObjectName c.env h t.self "Tag") with
  | none => simp [hl] at hd
  | some tag => exact ⟨tag, rfl, by simpa [hl] using hd⟩

theorem resolveField_of_miss (c : Ctx) (object : Value) (targetTags : List Tag)
    (f : StructField) (s : State) (h : getInstanceByName s f.Name = none) :
    resolveField c object targetTags f s = tagLoop c object f targetTags 0 s := by
  simp [resolveField, h]

/-- The resolvers in front of the first one that yields an instance are passed over, and that
one ends the loop: its instance is the result, and nothing behind it is called. -/
theorem tagLoop_first (c : Ctx) (object : Value) (f : StructField) (s : State)
    (pre : List Tag) (t : Tag) (post : List Tag) (v : Inst)
    (hpre : ∀ r ∈ pre, ParseObjectName c.env s.heap r.self "Tag" ≠ "" ∧
      decodes c s.heap object f r = none)
    (ht : decodes c s.heap object f t = some v) :
    (tagLoop c object f (pre ++ t :: post) 0 s).1 = Flow.next (some v) ∧
    ∃ evs, (tagLoop c object f (pre ++ t :: post) 0 s).2.trace = s.trace ++ evs ∧
      (∀ e ∈ evs, ∀ j, e.tagIndex = some j → j ≤ pre.length) ∧
      (t.IsSingleton = false →
        (tagLoop c object f (pre ++ t :: post) 0 s).2.appFactory = s.appFactory ∧
        ∀ e ∈ evs, e.isStore = false) := by
  obtain ⟨tag, hl, hd⟩ := decodes_some c s.heap object f t v ht
  obtain ⟨evs1, hev1, heq⟩ := tagLoop_skip c object f s.heap (t :: post) pre 0 s rfl hpre
  obtain ⟨hres, evs2, htr, hidx, hns⟩ :=
    tagLoop_hit c object f t post (0 + pre.length) { s with trace := s.trace ++ evs1 } tag v hl hd
  rw [heq]
  refine ⟨hres, evs1 ++ evs2, ?_, ?_, ?_⟩
  · rw [htr]
    simp
  · intro e he j hj
    rcases List.mem_append.1 he with h1 | h2
    · have := (hev1 e h1).2 j hj
      omega
    · have := hidx e h2 j hj
      omega
  · intro hfalse
    refine ⟨(hns hfalse).1, fun e he => ?_⟩
    rcases List.mem_append.1 he with h1 | h2
    · exact (hev1 e h1).1
    · exact (hns hfalse).2 e h2

/-! ## C3: the first resolver that yields an instance wins -/

/-- C3, as stated, fails: `My_Dep` has no registry entry, the first resolver in registration
order whose keyword is in its tag and whose `Decode` yields an instance is `firstTag`, yet the
resolution ends with `ErrInvalidTagName` and no value, because a resolver with an empty keyword
is registered in front of it; the whole injection fails with that error. -/
theorem empty_keyword_preempts_first_match :
    getInstanceByName (exampleState []) holderField.Name = none ∧
      decodes exampleCtx exampleHeap (ValueOf (some holderPtr)) holderField namelessTag = none ∧
      decodes exampleCtx exampleHeap (ValueOf (some holderPtr)) holderField
        (firstTag (some bazInst) false) = some bazInst ∧
      resolveField exampleCtx (ValueOf (some holderPtr))
        [namelessTag, firstTag (some bazInst) false] holderField (exampleState [])
        = (Flow.ret Error.ErrInvalidTagName, exampleState []) ∧
      IntoObject { env := exampleEnv, tagsContainer := [namelessTag, firstTag (some bazInst) false] }
        3 (some holderPtr) (exampleState [])
        = Outcome.done (some Error.ErrInvalidTagName) (exampleState []) := by
  decide

/-- C3, amended: for a member with no convention match, when no resolver in front of the first
one that yields an instance (its keyword is a key of the member's tag and its `Decode` returns
an instance) has an empty keyword, the resolved value is the `Decode` result of that resolver
and no resolver behind it is initialised or decoded for the member; when no resolver yields an
instance, the member gets no resolved value. -/
theorem first_qualifying_resolver_wins (c : Ctx) (object : Value) (f : StructField) (s : State)
    (tags : List Tag) (hconv : getInstanceByName s f.Name = none) :
    (∀ (pre : List Tag) (t : Tag) (post : List Tag) (v : Inst), tags = pre ++ t :: post →
      (∀ r ∈ pre, ParseObjectName c.env s.heap r.self "Tag" ≠ "" ∧
        decodes c s.heap object f r = none) →
      decodes c s.heap object f t = some v →
      (resolveField c object tags f s).1 = Flow.next (some v) ∧
      ∃ evs, (resolveField c object tags f s).2.trace = s.trace ++ evs ∧
        ∀ e ∈ evs, ∀ j, e.tagIndex = some j → j ≤ pre.length) ∧
    ((∀ r ∈ tags, decodes c s.heap object f r = none) →
      ∀ v, (resolveField c object tags f s).1 ≠ Flow.next (some v)) := by
  rw [resolveField_of_miss c object tags f s hconv]
  refine ⟨?_, ?_⟩
  · intro pre t post v htags hpre ht
    subst htags
    obtain ⟨hres, evs, htr, hidx, _⟩ := tagLoop_first c object f s pre t post v hpre ht
    exact ⟨hres, evs, htr, hidx⟩
  · intro hall v
    exact tagLoop_none c object f s.heap tags 0 s rfl hall v

/-- A witness for C3, amended: `firstTag` yields nothing, `secondTag` yields `&Baz`, and a
third resolver stands behind them; and two resolvers that both yield nothing. -/
theorem first_qualifying_resolver_wins_witness :
    ((resolveField exampleCtx (ValueOf (some holderPtr))
        [firstTag none false, secondTag (some bazInst) false, firstTag (some bazInst) false]
        holderField (exampleState [])).1 = Flow.next (some bazInst) ∧
      ∃ evs, (resolveField exampleCtx (ValueOf (some holderPtr))
        [firstTag none false, secondTag (some bazInst) false, firstTag (some bazInst) false]
        holderField (exampleState [])).2.trace = (exampleState []).trace ++ evs ∧
        ∀ e ∈ evs, ∀ j, e.tagIndex = some j → j ≤ [firstTag none false].length) ∧
    (∀ v, (resolveField exampleCtx (ValueOf (some holderPtr))
        [firstTag none false, secondTag none false] holderField (exampleState [])).1
      ≠ Flow.next (some v)) :=
  ⟨(first_qualifying_resolver_wins exampleCtx (ValueOf (some holderPtr)) holderField
      (exampleState [])
      [firstTag none false, secondTag (some bazInst) false, firstTag (some bazInst) false]
      (by decide)).1
      [firstTag none false] (secondTag (some bazInst) false) [firstTag (some bazInst) false]
      bazInst rfl (by decide) (by decide),
   (first_qualifying_resolver_wins exampleCtx (ValueOf (some holderPtr)) holderField
      (exampleState []) [firstTag none false, secondTag none false] (by decide)).2 (by decide)⟩

/-! ## C4: two resolvers whose keywords are both in the tag of a member -/

/-- C4, as stated, fails: the keywords of `firstTag` and `secondTag` are both keys of the tag of
`My_Dep`, which has no registry entry; `Decode` of the first yields nothing, so the second is
initialised and decoded as well (events 3 and 4 of the trace). -/
theorem second_resolver_called_after_absent_first :
    (IntoObject { env := exampleEnv,
                  tagsContainer := [firstTag none false, secondTag (some bazInst) false] }
        3 (some holderPtr) (exampleState [])).returned.map (fun r => (r.1, r.2.trace))
      = some (none,
          [Event.tagInit 0 (ValueOf (some holderPtr)) "My_Dep",
           Event.tagDecode 0 (ValueOf (some holderPtr)) "My_Dep" "a",
           Event.tagInit 1 (ValueOf (some holderPtr)) "My_Dep",
           Event.tagDecode 1 (ValueOf (some holderPtr)) "My_Dep" "b",
           Event.set 4 ["My_Dep"] bazInst]) := by
  decide

/-- C4, amended: when the resolver that comes first in registration order yields an instance
for a member (its keyword is a key of the member's tag and its `Decode` returns an instance),
the resolver that comes second is neither initialised nor decoded for that member. -/
theorem second_resolver_not_called (c : Ctx) (object : Value) (f : StructField) (s : State)
    (pre : List Tag) (t1 : Tag) (mid : List Tag) (t2 : Tag) (post : List Tag) (v : Inst)
    (h1 : decodes c s.heap object f t1 = some v) :
    ∃ evs, (resolveField c object (pre ++ t1 :: (mid ++ t2 :: post)) f s).2.trace
        = s.trace ++ evs ∧
      ∀ e ∈ evs, e.tagIndex ≠ some (pre.length + 1 + mid.length) := by
  cases hconv : getInstanceByName s f.Name with
  | some w =>
    rw [resolveField_of_match c object _ f s w hconv]
    exact ⟨[], by simp, by simp⟩
  | none =>
    rw [resolveField_of_miss c object _ f s hconv]
    obtain ⟨tag, hl, hd⟩ := decodes_some c s.heap object f t1 v h1
    obtain ⟨evs, htr, hidx⟩ :=
      tagLoop_stops c object f s.heap t1 (mid ++ t2 :: post) tag v hl hd pre 0 s rfl
    refine ⟨evs, htr, fun e he hj => ?_⟩
    have := hidx e he _ hj
    omega

/-- A witness for C4, amended: `firstTag` yields `&Baz`, `secondTag` stands behind it. -/
theorem second_resolver_not_called_witness :
    ∃ evs, (resolveField exampleCtx (ValueOf (some holderPtr))
        ([] ++ firstTag (some bazInst) false :: ([] ++ secondTag (some bazInst) false :: []))
        holderField (exampleState [])).2.trace = (exampleState []).trace ++ evs ∧
      ∀ e ∈ evs, e.tagIndex ≠ some (([] : List Tag).length + 1 + ([] : List Tag).length) :=
  second_resolver_not_called exampleCtx (ValueOf (some holderPtr)) holderField (exampleState [])
    [] (firstTag (some bazInst) false) [] (secondTag (some bazInst) false) [] bazInst (by decide)

/-! ## C7: a resolver that is no singleton -/

theorem assignField_frame (env : TypeEnv) (fieldObj : Value) (injectedObject : Option Inst)
    (s s2 : State) (h : assignField env fieldObj injectedObject s = Outcome.done () s2) :
    s2.appFactory = s.appFactory ∧
    ∃ evs, s2.trace = s.trace ++ evs ∧
      ∀ e ∈ evs, e.isStore = false ∧ e.tagIndex = none ∧ e.tagField = none := by
  unfold assignField at h
  cases injectedObject with
  | none =>
    simp only [Outcome.done.injEq, true_and] at h
    subst h
    exact ⟨rfl, [], by simp, by simp⟩
  | some inst =>
    simp only at h
    by_cases hset : fieldObj.CanSet = true
    · simp only [hset, if_true] at h
      unfold Value.Set at h
      cases fieldObj with
      | zero => simp at h
      | imm t val st em => simp at h
      | ref t a path st em =>
        simp only at h
        by_cases hassign : assignable env inst.1 t = true
        · simp only [hassign, if_true] at h
          cases hc : s.heap[a]? with
          | none => simp [hc] at h
          | some cell =>
            simp only [hc] at h
            cases hu : cell.update path
                (if t.Kind env = Kind.Interface then Val.iface inst.1 inst.2 else inst.2) with
            | none => simp [hu] at h
            | some cell1 =>
              simp only [hu, Outcome.done.injEq, true_and] at h
              subst h
              refine ⟨rfl, [Event.set a path inst], by simp, ?_⟩
              intro e he
              simp only [List.mem_singleton] at he
              subst he
              exact ⟨rfl, rfl, rfl⟩
        · simp [hassign] at h
    · simp only [hset, Bool.false_eq_true, if_false, Outcome.done.injEq, true_and] at h
      subst h
      exact ⟨rfl, [], by simp, by simp⟩

/-- C7, amended: for a member with no convention match that is resolved by a resolver
reporting `IsSingleton() == false`, the resolution of the member leaves the registry as it
was, and the injection of that member (lines 134 to 177: resolution and assignment), when it
returns, has made no call of `SetInstance` and has left the registry as it was. -/
theorem non_singleton_leaves_registry (c : Ctx) (object obj : Value) (f : StructField)
    (s : State) (pre : List Tag) (t : Tag) (post : List Tag) (v : Inst)
    (hconv : getInstanceByName s f.Name = none)
    (hpre : ∀ r ∈ pre, ParseObjectName c.env s.heap r.self "Tag" ≠ "" ∧
      decodes c s.heap object f r = none)
    (ht : decodes c s.heap object f t = some v)
    (hns : t.IsSingleton = false) :
    (resolveField c object (pre ++ t :: post) f s).1 = Flow.next (some v) ∧
    (resolveField c object (pre ++ t :: post) f s).2.appFactory = s.appFactory ∧
    ∀ r s2, injectStep c object obj (pre ++ t :: post) f s = Outcome.done r s2 →
      s2.appFactory = s.appFactory ∧
      ∃ evs, s2.trace = s.trace ++ evs ∧ ∀ e ∈ evs, e.isStore = false := by
  obtain ⟨hres, evs, htr, _, hns1⟩ := tagLoop_first c object f s pre t post v hpre ht
  have hrf := resolveField_of_miss c object (pre ++ t :: post) f s hconv
  rw [hrf]
  refine ⟨hres, (hns1 hns).1, ?_⟩
  intro r s2 hstep
  unfold injectStep at hstep
  rw [hrf] at hstep
  split at hstep
  · simp at hstep
  · rename_i fieldObj _
    cases hloop : tagLoop c object f (pre ++ t :: post) 0 s with
    | mk fl s1 =>
      rw [hloop] at hres htr hns1 hstep
      simp only at hres
      subst hres
      simp only at hstep
      cases ha : assignField c.env fieldObj (some v) s1 with
      | done u s3 =>
        simp only [ha, Outcome.done.injEq] at hstep
        obtain ⟨_, hs⟩ := hstep
        subst hs
        obtain ⟨hreg, evs2, htr2, hev2⟩ := assignField_frame c.env fieldObj (some v) s1 s3 ha
        refine ⟨by rw [hreg]; exact (hns1 hns).1, evs ++ evs2, ?_, ?_⟩
        · rw [htr2]
          simp only at htr
          rw [htr]
          simp
        · intro e he
          rcases List.mem_append.1 he with h1 | h2
          · exact (hns1 hns).2 e h1
          · exact (hev2 e h2).1
      | panic s3 => simp [ha] at hstep
      | diverge => simp [ha] at hstep

/-- A witness for C7, amended: `My_Dep` is resolved by `secondTag`, which is no singleton. -/
theorem non_singleton_leaves_registry_witness :
    (resolveField exampleCtx (ValueOf (some holderPtr))
        ([firstTag none true] ++ secondTag (some bazInst) false :: []) holderField
        (exampleState [])).1 = Flow.next (some bazInst) ∧
      (resolveField exampleCtx (ValueOf (some holderPtr))
        ([firstTag none true] ++ secondTag (some bazInst) false :: []) holderField
        (exampleState [])).2.appFactory = (exampleState []).appFactory :=
  ⟨(non_singleton_leaves_registry exampleCtx (ValueOf (some holderPtr))
      (Value.ref (GoType.named "app" "Holder") 4 [] false false) holderField (exampleState [])
      [firstTag none true] (secondTag (some bazInst) false) [] bazInst
      (by decide) (by decide) (by decide) rfl).1,
   (non_singleton_leaves_registry exampleCtx (ValueOf (some holderPtr))
      (Value.ref (GoType.named "app" "Holder") 4 [] false false) holderField (exampleState [])
      [firstTag none true] (secondTag (some bazInst) false) [] bazInst
      (by decide) (by decide) (by decide) rfl).2.1⟩

/-! ## C10: a system that is not configured -/

/-- C10: in a state whose registry is well typed, `IntoObjectValue` returns
`ErrSystemConfiguration` when the registry reference is unset, and for a target that
dereferences to a struct also when the lookup of `systemConfiguration` or the lookup of
`configurations` finds nothing; in each case the state is what it was: no member is assigned,
no resolver is initialised or decoded, no hook is called. -/
theorem not_configured_is_rejected (c : Ctx) (fuel : Nat) (object : Value) (tags : List Tag)
    (s : State) (hwt : s.wellTyped = true) :
    (s.appFactory = none →
      IntoObjectValue c (fuel + 1) object tags s
        = Outcome.done (some Error.ErrSystemConfiguration) s) ∧
    (∀ r, s.appFactory = some r → (Indirect c.env s.heap object).Kind c.env = Kind.Struct →
      r.GetInstance "systemConfiguration" = none →
      IntoObjectValue c (fuel + 1) object tags s
        = Outcome.done (some Error.ErrSystemConfiguration) s) ∧
    (∀ r, s.appFactory = some r → (Indirect c.env s.heap object).Kind c.env = Kind.Struct →
      r.GetInstance "configurations" = none →
      IntoObjectValue c (fuel + 1) object tags s
        = Outcome.done (some Error.ErrSystemConfiguration) s) := by
  refine ⟨?_, ?_, ?_⟩
  · intro h
    simp [IntoObjectValue, h]
  · intro r h hk hsc
    simp [IntoObjectValue, h, hk, hsc]
  · intro r h hk hcs
    cases hsc : r.GetInstance "systemConfiguration" with
    | none => simp [IntoObjectValue, h, hk, hsc]
    | some sc =>
      have hty : sc.1 = systemConfigurationType := by
        simp only [State.wellTyped, h, hsc, hcs, Bool.and_true, beq_iff_eq] at hwt
        exact hwt
      simp [IntoObjectValue, h, hk, hsc, hty, hcs]

/-- A witness for C10: the registry reference is unset; the registry is empty; the registry
holds the system configuration only. -/
theorem not_configured_is_rejected_witness :
    IntoObjectValue exampleCtx (0 + 1) (ValueOf (some fooPtr)) []
        { appFactory := none, heap := exampleHeap }
      = Outcome.done (some Error.ErrSystemConfiguration)
          { appFactory := none, heap := exampleHeap } ∧
    IntoObjectValue exampleCtx (0 + 1) (ValueOf (some fooPtr)) []
        { appFactory := some [], heap := exampleHeap }
      = Outcome.done (some Error.ErrSystemConfiguration)
          { appFactory := some [], heap := exampleHeap } ∧
    IntoObjectValue exampleCtx (0 + 1) (ValueOf (some fooPtr)) []
        { appFactory := some [("systemConfiguration", (systemConfigurationType, Val.ptr 0))],
          heap := exampleHeap }
      = Outcome.done (some Error.ErrSystemConfiguration)
          { appFactory := some [("systemConfiguration", (systemConfigurationType, Val.ptr 0))],
            heap := exampleHeap } :=
  ⟨(not_configured_is_rejected exampleCtx 0 (ValueOf (some fooPtr)) []
      { appFactory := none, heap := exampleHeap } (by decide)).1 rfl,
   (not_configured_is_rejected exampleCtx 0 (ValueOf (some fooPtr)) []
      { appFactory := some [], heap := exampleHeap } (by decide)).2.1 [] rfl (by decide)
      (by decide),
   (not_configured_is_rejected exampleCtx 0 (ValueOf (some fooPtr)) []
      { appFactory := some [("systemConfiguration", (systemConfigurationType, Val.ptr 0))],
        heap := exampleHeap } (by decide)).2.2
      [("systemConfiguration", (systemConfigurationType, Val.ptr 0))] rfl (by decide)
      (by decide)⟩

/-! ## Invariants of a call -/

theorem kind_ptr_iff (env : TypeEnv) (t : GoType) :
    t.Kind env = Kind.Ptr ↔
      (∃ e, t = GoType.ptr e) ∨ ∃ p n e, t = GoType.definedPtr p n e := by
  constructor
  · intro h
    cases t with
    | basic k =>
      simp only [GoType.Kind] at h
      split at h
      · cases h
      · rename_i hk
        exact absurd (Or.inl h) hk
    | named p n =>
      simp only [GoType.Kind] at h
      split at h
      · rename_i d _
        split at h
        · cases h
        · rename_i hk
          exact absurd (Or.inl h) hk
      · cases h
    | ptr e => exact Or.inl ⟨e, rfl⟩
    | slice e => simp [GoType.Kind] at h
    | definedPtr p n e => exact Or.inr ⟨p, n, e, rfl⟩
    | definedSlice p n e => simp [GoType.Kind] at h
  · rintro (⟨e, rfl⟩ | ⟨p, n, e, rfl⟩)
    · rfl
    · rfl

theorem ptrDepth_of_not_ptr (env : TypeEnv) (t : GoType) (h : t.Kind env ≠ Kind.Ptr) :
    t.ptrDepth = 0 := by
  cases t with
  | ptr e => exact absurd rfl h
  | definedPtr p n e => exact absurd rfl h
  | basic k => rfl
  | named p n => rfl
  | slice e => rfl
  | definedSlice p n e => rfl

theorem ptrDepth_of_ptr (env : TypeEnv) (v : Value) (h : v.Kind env = Kind.Ptr) :
    ∃ n, v.Type.ptrDepth = n + 1 := by
  cases v with
  | zero => simp [Value.Kind] at h
  | imm t val st em =>
    simp only [Value.Kind, Value.Type] at h ⊢
    rcases (kind_ptr_iff env t).1 h with ⟨e, rfl⟩ | ⟨p, n, e, rfl⟩
    · exact ⟨_, rfl⟩
    · exact ⟨_, rfl⟩
  | ref t a path st em =>
    simp only [Value.Kind, Value.Type] at h ⊢
    rcases (kind_ptr_iff env t).1 h with ⟨e, rfl⟩ | ⟨p, n, e, rfl⟩
    · exact ⟨_, rfl⟩
    · exact ⟨_, rfl⟩

theorem indirectLoop_of_not_ptr (env : TypeEnv) (h : Heap) (n : Nat) (v : Value)
    (hk : v.Kind env ≠ Kind.Ptr) : indirectLoop env h n v = v := by
  cases n with
  | zero => rfl
  | succ n => simp [indirectLoop, hk]

/-- A Value that `reflect.Indirect` takes to a struct is taken to the same struct by
`reflector.Indirect`. -/
theorem indirect_of_reflectIndirect (env : TypeEnv) (h : Heap) (v : Value)
    (hk : (reflectIndirect env h v).Kind env = Kind.Struct) :
    Indirect env h v = reflectIndirect env h v := by
  unfold reflectIndirect at hk ⊢
  by_cases hp : v.Kind env = Kind.Ptr
  · simp only [hp, ne_eq, not_true_eq_false, if_false] at hk ⊢
    have hne : (v.Elem h).Kind env ≠ Kind.Ptr := by
      rw [hk]
      decide
    obtain ⟨n, hn⟩ := ptrDepth_of_ptr env v hp
    simp only [Indirect, hn, indirectLoop, hp, if_true]
    exact indirectLoop_of_not_ptr env h n _ hne
  · simp only [hp, ne_eq, not_false_eq_true, if_true] at hk ⊢
    exact indirectLoop_of_not_ptr env h _ v hp

theorem tagLoop_inv (c : Ctx) (Inv : State → Prop) (hp : Steps c Inv) (object : Value)
    (f : StructField) :
    ∀ (tags : List Tag) (i : Nat) (s : State), Inv s → getInstanceByName s f.Name = none →
      Inv (tagLoop c object f tags i s).2 ∧
      ∀ e, (tagLoop c object f tags i s).1 = Flow.ret e → e = Error.ErrInvalidTagName := by
  intro tags
  induction tags with
  | nil =>
    intro i s hs _
    exact ⟨hs, fun e he => by simp [tagLoop] at he⟩
  | cons r rest ih =>
    intro i s hs hmiss
    by_cases hk : ParseObjectName c.env s.heap r.self "Tag" = ""
    · simp only [tagLoop, hk, if_true]
      exact ⟨hs, fun e he => by cases he; rfl⟩
    · cases hl : f.Tag.Lookup (ParseObjectName c.env s.heap r.self "Tag") with
      | none =>
        simp only [tagLoop, hk, if_false, hl]
        exact ih (i + 1) s hs hmiss
      | some tag =>
        have hs2 := hp.tag s i object f tag hs hmiss
        cases hd : r.Decode object f tag with
        | none =>
          simp only [tagLoop, hk, if_false, hl, hd]
          exact ih (i + 1) _ hs2 (by simpa using hmiss)
        | some w =>
          simp only [tagLoop, hk, if_false, hl, hd]
          by_cases hsing : r.IsSingleton = true
          · simp only [hsing, if_true]
            exact ⟨hp.save _ f.Name w hs2, fun e he => by cases he⟩
          · simp only [hsing, Bool.false_eq_true, if_false]
            exact ⟨hs2, fun e he => by cases he⟩

theorem resolveField_inv (c : Ctx) (Inv : State → Prop) (hp : Steps c Inv) (object : Value)
    (targetTags : List Tag) (f : StructField) (s : State) (hs : Inv s) :
    Inv (resolveField c object targetTags f s).2 ∧
    ∀ e, (resolveField c object targetTags f s).1 = Flow.ret e → e = Error.ErrInvalidTagName := by
  cases hconv : getInstanceByName s f.Name with
  | some w =>
    rw [resolveField_of_match c object targetTags f s w hconv]
    exact ⟨hs, fun e he => by cases he⟩
  | none =>
    rw [resolveField_of_miss c object targetTags f s hconv]
    exact tagLoop_inv c Inv hp object f targetTags 0 s hs hconv

theorem Value.Set_panic (env : TypeEnv) (fieldObj : Value) (inst : Inst) (s s2 : State)
    (h : Value.Set env fieldObj inst s = Outcome.panic s2) : s2 = s := by
  unfold Value.Set at h
  split at h
  · split at h
    · split at h
      · split at h
        · cases h
        · cases h; rfl
      · cases h; rfl
    · cases h; rfl
  · cases h; rfl

theorem Value.Set_not_diverge (env : TypeEnv) (fieldObj : Value) (inst : Inst) (s : State) :
    Value.Set env fieldObj inst s ≠ Outcome.diverge := by
  unfold Value.Set
  intro h
  split at h
  · split at h
    · split at h
      · split at h
        · cases h
        · cases h
      · cases h
    · cases h
  · cases h

theorem injectStep_inv (c : Ctx) (Inv : State → Prop) (hp : Steps c Inv)
    (object obj : Value) (targetTags : List Tag) (f : StructField) (s : State) (hs : Inv s) :
    (injectStep c object obj targetTags f s).holds
      (fun r s2 => Inv s2 ∧ ∀ e, r = Flow.ret e → e = Error.ErrInvalidTagName) Inv := by
  unfold injectStep
  split
  · exact hs
  · rename_i fieldObj hfo
    have hr := resolveField_inv c Inv hp object targetTags f s hs
    cases hres : resolveField c object targetTags f s with
    | mk fl s1 =>
      rw [hres] at hr
      cases fl with
      | ret e => exact ⟨hr.1, fun e1 he1 => by cases he1; exact hr.2 e rfl⟩
      | next injectedObject =>
        simp only
        unfold assignField
        cases injectedObject with
        | none => exact ⟨hr.1, fun e he => by cases he⟩
        | some inst =>
          simp only
          by_cases hset : fieldObj.CanSet = true
          · simp only [hset, if_true]
            cases hv : Value.Set c.env fieldObj inst s1 with
            | done u s2 =>
              exact ⟨hp.assign s s1 object obj targetTags f fieldObj inst s2 hs hr.1 hfo hres
                hset hv, fun e he => by cases he⟩
            | panic s2 =>
              rw [Value.Set_panic c.env fieldObj inst s1 s2 hv]
              exact hr.1
            | diverge => trivial
          · simp only [hset, Bool.false_eq_true, if_false]
            exact ⟨hr.1, fun e he => by cases he⟩

theorem nestedField_inv (c : Ctx) (Inv : State → Prop)
    (recur : Value → List Tag → State → Outcome (Option Error)) (hrec : RecSound c Inv recur)
    (obj fieldObj : Value) (tags : List Tag) (err : Option Error) (s : State) (hs : Inv s)
    (herr : err ≠ some Error.ErrInvalidObject) :
    (nestedField c.env recur obj fieldObj tags err s).holds
      (fun e s2 => Inv s2 ∧ e ≠ some Error.ErrInvalidObject) Inv := by
  unfold nestedField
  split
  · rename_i hg
    have hk := indirect_of_reflectIndirect c.env s.heap fieldObj hg.1
    have := hrec fieldObj tags s hs
    cases hr : recur fieldObj tags s with
    | done e s2 =>
      rw [hr] at this
      refine ⟨this.1, fun he => ?_⟩
      have h2 := this.2 he
      rw [hk] at h2
      exact h2 hg.1
    | panic s2 =>
      rw [hr] at this
      exact this
    | diverge => trivial
  · exact ⟨hs, herr⟩

theorem injectField_inv (c : Ctx) (Inv : State → Prop) (hp : Preserved c Inv)
    (recur : Value → List Tag → State → Outcome (Option Error)) (hrec : RecSound c Inv recur)
    (object obj : Value) (tags targetTags : List Tag) (f : StructField) (err : Option Error)
    (s : State) (hs : Inv s) (herr : err ≠ some Error.ErrInvalidObject) :
    (injectField c recur object obj tags targetTags f err s).holds
      (fun r s2 => Inv s2 ∧ (∀ e, r = Flow.ret e → e = Error.ErrInvalidTagName) ∧
        (∀ e, r = Flow.next e → e ≠ some Error.ErrInvalidObject)) Inv := by
  unfold injectField
  have hstep := injectStep_inv c Inv hp.toSteps object obj targetTags f s hs
  cases hst : injectStep c object obj targetTags f s with
  | done r s1 =>
    rw [hst] at hstep
    cases r with
    | ret e =>
      refine ⟨hstep.1, ?_, ?_⟩
      · intro e1 he1
        cases he1
        exact hstep.2 e rfl
      · intro e1 he1
        cases he1
    | next fieldObj =>
      simp only
      have hn := nestedField_inv c Inv recur hrec obj fieldObj tags err s1 hstep.1 herr
      cases hnf : nestedField c.env recur obj fieldObj tags err s1 with
      | done e s2 =>
        rw [hnf] at hn
        refine ⟨hn.1, ?_, ?_⟩
        · intro e1 he1
          cases he1
        · intro e1 he1
          cases he1
          exact hn.2
      | panic s2 =>
        rw [hnf] at hn
        exact hn
      | diverge => trivial
  | panic s1 =>
    rw [hst] at hstep
    exact hstep
  | diverge => trivial

theorem fieldLoop_inv (c : Ctx) (Inv : State → Prop) (hp : Preserved c Inv)
    (recur : Value → List Tag → State → Outcome (Option Error)) (hrec : RecSound c Inv recur)
    (object obj : Value) (tags targetTags : List Tag) :
    ∀ (fields : List StructField) (err : Option Error) (s : State), Inv s →
      err ≠ some Error.ErrInvalidObject →
      (fieldLoop c recur object obj tags targetTags fields err s).holds
        (fun r s2 => Inv s2 ∧ (∀ e, r = Flow.ret e → e = Error.ErrInvalidTagName) ∧
          (∀ e, r = Flow.next e → e ≠ some Error.ErrInvalidObject)) Inv := by
  intro fields
  induction fields with
  | nil =>
    intro err s hs herr
    refine ⟨hs, ?_, ?_⟩
    · intro e he
      cases he
    · intro e he
      cases he
      exact herr
  | cons f rest ih =>
    intro err s hs herr
    unfold fieldLoop
    have hf := injectField_inv c Inv hp recur hrec object obj tags targetTags f err s hs herr
    cases hif : injectField c recur object obj tags targetTags f err s with
    | done r s1 =>
      rw [hif] at hf
      cases r with
      | ret e =>
        refine ⟨hf.1, ?_, ?_⟩
        · intro e1 he1
          cases he1
          exact hf.2.1 e rfl
        · intro e1 he1
          cases he1
      | next err1 => exact ih err1 s1 hf.1 (hf.2.2 err1 rfl)
    | panic s1 =>
      rw [hif] at hf
      exact hf
    | diverge => trivial

theorem parseMethodInput_inv (c : Ctx) (Inv : State → Prop) (hp : Steps c Inv)
    (inType : GoType) (s : State) (hs : Inv s) : Inv (parseMethodInput c inType s).2 := by
  unfold parseMethodInput
  split
  · exact hs
  · split
    · exact hs
    · split
      · exact hs
      · exact hp.save _ _ _ (hp.alloc s _ hs)

theorem callHook_inv (c : Ctx) (Inv : State → Prop) (hp : Preserved c Inv) (obj : Value)
    (ins : List GoType) (args : List Value) (s : State) (hs : Inv s) :
    (callHook c obj ins args s).holds (fun _ s2 => Inv s2) Inv := by
  unfold callHook
  split
  · exact hp.call s obj args hs
  · exact hs

theorem paramLoop_inv (c : Ctx) (Inv : State → Prop) (hp : Preserved c Inv)
    (recur : Value → List Tag → State → Outcome (Option Error)) (hrec : RecSound c Inv recur)
    (obj : Value) (tags : List Tag) :
    ∀ (ins : List GoType) (inputs : List Value) (err : Option Error) (s : State), Inv s →
      err ≠ some Error.ErrInvalidObject →
      (paramLoop c recur obj tags ins inputs err s).holds
        (fun r s2 => Inv s2 ∧ r.2 ≠ some Error.ErrInvalidObject) Inv := by
  intro ins
  induction ins with
  | nil =>
    intro inputs err s hs herr
    exact ⟨hs, herr⟩
  | cons inType rest ih =>
    intro inputs err s hs herr
    unfold paramLoop
    have hpm := parseMethodInput_inv c Inv hp.toSteps inType s hs
    cases hres : parseMethodInput c inType s with
    | mk vo s1 =>
      rw [hres] at hpm
      cases vo with
      | mk val ok =>
        cases ok with
        | false => exact ⟨hpm, herr⟩
        | true =>
          simp only
          split
          · rename_i hg
            have hk := indirect_of_reflectIndirect c.env s1.heap val hg.2.2.2
            have := hrec val tags s1 hpm
            cases hr : recur val tags s1 with
            | done e s2 =>
              rw [hr] at this
              refine ih (inputs ++ [val]) e s2 this.1 (fun he => ?_)
              have h2 := this.2 he
              rw [hk] at h2
              exact h2 hg.2.2.2
            | panic s2 =>
              rw [hr] at this
              exact this
            | diverge => trivial
          · exact ih (inputs ++ [val]) err s1 hpm herr

theorem injectMethod_inv (c : Ctx) (Inv : State → Prop) (hp : Preserved c Inv)
    (recur : Value → List Tag → State → Outcome (Option Error)) (hrec : RecSound c Inv recur)
    (object obj : Value) (tags : List Tag) (err : Option Error) (s : State) (hs : Inv s)
    (herr : err ≠ some Error.ErrInvalidObject) :
    (injectMethod c recur object obj tags err s).holds
      (fun e s2 => Inv s2 ∧ e ≠ some Error.ErrInvalidObject) Inv := by
  unfold injectMethod
  split
  · exact ⟨hs, herr⟩
  · rename_i ins _
    cases obj with
    | zero => exact hs
    | imm t val st em => exact hs
    | ref t a path st em =>
      simp only
      have hl := paramLoop_inv c Inv hp recur hrec (Value.ref t a path st em) tags ins.tail []
        err s hs herr
      cases hpl : paramLoop c recur (Value.ref t a path st em) tags ins.tail [] err s with
      | done r s1 =>
        rw [hpl] at hl
        obtain ⟨⟨ok, inputs⟩, err1⟩ := r
        cases ok with
        | false => exact hl
        | true =>
          simp only
          have hc := callHook_inv c Inv hp (Value.ref t a path st em) ins inputs s1 hl.1
          cases hch : callHook c (Value.ref t a path st em) ins inputs s1 with
          | done u s2 =>
            rw [hch] at hc
            exact ⟨hc, hl.2⟩
          | panic s2 =>
            rw [hch] at hc
            exact hc
          | diverge => trivial
      | panic s1 =>
        rw [hpl] at hl
        exact hl
      | diverge => trivial

/-- The invariant lemma: a call of `IntoObjectValue` keeps every property of the state that
its steps keep, and returns `ErrInvalidObject` only for a target that does not dereference to a
struct. -/
theorem IntoObjectValue_inv (c : Ctx) (Inv : State → Prop) (hp : Preserved c Inv) :
    ∀ (fuel : Nat), RecSound c Inv (IntoObjectValue c fuel) := by
  intro fuel
  induction fuel with
  | zero =>
    intro v tags s _
    simp [IntoObjectValue, Outcome.holds]
  | succ fuel ih =>
    intro object tags s hs
    unfold IntoObjectValue
    split
    · exact ⟨hs, fun he => by cases he⟩
    · rename_i factory _
      split
      · rename_i hk
        exact ⟨hs, fun _ => hk⟩
      · split
        · exact ⟨hs, fun he => by cases he⟩
        · split
          · exact hs
          · split
            · exact ⟨hs, fun he => by cases he⟩
            · split
              · exact hs
              · split
                · trivial
                · rename_i fields _
                  have hl := fieldLoop_inv c Inv hp (IntoObjectValue c fuel) ih object
                    (Indirect c.env s.heap object) tags
                    (if tags.length ≠ 0 then tags else c.tagsContainer) fields none s hs
                    (by simp)
                  cases hfl : fieldLoop c (IntoObjectValue c fuel) object
                    (Indirect c.env s.heap object) tags
                    (if tags.length ≠ 0 then tags else c.tagsContainer) fields none s with
                  | done r s1 =>
                    rw [hfl] at hl
                    cases r with
                    | ret e =>
                      refine ⟨hl.1, fun he => ?_⟩
                      have := hl.2.1 e rfl
                      subst this
                      cases he
                    | next err =>
                      simp only
                      have hm := injectMethod_inv c Inv hp (IntoObjectValue c fuel) ih object
                        (Indirect c.env s.heap object) tags err s1 hl.1 (hl.2.2 err rfl)
                      cases him : injectMethod c (IntoObjectValue c fuel) object
                        (Indirect c.env s.heap object) tags err s1 with
                      | done e s2 =>
                        rw [him] at hm
                        exact ⟨hm.1, fun he => absurd he hm.2⟩
                      | panic s2 =>
                        rw [him] at hm
                        exact hm
                      | diverge => trivial
                  | panic s1 =>
                    rw [hfl] at hl
                    exact hl
                  | diverge => trivial

/-! ## C9: the invalid-object error -/

theorem preserved_true (c : Ctx) : Preserved c (fun _ => True) :=
  { tag := fun _ _ _ _ _ _ _ => trivial
    save := fun _ _ _ _ => trivial
    assign := fun _ _ _ _ _ _ _ _ _ _ _ _ _ _ _ => trivial
    alloc := fun _ _ _ => trivial
    call := fun _ _ _ _ => trivial }

/-- C9: with the registry reference set, `IntoObjectValue` returns `ErrInvalidObject` (and
changes nothing) for every target that does not dereference to a struct, and never returns
`ErrInvalidObject` for a target that does. -/
theorem invalid_object_iff_not_struct (c : Ctx) (fuel : Nat) (object : Value) (tags : List Tag)
    (s : State) (hreg : s.appFactory ≠ none) :
    ((Indirect c.env s.heap object).Kind c.env ≠ Kind.Struct →
      IntoObjectValue c (fuel + 1) object tags s
        = Outcome.done (some Error.ErrInvalidObject) s) ∧
    ((Indirect c.env s.heap object).Kind c.env = Kind.Struct →
      ∀ s2, IntoObjectValue c fuel object tags s
        ≠ Outcome.done (some Error.ErrInvalidObject) s2) := by
  refine ⟨?_, ?_⟩
  · intro hk
    cases hf : s.appFactory with
    | none => exact absurd hf hreg
    | some r => simp [IntoObjectValue, hf, hk]
  · intro hk s2 hres
    have := IntoObjectValue_inv c (fun _ => True) (preserved_true c) fuel object tags s trivial
    rw [hres] at this
    exact this.2 rfl hk

/-- A witness for C9: a value that is no struct, a nil pointer and a nil interface are rejected,
a pointer to a struct and a pointer to such a pointer are not. -/
theorem invalid_object_iff_not_struct_witness :
    IntoObjectValue exampleCtx (0 + 1) (ValueOf (some (GoType.basic Kind.Int, Val.int 3))) []
        (exampleState [])
      = Outcome.done (some Error.ErrInvalidObject) (exampleState []) ∧
    IntoObjectValue exampleCtx (0 + 1) (ValueOf (some (GoType.ptr fooType, Val.nil))) []
        (exampleState [])
      = Outcome.done (some Error.ErrInvalidObject) (exampleState []) ∧
    IntoObjectValue exampleCtx (0 + 1) (ValueOf none) [] (exampleState [])
      = Outcome.done (some Error.ErrInvalidObject) (exampleState []) ∧
    (∀ s2, IntoObjectValue exampleCtx 3 (ValueOf (some fooPtr)) [] (exampleState [])
      ≠ Outcome.done (some Error.ErrInvalidObject) s2) ∧
    (∀ s2, IntoObjectValue exampleCtx 3
        (ValueOf (some (GoType.ptr (GoType.ptr fooType), Val.ptr 8))) [] (exampleState [])
      ≠ Outcome.done (some Error.ErrInvalidObject) s2) :=
  ⟨(invalid_object_iff_not_struct exampleCtx 0 (ValueOf (some (GoType.basic Kind.Int, Val.int 3)))
      [] (exampleState []) (by decide)).1 (by decide),
   (invalid_object_iff_not_struct exampleCtx 0 (ValueOf (some (GoType.ptr fooType, Val.nil)))
      [] (exampleState []) (by decide)).1 (by decide),
   (invalid_object_iff_not_struct exampleCtx 0 (ValueOf none)
      [] (exampleState []) (by decide)).1 (by decide),
   (invalid_object_iff_not_struct exampleCtx 3 (ValueOf (some fooPtr))
      [] (exampleState []) (by decide)).2 (by decide),
   (invalid_object_iff_not_struct exampleCtx 3
      (ValueOf (some (GoType.ptr (GoType.ptr fooType), Val.ptr 8)))
      [] (exampleState []) (by decide)).2 (by decide)⟩

/-! ## C5: a convention match skips the resolvers -/

theorem lookup_append_of_some {α : Type} (k : String) (l1 l2 : List (String × α)) (v : α)
    (h : l1.lookup k = some v) : (l1 ++ l2).lookup k = some v := by
  induction l1 with
  | nil => simp at h
  | cons p rest ih =>
    obtain ⟨k1, v1⟩ := p
    simp only [List.cons_append, List.lookup_cons] at h ⊢
    split
    · rename_i heq
      simpa [heq] using h
    · rename_i heq
      simp only [heq] at h
      exact ih h

/-- The registry only grows: what `getInstanceByName` finds before `saveInstance`, it finds
afterwards. -/
theorem saveInstance_keeps (name : String) (inst : Inst) (s : State) (n : String) (v : Inst)
    (h : getInstanceByName s n = some v) :
    getInstanceByName (saveInstance name inst s).2 n = some v := by
  unfold saveInstance
  cases hf : s.appFactory with
  | none => simp [getInstanceByName, hf] at h
  | some r =>
    simp only [getInstanceByName, hf] at h
    simp only [Registry.SetInstance]
    cases hl : r.lookup (LowerFirst name) with
    | some w => simpa [getInstanceByName, State.emit] using h
    | none =>
      simp only [getInstanceByName, State.emit, Registry.GetInstance]
      exact lookup_append_of_some _ r _ v h

theorem Value.Set_frame (env : TypeEnv) (fieldObj : Value) (inst : Inst) (s s2 : State)
    (h : Value.Set env fieldObj inst s = Outcome.done () s2) :
    s2.appFactory = s.appFactory ∧
    ∃ e, s2.trace = s.trace ++ [e] ∧ e.isStore = false ∧ e.tagIndex = none ∧
      e.tagField = none := by
  unfold Value.Set at h
  split at h
  · split at h
    · split at h
      · split at h
        · simp only [Outcome.done.injEq, true_and] at h
          subst h
          exact ⟨rfl, _, rfl, rfl, rfl, rfl⟩
        · cases h
      · cases h
    · cases h
  · cases h

/-- The property kept by a call that was started in state `s0` with a registry entry for the
name `n`: the entry is still there, and no resolver was called for a member called `n`. -/
theorem preserved_match (c : Ctx) (s0 : State) (n : String) :
    Preserved c (fun s => getInstanceByName s n ≠ none ∧
      ∃ evs, s.trace = s0.trace ++ evs ∧ ∀ e ∈ evs, e.tagField ≠ some n) :=
  { tag := by
      intro s i object f tag hs hmiss
      obtain ⟨hn, evs, htr, hev⟩ := hs
      have hne : f.Name ≠ n := by
        intro heq
        rw [heq] at hmiss
        exact hn hmiss
      refine ⟨by simpa using hn, evs ++ [Event.tagInit i object f.Name,
        Event.tagDecode i object f.Name tag], by simp [htr], ?_⟩
      intro e he
      rcases List.mem_append.1 he with h1 | h2
      · exact hev e h1
      · simp only [List.mem_cons, List.mem_singleton, List.not_mem_nil, or_false] at h2
        rw [(tag_events i object f.Name tag e h2).2.2]
        intro h3
        cases h3
        exact hne rfl
    save := by
      intro s name inst hs
      obtain ⟨hn, evs, htr, hev⟩ := hs
      cases hg : getInstanceByName s n with
      | none => exact absurd hg hn
      | some v =>
        refine ⟨by rw [saveInstance_keeps name inst s n v hg]; simp, ?_⟩
        obtain ⟨evs2, htr2, hev2⟩ := saveInstance_trace name inst s
        refine ⟨evs ++ evs2, by rw [htr2, htr]; simp, ?_⟩
        intro e he
        rcases List.mem_append.1 he with h1 | h2
        · exact hev e h1
        · rw [(hev2 e h2).2]
          simp
    assign := by
      intro _ s _ _ _ _ fieldObj inst s2 _ hs _ _ _ hset
      obtain ⟨hn, evs, htr, hev⟩ := hs
      obtain ⟨hreg, e, htr2, _, _, hf⟩ := Value.Set_frame c.env fieldObj inst s s2 hset
      refine ⟨?_, evs ++ [e], by rw [htr2, htr]; simp, ?_⟩
      · simpa [getInstanceByName, hreg] using hn
      · intro e1 he
        rcases List.mem_append.1 he with h1 | h2
        · exact hev e1 h1
        · simp only [List.mem_singleton] at h2
          subst h2
          rw [hf]
          simp
    alloc := by
      intro s t hs
      exact hs
    call := by
      intro s obj args hs
      obtain ⟨hn, evs, htr, hev⟩ := hs
      refine ⟨by simpa using hn, evs ++ [Event.call obj args], by simp [htr], ?_⟩
      intro e he
      rcases List.mem_append.1 he with h1 | h2
      · exact hev e h1
      · simp only [List.mem_singleton] at h2
        subst h2
        simp [Event.tagField] }

/-- C5: when the registry holds an entry under the lower-camel-case of the name of a member,
a call of `IntoObjectValue`, however it ends, calls neither `Init` nor `Decode` of any resolver
for that member, whatever tags the member carries. -/
theorem convention_match_skips_resolvers (c : Ctx) (fuel : Nat) (object : Value)
    (tags : List Tag) (s : State) (f : StructField) (v : Inst)
    (hreg : getInstanceByName s f.Name = some v) :
    (∀ r s2, IntoObjectValue c fuel object tags s = Outcome.done r s2 →
      ∃ evs, s2.trace = s.trace ++ evs ∧ ∀ e ∈ evs, e.tagField ≠ some f.Name) ∧
    (∀ s2, IntoObjectValue c fuel object tags s = Outcome.panic s2 →
      ∃ evs, s2.trace = s.trace ++ evs ∧ ∀ e ∈ evs, e.tagField ≠ some f.Name) := by
  have := IntoObjectValue_inv c _ (preserved_match c s f.Name) fuel object tags s
    ⟨by rw [hreg]; simp, [], by simp, by simp⟩
  refine ⟨?_, ?_⟩
  · intro r s2 hres
    rw [hres] at this
    exact this.1.2
  · intro s2 hres
    rw [hres] at this
    exact this.2

/-- A witness for C5: `My_Dep` carries the tags of two registered resolvers and the registry
holds an entry under `myDep`; the trace of the injection is the assignment alone. -/
theorem convention_match_skips_resolvers_witness :
    ∃ evs,
      ({ appFactory := some (configuredRegistry ++ [("myDep", bazInst)]),
         heap := exampleHeap.set 4 (Val.struct (Fields.cons "My_Dep" (Val.ptr 1) Fields.nil)),
         trace := [Event.set 4 ["My_Dep"] bazInst] } : State).trace
        = (exampleState [("myDep", bazInst)]).trace ++ evs ∧
      ∀ e ∈ evs, e.tagField ≠ some holderField.Name :=
  (convention_match_skips_resolvers
    { env := exampleEnv,
      tagsContainer := [firstTag (some bazInst) true, secondTag (some bazInst) true] }
    3 (ValueOf (some holderPtr)) [] (exampleState [("myDep", bazInst)]) holderField bazInst
    (by decide)).1 none
    { appFactory := some (configuredRegistry ++ [("myDep", bazInst)]),
      heap := exampleHeap.set 4 (Val.struct (Fields.cons "My_Dep" (Val.ptr 1) Fields.nil)),
      trace := [Event.set 4 ["My_Dep"] bazInst] }
    (by decide)

/-! ## C8: objects without tags and registry matches -/

/-- A loop over the members that goes through all of them goes through the members in front of
any one of them, through that one, and through the members behind it. -/
theorem fieldLoop_split (c : Ctx) (recur : Value → List Tag → State → Outcome (Option Error))
    (object obj : Value) (tags targetTags : List Tag) (f0 : StructField)
    (l2 : List StructField) (e : Option Error) (s2 : State) :
    ∀ (l1 : List StructField) (err : Option Error) (s : State),
      fieldLoop c recur object obj tags targetTags (l1 ++ f0 :: l2) err s
        = Outcome.done (Flow.next e) s2 →
      ∃ err1 s1 err2 s3,
        fieldLoop c recur object obj tags targetTags l1 err s = Outcome.done (Flow.next err1) s1 ∧
        injectField c recur object obj tags targetTags f0 err1 s1
          = Outcome.done (Flow.next err2) s3 ∧
        fieldLoop c recur object obj tags targetTags l2 err2 s3
          = Outcome.done (Flow.next e) s2 := by
  intro l1
  induction l1 with
  | nil =>
    intro err s h
    simp only [List.nil_append, fieldLoop] at h
    split at h
    · rename_i err1 s1 hif
      exact ⟨err, s, err1, s1, rfl, hif, h⟩
    · cases h
    · cases h
    · cases h
  | cons g rest ih =>
    intro err s h
    simp only [List.cons_append, fieldLoop] at h
    split at h
    · rename_i err1 s1 hif
      obtain ⟨err2, s3, err3, s4, h1, h2, h3⟩ := ih err1 s1 h
      refine ⟨err2, s3, err3, s4, ?_, h2, h3⟩
      simp only [fieldLoop, hif, h1]
    · cases h
    · cases h
    · cases h

/-- The property that the registry holds `v` under the name `n` is kept by a call. -/
theorem preserved_entry (c : Ctx) (n : String) (v : Inst) :
    Preserved c (fun s => getInstanceByName s n = some v) :=
  { tag := by
      intro s i object f tag hs _
      exact hs
    save := by
      intro s name inst hs
      exact saveInstance_keeps name inst s n v hs
    assign := by
      intro _ s1 _ _ _ _ fieldObj inst s2 _ hs1 _ _ _ hv
      have := (Value.Set_frame c.env fieldObj inst s1 s2 hv).1
      simpa [getInstanceByName, this] using hs1
    alloc := by
      intro s t hs
      exact hs
    call := by
      intro s obj args hs
      exact hs }

/-! ## C1: a member with a registry entry under its name -/

/-- In a configured system, for a target that dereferences to a struct whose flattening ends,
a call is the loop over the members followed by the method injection. -/
theorem IntoObjectValue_configured (c : Ctx) (fuel : Nat) (object : Value) (tags : List Tag)
    (s : State) (fields : List StructField) (hconf : s.configured = true)
    (hobj : (Indirect c.env s.heap object).Kind c.env = Kind.Struct)
    (hdeep : DeepFields c.env fuel object.Type = some fields) :
    IntoObjectValue c (fuel + 1) object tags s =
      match fieldLoop c (IntoObjectValue c fuel) object (Indirect c.env s.heap object) tags
          (if tags.length ≠ 0 then tags else c.tagsContainer) fields none s with
      | Outcome.done (Flow.ret e) s1 => Outcome.done (some e) s1
      | Outcome.done (Flow.next err) s1 =>
        injectMethod c (IntoObjectValue c fuel) object (Indirect c.env s.heap object) tags err s1
      | Outcome.panic s1 => Outcome.panic s1
      | Outcome.diverge => Outcome.diverge := by
  unfold State.configured at hconf
  cases hf : s.appFactory with
  | none => simp [hf] at hconf
  | some r =>
    simp only [hf, Bool.and_eq_true] at hconf
    obtain ⟨hsc, hcs⟩ := hconf
    cases hsc1 : r.GetInstance "systemConfiguration" with
    | none => simp [hsc1] at hsc
    | some sc =>
      simp only [hsc1, beq_iff_eq] at hsc
      cases hcs1 : r.GetInstance "configurations" with
      | none => simp [hcs1] at hcs
      | some cs =>
        simp only [hcs1, beq_iff_eq] at hcs
        simp only [IntoObjectValue, hf, hobj, ne_eq, not_true_eq_false, if_false, hsc1, hsc,
          hcs1, hcs, hdeep]

/-- What a call that returns has done: it returned early from one of the checks at its head,
or it ran the loop over the members, which either returned an error or was followed by the
method injection. -/
theorem IntoObjectValue_done (c : Ctx) (fuel : Nat) (object : Value) (tags : List Tag)
    (s s2 : State) (e : Option Error)
    (hres : IntoObjectValue c (fuel + 1) object tags s = Outcome.done e s2) :
    (e = some Error.ErrSystemConfiguration ∧ s2 = s) ∨
    (e = some Error.ErrInvalidObject ∧ s2 = s) ∨
    ∃ fields, DeepFields c.env fuel object.Type = some fields ∧
      (Indirect c.env s.heap object).Kind c.env = Kind.Struct ∧
      ((∃ e1, e = some e1 ∧
          fieldLoop c (IntoObjectValue c fuel) object (Indirect c.env s.heap object) tags
            (if tags.length ≠ 0 then tags else c.tagsContainer) fields none s
            = Outcome.done (Flow.ret e1) s2) ∨
       (∃ err s1,
          fieldLoop c (IntoObjectValue c fuel) object (Indirect c.env s.heap object) tags
            (if tags.length ≠ 0 then tags else c.tagsContainer) fields none s
            = Outcome.done (Flow.next err) s1 ∧
          injectMethod c (IntoObjectValue c fuel) object (Indirect c.env s.heap object) tags
            err s1 = Outcome.done e s2)) := by
  unfold IntoObjectValue at hres
  split at hres
  · simp only [Outcome.done.injEq] at hres
    exact Or.inl ⟨hres.1.symm, hres.2.symm⟩
  · split at hres
    · simp only [Outcome.done.injEq] at hres
      exact Or.inr (Or.inl ⟨hres.1.symm, hres.2.symm⟩)
    · rename_i hkind
      split at hres
      · simp only [Outcome.done.injEq] at hres
        exact Or.inl ⟨hres.1.symm, hres.2.symm⟩
      · split at hres
        · cases hres
        · split at hres
          · simp only [Outcome.done.injEq] at hres
            exact Or.inl ⟨hres.1.symm, hres.2.symm⟩
          · split at hres
            · cases hres
            · split at hres
              · cases hres
              · rename_i fields hdeep
                refine Or.inr (Or.inr ⟨fields, hdeep, not_not.1 hkind, ?_⟩)
                split at hres
                · rename_i e1 s1 hfl
                  simp only [Outcome.done.injEq] at hres
                  obtain ⟨h1, h2⟩ := hres
                  subst h2
                  exact Or.inl ⟨e1, h1.symm, hfl⟩
                · rename_i err s1 hfl
                  exact Or.inr ⟨err, s1, hfl, hres⟩
                · cases hres
                · cases hres

/-! ## C11: a resolver with an empty keyword -/

/-- For a member that no resolver in front of one with an empty keyword yields an instance
for, the loop over the resolvers returns `ErrInvalidTagName`, having changed nothing but the
trace. -/
theorem tagLoop_empty_keyword (c : Ctx) (object : Value) (f : StructField) (t : Tag)
    (post : List Tag) :
    ∀ (pre : List Tag) (i : Nat) (s : State),
      ParseObjectName c.env s.heap t.self "Tag" = "" →
      (∀ r ∈ pre, decodes c s.heap object f r = none) →
      ∃ evs, tagLoop c object f (pre ++ t :: post) i s
        = (Flow.ret Error.ErrInvalidTagName, { s with trace := s.trace ++ evs }) := by
  intro pre
  induction pre with
  | nil =>
    intro i s hkw _
    exact ⟨[], by simp [tagLoop, hkw]⟩
  | cons r pre ih =>
    intro i s hkw hpre
    have hr := hpre r (List.mem_cons_self _ _)
    have hrest : ∀ r1 ∈ pre, decodes c s.heap object f r1 = none :=
      fun r1 h1 => hpre r1 (List.mem_cons_of_mem _ h1)
    by_cases hk : ParseObjectName c.env s.heap r.self "Tag" = ""
    · exact ⟨[], by simp [tagLoop, hk]⟩
    · cases hl : f.Tag.Lookup (ParseObjectName c.env s.heap r.self "Tag") with
      | none =>
        obtain ⟨evs, he⟩ := ih (i + 1) s hkw hrest
        exact ⟨evs, by simp only [List.cons_append, tagLoop, hk, if_false, hl, List.append_eq, he]⟩
      | some tag =>
        have hd : r.Decode object f tag = none := by simpa [decodes, hl] using hr
        obtain ⟨evs, he⟩ := ih (i + 1)
          ((s.emit (Event.tagInit i object f.Name)).emit (Event.tagDecode i object f.Name tag))
          hkw hrest
        refine ⟨Event.tagInit i object f.Name :: Event.tagDecode i object f.Name tag :: evs, ?_⟩
        simp only [List.cons_append, tagLoop, hk, if_false, hl, hd, List.append_eq, he]
        simp [State.emit]

/-- C11, as stated, fails: the resolver set of the call holds only a resolver with an empty
keyword, the system is configured and the object is the struct `Baz`, whose only member `X`
has a registry entry under `x`; the call returns no error. -/
theorem empty_keyword_unnoticed_on_convention_match :
    (moreState [("x", (GoType.basic Kind.Int, Val.int 7))]).configured = true ∧
      (Indirect moreEnv moreHeap (ValueOf (some bazInst))).Kind moreEnv = Kind.Struct ∧
      ParseObjectName moreEnv moreHeap namelessTag.self "Tag" = "" ∧
      (IntoObject { env := moreEnv, tagsContainer := [namelessTag] } 4 (some bazInst)
        (moreState [("x", (GoType.basic Kind.Int, Val.int 7))])).returned.map Prod.fst
        = some none := by
  decide

/-- C11, amended: in a configured system let the object dereference to a struct and let the
resolver set hold a resolver with an empty keyword.  When the first member of the flattened
list has no registry entry under its name and no resolver in front of that one yields an
instance for it, the call fails with `ErrInvalidTagName`, having changed nothing but the
trace.  For any member of the flattened list that no resolver in front yields an instance for,
a call that returns either returns `ErrInvalidTagName` or leaves a registry entry under the
name of the member. -/
theorem empty_keyword_fails_without_convention_match (c : Ctx) (fuel : Nat) (object : Value)
    (tags : List Tag) (s : State) (t : Tag) (pre post : List Tag) (fields : List StructField)
    (hconf : s.configured = true)
    (hobj : (Indirect c.env s.heap object).Kind c.env = Kind.Struct)
    (hdeep : DeepFields c.env fuel object.Type = some fields)
    (htags : (if tags.length ≠ 0 then tags else c.tagsContainer) = pre ++ t :: post)
    (hkw : ∀ h, ParseObjectName c.env h t.self "Tag" = "") :
    (∀ (f : StructField) (rest : List StructField) (fieldObj : Value),
      fields = f :: rest →
      (Indirect c.env s.heap object).FieldByName c.env s.heap f.Name = some fieldObj →
      getInstanceByName s f.Name = none →
      (∀ r ∈ pre, decodes c s.heap object f r = none) →
      ∃ evs, IntoObjectValue c (fuel + 1) object tags s
        = Outcome.done (some Error.ErrInvalidTagName) { s with trace := s.trace ++ evs }) ∧
    (∀ (f : StructField) (e : Option Error) (s2 : State), f ∈ fields →
      (∀ h, ∀ r ∈ pre, decodes c h object f r = none) →
      IntoObjectValue c (fuel + 1) object tags s = Outcome.done e s2 →
      e = some Error.ErrInvalidTagName ∨ getInstanceByName s2 f.Name ≠ none) := by
  constructor
  · intro f rest fieldObj hfields hfield hreg hpre
    subst hfields
    obtain ⟨evs, hev⟩ := tagLoop_empty_keyword c object f t post pre 0 s (hkw s.heap) hpre
    refine ⟨evs, ?_⟩
    rw [IntoObjectValue_configured c fuel object tags s _ hconf hobj hdeep, htags]
    have hv : ((Indirect c.env s.heap object).IsValid
        && (Indirect c.env s.heap object).Kind c.env == Kind.Struct) = true := by
      cases hi : Indirect c.env s.heap object with
      | zero => simp [hi, Value.Kind] at hobj
      | imm _ _ _ _ => simpa [hi, Value.IsValid] using hobj
      | ref _ _ _ _ _ => simpa [hi, Value.IsValid] using hobj
    simp only [fieldLoop, injectField, injectStep, hv, if_true, hfield, resolveField, hreg, hev]
  · intro f e s2 hmem hpre hres
    rw [IntoObjectValue_configured c fuel object tags s _ hconf hobj hdeep, htags] at hres
    split at hres
    · rename_i e1 s1 hfl
      have hinv := fieldLoop_inv c _ (preserved_true c) (IntoObjectValue c fuel)
        (IntoObjectValue_inv c _ (preserved_true c) fuel) object
        (Indirect c.env s.heap object) tags (pre ++ t :: post) fields none s trivial (by simp)
      rw [hfl] at hinv
      simp only [Outcome.done.injEq] at hres
      left
      rw [← hres.1, hinv.2.1 e1 rfl]
    · rename_i err s1 hfl
      right
      obtain ⟨l1, l2, rfl⟩ := List.append_of_mem hmem
      obtain ⟨err1, sa, err2, sb, hl1, hif, hl2⟩ :=
        fieldLoop_split c (IntoObjectValue c fuel) object _ tags _ f l2 err s1 l1 none s hfl
      have herr1 : err1 ≠ some Error.ErrInvalidObject := by
        have := fieldLoop_inv c _ (preserved_true c) (IntoObjectValue c fuel)
          (IntoObjectValue_inv c _ (preserved_true c) fuel) object
          (Indirect c.env s.heap object) tags (pre ++ t :: post) l1 none s trivial (by simp)
        rw [hl1] at this
        exact this.2.2 err1 rfl
      cases hreg : getInstanceByName sa f.Name with
      | none =>
        exfalso
        obtain ⟨evs, hev⟩ := tagLoop_empty_keyword c object f t post pre 0 sa (hkw sa.heap)
          (hpre sa.heap)
        unfold injectField at hif
        split at hif
        · cases hif
        · rename_i fieldObj sc hstep
          unfold injectStep at hstep
          split at hstep
          · cases hstep
          · simp only [resolveField, hreg, hev] at hstep
            cases hstep
        · cases hif
        · cases hif
      | some w =>
        have hrec := IntoObjectValue_inv c _ (preserved_entry c f.Name w) fuel
        have hsuf : fieldLoop c (IntoObjectValue c fuel) object (Indirect c.env s.heap object)
            tags (pre ++ t :: post) (f :: l2) err1 sa = Outcome.done (Flow.next err) s1 := by
          simp only [fieldLoop, hif, hl2]
        have hrest := fieldLoop_inv c _ (preserved_entry c f.Name w) (IntoObjectValue c fuel)
          hrec object (Indirect c.env s.heap object) tags (pre ++ t :: post) (f :: l2) err1 sa
          hreg herr1
        rw [hsuf] at hrest
        have hhook := injectMethod_inv c _ (preserved_entry c f.Name w)
          (IntoObjectValue c fuel) hrec object (Indirect c.env s.heap object) tags err s1
          hrest.1 (hrest.2.2 err rfl)
        rw [hres] at hhook
        rw [hhook.1]
        simp
    · cases hres
    · cases hres
/-- A witness for C11, amended: the zero `Foo`, whose member `Bar` has no registry entry, and
the resolver set that holds only the resolver with the empty keyword. -/
theorem empty_keyword_fails_without_convention_match_witness :
    (∃ evs, IntoObjectValue { env := moreEnv, tagsContainer := [namelessTag] } 3
        (ValueOf (some fooPtr)) [] (moreState [])
        = Outcome.done (some Error.ErrInvalidTagName)
            { moreState [] with trace := (moreState []).trace ++ evs }) ∧
      (some Error.ErrInvalidTagName = some Error.ErrInvalidTagName ∨
        getInstanceByName (moreState []) "Bar" ≠ none) :=
  ⟨(empty_keyword_fails_without_convention_match
      { env := moreEnv, tagsContainer := [namelessTag] } 2 (ValueOf (some fooPtr)) []
      (moreState []) namelessTag [] [] [{ Name := "Bar", Typ := GoType.ptr bazType }]
      (by decide) (by decide) (by decide) rfl (fun _ => rfl)).1
      { Name := "Bar", Typ := GoType.ptr bazType } []
      (Value.ref (GoType.ptr bazType) 2 ["Bar"] false false) rfl (by decide) (by decide)
      (by intro r hr; cases hr),
   (empty_keyword_fails_without_convention_match
      { env := moreEnv, tagsContainer := [namelessTag] } 2 (ValueOf (some fooPtr)) []
      (moreState []) namelessTag [] [] [{ Name := "Bar", Typ := GoType.ptr bazType }]
      (by decide) (by decide) (by decide) rfl (fun _ => rfl)).2
      { Name := "Bar", Typ := GoType.ptr bazType } (some Error.ErrInvalidTagName) (moreState [])
      (by simp) (by intro h r hr; cases hr) (by decide)⟩

/-! ## C12: the error of a nested call -/

/-- C12: the error of a nested call is lost when a later nested call succeeds.  The resolver set
holds only the resolver with the empty keyword; `Pair` has the members `Bar *Baz` and
`Svc *Service`, both with a registry entry; `Baz` has the member `X`, which has no registry
entry, and `Service` has no members.  The nested call on `Bar` returns `ErrInvalidTagName`, the
body of the loop for `Bar` leaves this error in `err`, the nested call on `Svc` returns nil,
which overwrites it, and the call on the `Pair` returns no error. -/
theorem nested_error_is_overwritten :
    IntoObjectValue { env := moreEnv, tagsContainer := [namelessTag] } 3
        (Value.ref (GoType.ptr bazType) 9 ["Bar"] false false) []
        { pairState with
          heap := pairState.heap.set 9
            (Val.struct (Fields.cons "Bar" (Val.ptr 1) (Fields.cons "Svc" Val.nil Fields.nil))),
          trace := [Event.set 9 ["Bar"] bazInst] }
      = Outcome.done (some Error.ErrInvalidTagName)
        { pairState with
          heap := pairState.heap.set 9
            (Val.struct (Fields.cons "Bar" (Val.ptr 1) (Fields.cons "Svc" Val.nil Fields.nil))),
          trace := [Event.set 9 ["Bar"] bazInst] } ∧
    injectField { env := moreEnv, tagsContainer := [namelessTag] }
        (IntoObjectValue { env := moreEnv, tagsContainer := [namelessTag] } 3)
        (ValueOf (some pairPtr)) (Value.ref (GoType.named "app" "Pair") 9 [] false false) []
        [namelessTag] { Name := "Bar", Typ := GoType.ptr bazType } none pairState
      = Outcome.done (Flow.next (some Error.ErrInvalidTagName))
        { pairState with
          heap := pairState.heap.set 9
            (Val.struct (Fields.cons "Bar" (Val.ptr 1) (Fields.cons "Svc" Val.nil Fields.nil))),
          trace := [Event.set 9 ["Bar"] bazInst] } ∧
    IntoObjectValue { env := moreEnv, tagsContainer := [namelessTag] } 3
        (Value.ref (GoType.ptr serviceType) 9 ["Svc"] false false) []
        { pairState with
          heap := pairState.heap.set 9
            (Val.struct
              (Fields.cons "Bar" (Val.ptr 1) (Fields.cons "Svc" (Val.ptr 13) Fields.nil))),
          trace := [Event.set 9 ["Bar"] bazInst,
            Event.set 9 ["Svc"] (GoType.ptr serviceType, Val.ptr 13)] }
      = Outcome.done none
        { pairState with
          heap := pairState.heap.set 9
            (Val.struct
              (Fields.cons "Bar" (Val.ptr 1) (Fields.cons "Svc" (Val.ptr 13) Fields.nil))),
          trace := [Event.set 9 ["Bar"] bazInst,
            Event.set 9 ["Svc"] (GoType.ptr serviceType, Val.ptr 13)] } ∧
    IntoObject { env := moreEnv, tagsContainer := [namelessTag] } 4 (some pairPtr) pairState
      = Outcome.done none
        { pairState with
          heap := pairState.heap.set 9
            (Val.struct
              (Fields.cons "Bar" (Val.ptr 1) (Fields.cons "Svc" (Val.ptr 13) Fields.nil))),
          trace := [Event.set 9 ["Bar"] bazInst,
            Event.set 9 ["Svc"] (GoType.ptr serviceType, Val.ptr 13)] } := by
  refine ⟨by decide, by decide, by decide, by decide⟩

/-! ## C13: a hook with an interface parameter that is not registered -/

/-- C13: `Hooked` has the hook `Init(Dep)` with `Dep` of interface kind, and the registry has
no entry under `Dep` nor under `appDep`.  The parameter is not resolved, the hook is not
called, and the call returns no error, with the state unchanged. -/
theorem unresolved_hook_parameter_returns_no_error :
    MethodByName moreEnv hookedPtr.1 = some [GoType.ptr (GoType.named "app" "Hooked"), depType] ∧
      depType.Kind moreEnv = Kind.Interface ∧
      getInstanceByName (moreState []) (IndirectType depType).Name = none ∧
      getInstanceByName (moreState [])
        (DirName (IndirectType depType).PkgPath ++ (IndirectType depType).Name) = none ∧
      (parseMethodInput { env := moreEnv } depType (moreState [])).1 = (Value.zero, false) ∧
      IntoObject { env := moreEnv } 4 (some hookedPtr) (moreState [])
        = Outcome.done none (moreState []) := by
  refine ⟨by decide, by decide, by decide, by decide, by decide, by decide⟩

/-! ## C14: a parameter of slice kind -/

/-- C14: for the parameter type `[]Baz`, of slice kind, with no registry entry under `Baz` nor
under `appBaz`, `parseMethodInput` reports success: it creates a zero `Baz` in a new cell,
stores the pointer to it in the registry and yields it as the parameter value.  The hook
`Init([]Baz)` of `Sliced` is then called with a `*Baz`, and `Value.Call` panics. -/
theorem slice_parameter_is_created :
    (GoType.slice bazType).Kind moreEnv = Kind.Slice ∧
      getInstanceByName (moreState []) (IndirectType (GoType.slice bazType)).Name = none ∧
      getInstanceByName (moreState [])
        (DirName (IndirectType (GoType.slice bazType)).PkgPath
          ++ (IndirectType (GoType.slice bazType)).Name) = none ∧
      (parseMethodInput { env := moreEnv } (GoType.slice bazType) (moreState [])).1
        = (Value.imm (GoType.ptr bazType) (Val.ptr 13) false false, true) ∧
      getInstanceByName (parseMethodInput { env := moreEnv } (GoType.slice bazType)
        (moreState [])).2 "Baz" = some (GoType.ptr bazType, Val.ptr 13) ∧
      (parseMethodInput { env := moreEnv } (GoType.slice bazType) (moreState [])).2.heap
        = moreHeap ++ [Val.struct (Fields.cons "X" (Val.int 0) Fields.nil)] ∧
      MethodByName moreEnv slicedPtr.1
        = some [GoType.ptr (GoType.named "app" "Sliced"), GoType.slice bazType] ∧
      IntoObject { env := moreEnv } 4 (some slicedPtr) (moreState [])
        = Outcome.panic (parseMethodInput { env := moreEnv } (GoType.slice bazType)
            (moreState [])).2 := by
  refine ⟨by decide, by decide, by decide, by decide, by decide, by decide, by decide,
    by decide⟩

/-! ## C15: an object without hook -/

/-- C15: for an object whose type has no method `Init`, the method injection returns the error
it was given and leaves the state as it is: no registry entry is written, nothing is mutated
and nothing is called.  In a configured system, for an object that dereferences to a struct,
`IntoObjectValue` therefore ends exactly as the loop over the members does: with the error the
loop returned, or with the error of the last nested call, in the state the loop left. -/
theorem no_hook_is_no_op (c : Ctx) (object : Value) (tags : List Tag)
    (hno : MethodByName c.env object.Type = none) :
    (∀ (recur : Value → List Tag → State → Outcome (Option Error)) (obj : Value)
        (err : Option Error) (s : State),
      injectMethod c recur object obj tags err s = Outcome.done err s) ∧
    (∀ (fuel : Nat) (s : State) (fields : List StructField), s.configured = true →
      (Indirect c.env s.heap object).Kind c.env = Kind.Struct →
      DeepFields c.env fuel object.Type = some fields →
      IntoObjectValue c (fuel + 1) object tags s =
        match fieldLoop c (IntoObjectValue c fuel) object (Indirect c.env s.heap object) tags
            (if tags.length ≠ 0 then tags else c.tagsContainer) fields none s with
        | Outcome.done (Flow.ret e) s1 => Outcome.done (some e) s1
        | Outcome.done (Flow.next err) s1 => Outcome.done err s1
        | Outcome.panic s1 => Outcome.panic s1
        | Outcome.diverge => Outcome.diverge) := by
  have h1 : ∀ (recur : Value → List Tag → State → Outcome (Option Error)) (obj : Value)
      (err : Option Error) (s : State),
      injectMethod c recur object obj tags err s = Outcome.done err s := by
    intro recur obj err s
    simp only [injectMethod, hno]
  refine ⟨h1, ?_⟩
  intro fuel s fields hconf hobj hdeep
  rw [IntoObjectValue_configured c fuel object tags s fields hconf hobj hdeep]
  split <;> simp_all

/-- A witness for C15: the zero `Foo`, whose type has no method `Init`, with the registry entry
`bar` for its member. -/
theorem no_hook_is_no_op_witness :
    injectMethod { env := moreEnv } (IntoObjectValue { env := moreEnv } 2)
        (ValueOf (some fooPtr)) (Value.ref fooType 2 [] false false) [] none
        (moreState [("bar", bazInst)]) = Outcome.done none (moreState [("bar", bazInst)]) ∧
      IntoObjectValue { env := moreEnv } 3 (ValueOf (some fooPtr)) []
          (moreState [("bar", bazInst)]) =
        match fieldLoop { env := moreEnv } (IntoObjectValue { env := moreEnv } 2)
            (ValueOf (some fooPtr))
            (Indirect moreEnv (moreState [("bar", bazInst)]).heap (ValueOf (some fooPtr))) []
            (if ([] : List Tag).length ≠ 0 then [] else ([] : List Tag))
            [{ Name := "Bar", Typ := GoType.ptr bazType }] none
            (moreState [("bar", bazInst)]) with
        | Outcome.done (Flow.ret e) s1 => Outcome.done (some e) s1
        | Outcome.done (Flow.next err) s1 => Outcome.done err s1
        | Outcome.panic s1 => Outcome.panic s1
        | Outcome.diverge => Outcome.diverge :=
  ⟨(no_hook_is_no_op { env := moreEnv } (ValueOf (some fooPtr)) [] (by decide)).1
      (IntoObjectValue { env := moreEnv } 2) (Value.ref fooType 2 [] false false) none
      (moreState [("bar", bazInst)]),
   (no_hook_is_no_op { env := moreEnv } (ValueOf (some fooPtr)) [] (by decide)).2 2
      (moreState [("bar", bazInst)]) [{ Name := "Bar", Typ := GoType.ptr bazType }]
      (by decide) (by decide) (by decide)⟩

/-! ## The trace of a call -/

/-- A call of `IntoObjectValue` only adds events to the trace, none of them the invocation of
a function. -/
theorem preserved_no_invoke (c : Ctx) (t0 : List Event) :
    Preserved c (fun s => ∃ evs, s.trace = t0 ++ evs ∧ ∀ e ∈ evs, e.isInvoke = false) :=
  { tag := by
      intro s i object f tag hs _
      obtain ⟨evs, htr, hev⟩ := hs
      refine ⟨evs ++ [Event.tagInit i object f.Name, Event.tagDecode i object f.Name tag],
        by simp [htr, State.emit], ?_⟩
      intro e he
      rcases List.mem_append.1 he with h1 | h2
      · exact hev e h1
      · simp only [List.mem_cons, List.mem_singleton, List.not_mem_nil, or_false] at h2
        rcases h2 with h2 | h2 <;> subst h2 <;> rfl
    save := by
      intro s name inst hs
      obtain ⟨evs, htr, hev⟩ := hs
      unfold saveInstance
      cases hf : s.appFactory with
      | none => exact ⟨evs, htr, hev⟩
      | some r =>
        refine ⟨evs ++ [Event.store (LowerFirst name) inst
          (r.SetInstance (LowerFirst name) inst).2], by simp [htr, State.emit], ?_⟩
        intro e he
        rcases List.mem_append.1 he with h1 | h2
        · exact hev e h1
        · simp only [List.mem_singleton] at h2
          subst h2
          rfl
    assign := by
      intro _ s1 _ _ _ _ fieldObj inst s2 _ hs1 _ _ _ hv
      obtain ⟨evs, htr, hev⟩ := hs1
      obtain ⟨_, e, he, hst, _, _⟩ := Value.Set_frame c.env fieldObj inst s1 s2 hv
      refine ⟨evs ++ [e], by simp [he, htr], ?_⟩
      intro e1 he1
      rcases List.mem_append.1 he1 with h1 | h2
      · exact hev e1 h1
      · simp only [List.mem_singleton] at h2
        subst h2
        unfold Value.Set at hv
        split at hv
        · split at hv
          · split at hv
            · split at hv
              · simp only [Outcome.done.injEq, true_and] at hv
                subst hv
                simp only [State.emit, List.append_cancel_left_eq, List.cons.injEq,
                  and_true] at he
                subst he
                rfl
              · cases hv
            · cases hv
          · cases hv
        · cases hv
    alloc := by
      intro s t hs
      exact hs
    call := by
      intro s obj args hs
      obtain ⟨evs, htr, hev⟩ := hs
      refine ⟨evs ++ [Event.call obj args], by simp [htr, State.emit], ?_⟩
      intro e he
      rcases List.mem_append.1 he with h1 | h2
      · exact hev e h1
      · simp only [List.mem_singleton] at h2
        subst h2
        rfl }

/-- C17: for the function `func(s *Service) *Service { return s }` and a registry without an
entry for `Service`, `IntoFunc` creates a zero `Service` in a new cell, stores the pointer to
it under `service`, invokes the function with it and returns that same pointer, with no
error. -/
theorem identity_function_scenario :
    getInstanceByName (moreState []) "Service" = none ∧
      moreHeap.length = 13 ∧
      zeroVal moreEnv (moreEnv.length + 1) serviceType = Val.struct Fields.nil ∧
      IntoFunc { env := moreEnv, funcs := identityFuncs } 4 (some identityFunc) (moreState [])
        = Outcome.done (some (GoType.ptr serviceType, Val.ptr 13), none)
          { appFactory := some (configuredRegistry ++
              [("service", (GoType.ptr serviceType, Val.ptr 13))]),
            heap := moreHeap ++ [Val.struct Fields.nil],
            trace := [Event.store "service" (GoType.ptr serviceType, Val.ptr 13) true,
              Event.invoke (ValueOf (some identityFunc))
                [Value.imm (GoType.ptr serviceType) (Val.ptr 13) false false]] } ∧
      Registry.GetInstance
        (configuredRegistry ++ [("service", (GoType.ptr serviceType, Val.ptr 13))]) "service"
        = some (GoType.ptr serviceType, Val.ptr 13) := by
  refine ⟨by decide, by decide, by decide, by decide, by decide⟩

/-! ## C18: a parameter of a function that is not resolved -/

/-- The loop over the parameters of `IntoFunc` goes through a list of parameters part by
part. -/
theorem funcParamLoop_append (c : Ctx) (fuel : Nat) (rest : List GoType) :
    ∀ (pre : List GoType) (inputs0 : List Value) (err0 : Option Error) (s : State),
      funcParamLoop c fuel (pre ++ rest) inputs0 err0 s =
        match funcParamLoop c fuel pre inputs0 err0 s with
        | Outcome.done (Flow.next (inputs, err)) s1 => funcParamLoop c fuel rest inputs err s1
        | Outcome.done (Flow.ret e) s1 => Outcome.done (Flow.ret e) s1
        | Outcome.panic s1 => Outcome.panic s1
        | Outcome.diverge => Outcome.diverge := by
  intro pre
  induction pre with
  | nil =>
    intro inputs0 err0 s
    simp [funcParamLoop]
  | cons t pre ih =>
    intro inputs0 err0 s
    simp only [List.cons_append, funcParamLoop]
    cases hpm : parseMethodInput c t s with
    | mk vo s1 =>
      obtain ⟨val, flag⟩ := vo
      cases flag with
      | false => rfl
      | true =>
        simp only
        split
        · cases hr : IntoObjectValue c fuel val [] s1 with
          | done e s2 => exact ih _ _ _
          | panic s2 => rfl
          | diverge => rfl
        · exact ih _ _ _

/-- A parameter that `parseMethodInput` does not resolve leaves the state as it is. -/
theorem parseMethodInput_unresolved (c : Ctx) (t : GoType) (s : State)
    (h : (parseMethodInput c t s).1.2 = false) : parseMethodInput c t s = ((Value.zero, false), s) := by
  unfold parseMethodInput at h ⊢
  cases h1 : getInstanceByName s (IndirectType t).Name with
  | some inst => simp [h1] at h
  | none =>
    cases h2 : getInstanceByName s
        (DirName (IndirectType t).PkgPath ++ (IndirectType t).Name) with
    | some inst => simp [h1, h2] at h
    | none =>
      simp only [h1, h2] at h ⊢
      split
      · rfl
      · rename_i hk
        simp [hk] at h

/-- The loop over the parameters of `IntoFunc` keeps every property of the state that the
steps of `IntoObjectValue` keep. -/
theorem funcParamLoop_inv (c : Ctx) (Inv : State → Prop) (hp : Preserved c Inv) (fuel : Nat) :
    ∀ (ins : List GoType) (inputs : List Value) (err : Option Error) (s : State), Inv s →
      (funcParamLoop c fuel ins inputs err s).holds (fun _ s2 => Inv s2) Inv := by
  intro ins
  induction ins with
  | nil =>
    intro inputs err s hs
    exact hs
  | cons t rest ih =>
    intro inputs err s hs
    unfold funcParamLoop
    have hpm := parseMethodInput_inv c Inv hp.toSteps t s hs
    cases hres : parseMethodInput c t s with
    | mk vo s1 =>
      rw [hres] at hpm
      obtain ⟨val, flag⟩ := vo
      cases flag with
      | false => exact hpm
      | true =>
        simp only
        split
        · have := IntoObjectValue_inv c Inv hp fuel val [] s1 hpm
          cases hr : IntoObjectValue c fuel val [] s1 with
          | done e s2 =>
            rw [hr] at this
            exact ih _ _ s2 this.1
          | panic s2 =>
            rw [hr] at this
            exact this
          | diverge => trivial
        · exact ih _ _ s1 hpm

/-- C18, amended: let the loop of `IntoFunc` have gone through the parameters in front of the
parameter `t`, ending in the state `s1`, and let `t` not be resolved in `s1`.  `IntoFunc` then
returns no result and the error formatted with `t.Name`, the name of the declared type of the
parameter (empty for a type without a name), in the state `s1`: nothing is created or stored
for `t` or for a parameter behind it, and the events added to the trace contain no invocation
of a function. -/
theorem first_unresolved_parameter_fails (c : Ctx) (fuel : Nat) (object : Option Inst)
    (s s1 : State) (pre post : List GoType) (t : GoType) (inputs : List Value)
    (err : Option Error)
    (hfn : (ValueOf object).Kind c.env = Kind.Func)
    (hin : (ValueOf object).Type.In c.env = pre ++ t :: post)
    (hpre : funcParamLoop c fuel pre [] none s = Outcome.done (Flow.next (inputs, err)) s1)
    (hun : (parseMethodInput c t s1).1.2 = false) :
    IntoFunc c fuel object s = Outcome.done (none, some (Error.notInjected t.Name)) s1 ∧
      (parseMethodInput c t s1).2 = s1 ∧
      ∃ evs, s1.trace = s.trace ++ evs ∧ ∀ e ∈ evs, e.isInvoke = false := by
  have hpm := parseMethodInput_unresolved c t s1 hun
  refine ⟨?_, by rw [hpm], ?_⟩
  · unfold IntoFunc
    rw [if_pos hfn, hin, funcParamLoop_append, hpre]
    simp only [funcParamLoop, hpm]
  · have := funcParamLoop_inv c _ (preserved_no_invoke c s.trace) fuel pre [] none s
      ⟨[], by simp, by simp⟩
    rw [hpre] at this
    exact this

/-- A witness for C18, amended: the function `func(*Service, Dep, *Baz)` and a registry without an entry
for `Service`, `Dep` and `Baz`; the first parameter is created, the second is of interface
kind and is not resolved. -/
theorem first_unresolved_parameter_fails_witness :
    IntoFunc { env := moreEnv } 4
        (some (GoType.named "" "func(*Service, Dep, *Baz)", Val.func 1)) (moreState [])
      = Outcome.done (none, some (Error.notInjected "Dep"))
        { appFactory := some (configuredRegistry ++
            [("service", (GoType.ptr serviceType, Val.ptr 13))]),
          heap := moreHeap ++ [Val.struct Fields.nil],
          trace := [Event.store "service" (GoType.ptr serviceType, Val.ptr 13) true] } :=
  (first_unresolved_parameter_fails { env := moreEnv } 4
    (some (GoType.named "" "func(*Service, Dep, *Baz)", Val.func 1)) (moreState [])
    { appFactory := some (configuredRegistry ++
        [("service", (GoType.ptr serviceType, Val.ptr 13))]),
      heap := moreHeap ++ [Val.struct Fields.nil],
      trace := [Event.store "service" (GoType.ptr serviceType, Val.ptr 13) true] }
    [GoType.ptr serviceType] [GoType.ptr bazType] depType
    [Value.imm (GoType.ptr serviceType) (Val.ptr 13) false false] none
    (by decide) (by decide) (by decide) (by decide)).1

/-! ## C19: the flattening of a type -/

/-- The loop of `DeepFields` gives the loop of the reference definition without its anonymous
members, when the recursive calls do. -/
theorem deepFieldsLoop_of_spec (env : TypeEnv) (deep flat : GoType → Option (List StructField))
    (h : ∀ (v : StructField) (sub : List StructField), v.Anonymous = true →
      deep v.Typ = some sub →
      if (IndirectType v.Typ).Kind env = Kind.Struct then
        ∃ sub1, flat v.Typ = some sub1 ∧ sub = sub1.filter (fun f => !f.Anonymous)
      else sub = []) :
    ∀ (fields l : List StructField), deepFieldsLoop deep fields = some l →
      ∃ l1, flattenSpecLoop env flat fields = some l1 ∧
        l = l1.filter (fun f => !f.Anonymous) := by
  intro fields
  induction fields with
  | nil =>
    intro l hl
    simp only [deepFieldsLoop, Option.some.injEq] at hl
    exact ⟨[], rfl, by simp [← hl]⟩
  | cons v rest ih =>
    intro l hl
    unfold deepFieldsLoop at hl
    by_cases ha : v.Anonymous = true
    · simp only [ha, if_true] at hl
      cases hd : deep v.Typ with
      | none => simp [hd] at hl
      | some sub =>
        cases hr : deepFieldsLoop deep rest with
        | none => simp [hd, hr] at hl
        | some fields =>
          simp only [hd, hr, Option.some.injEq] at hl
          obtain ⟨l1, hl1, hf⟩ := ih fields hr
          have hv := h v sub ha hd
          by_cases hk : (IndirectType v.Typ).Kind env = Kind.Struct
          · rw [if_pos hk] at hv
            obtain ⟨sub1, hs1, hsub⟩ := hv
            refine ⟨sub1 ++ l1, by simp [flattenSpecLoop, ha, hk, hs1, hl1], ?_⟩
            rw [← hl, hsub, hf, List.filter_append]
          · rw [if_neg hk] at hv
            refine ⟨v :: l1, by simp [flattenSpecLoop, hk, hl1], ?_⟩
            rw [← hl, hv, hf]
            simp [ha]
    · simp only [ha] at hl
      cases hr : deepFieldsLoop deep rest with
      | none => simp [hr] at hl
      | some fields =>
        simp only [hr, Bool.false_eq_true, if_false, Option.some.injEq] at hl
        obtain ⟨l1, hl1, hf⟩ := ih fields hr
        refine ⟨v :: l1, by simp [flattenSpecLoop, ha, hl1], ?_⟩
        rw [← hl, hf]
        simp [ha]

/-- The loop of the reference definition, without its anonymous members, is what the loop of
`DeepFields` gives, when this holds of the recursive calls. -/
theorem spec_of_deepFieldsLoop (env : TypeEnv) (deep flat : GoType → Option (List StructField))
    (h : ∀ (v : StructField) (sub1 : List StructField), v.Anonymous = true →
      (IndirectType v.Typ).Kind env = Kind.Struct → flat v.Typ = some sub1 →
      deep v.Typ = some (sub1.filter (fun f => !f.Anonymous)))
    (h2 : ∀ (v : StructField), v.Anonymous = true →
      (IndirectType v.Typ).Kind env ≠ Kind.Struct → deep v.Typ = some []) :
    ∀ (fields l1 : List StructField), flattenSpecLoop env flat fields = some l1 →
      deepFieldsLoop deep fields = some (l1.filter (fun f => !f.Anonymous)) := by
  intro fields
  induction fields with
  | nil =>
    intro l1 hl
    simp only [flattenSpecLoop, Option.some.injEq] at hl
    simp [← hl, deepFieldsLoop]
  | cons v rest ih =>
    intro l1 hl
    unfold flattenSpecLoop at hl
    by_cases hc : v.Anonymous = true ∧ (IndirectType v.Typ).Kind env = Kind.Struct
    · rw [if_pos hc] at hl
      cases hd : flat v.Typ with
      | none => simp [hd] at hl
      | some sub1 =>
        cases hr : flattenSpecLoop env flat rest with
        | none => simp [hd, hr] at hl
        | some fields =>
          simp only [hd, hr, Option.some.injEq] at hl
          simp only [deepFieldsLoop, hc.1, if_true, h v sub1 hc.1 hc.2 hd, ih fields hr]
          rw [← hl, List.filter_append]
    · rw [if_neg hc] at hl
      cases hr : flattenSpecLoop env flat rest with
      | none => simp [hr] at hl
      | some fields =>
        simp only [hr, Option.some.injEq] at hl
        by_cases ha : v.Anonymous = true
        · have hk : (IndirectType v.Typ).Kind env ≠ Kind.Struct := fun hk => hc ⟨ha, hk⟩
          simp only [deepFieldsLoop, ha, if_true, h2 v ha hk, ih fields hr]
          rw [← hl]
          simp [ha]
        · simp only [deepFieldsLoop, ha, ih fields hr]
          rw [← hl]
          simp [ha]

/-- When `DeepFields` ends, the reference definition ends with the same fuel, and `DeepFields`
gives its result without the anonymous members. -/
theorem DeepFields_to_spec (env : TypeEnv) :
    ∀ (fuel : Nat) (t : GoType) (l : List StructField), DeepFields env fuel t = some l →
      ∃ l1, FlattenSpec env fuel t = some l1 ∧ l = l1.filter (fun f => !f.Anonymous) := by
  intro fuel
  induction fuel with
  | zero =>
    intro t l h
    simp [DeepFields] at h
  | succ n ih =>
    intro t l h
    unfold DeepFields at h
    by_cases hk : (IndirectType t).Kind env = Kind.Struct
    · rw [if_pos hk] at h
      have := deepFieldsLoop_of_spec env (DeepFields env n) (FlattenSpec env n) (by
        intro v sub _ hd
        split
        · exact ih v.Typ sub hd
        · rename_i hkv
          cases n with
          | zero => simp [DeepFields] at hd
          | succ m =>
            unfold DeepFields at hd
            rw [if_neg hkv] at hd
            exact (Option.some.inj hd).symm) _ l h
      simpa [FlattenSpec, hk] using this
    · rw [if_neg hk] at h
      exact ⟨[], by simp [FlattenSpec, hk], by simp [← Option.some.inj h]⟩

/-- When the reference definition ends, `DeepFields` ends with one more level of recursion and
gives its result without the anonymous members. -/
theorem spec_to_DeepFields (env : TypeEnv) :
    ∀ (fuel : Nat) (t : GoType) (l1 : List StructField), FlattenSpec env fuel t = some l1 →
      DeepFields env (fuel + 1) t = some (l1.filter (fun f => !f.Anonymous)) := by
  intro fuel
  induction fuel with
  | zero =>
    intro t l1 h
    simp [FlattenSpec] at h
  | succ n ih =>
    intro t l1 h
    unfold FlattenSpec at h
    by_cases hk : (IndirectType t).Kind env = Kind.Struct
    · rw [if_pos hk] at h
      have := spec_of_deepFieldsLoop env (DeepFields env (n + 1)) (FlattenSpec env n)
        (fun v sub1 _ _ hf => ih v.Typ sub1 hf)
        (fun v _ hkv => by simp [DeepFields, hkv]) _ l1 h
      rw [DeepFields, if_pos hk]
      exact this
    · rw [if_neg hk] at h
      rw [DeepFields, if_neg hk, ← Option.some.inj h]
      rfl

/-- C19, as stated, fails: `Ctl` declares the anonymous member `Dep` of interface kind, the
anonymous member `Foo` (a struct with the member `Bar`) and the member `Name`.  The reference
definition keeps `Dep`, which is anonymous and not composite, as a member; `DeepFields` drops
it. -/
theorem anonymous_interface_member_is_dropped :
    DeepFields moreEnv 3 (GoType.ptr (GoType.named "app" "Ctl"))
        = some [{ Name := "Bar", Typ := GoType.ptr bazType },
                { Name := "Name", Typ := GoType.basic Kind.String }] ∧
      FlattenSpec moreEnv 3 (GoType.ptr (GoType.named "app" "Ctl"))
        = some [{ Name := "Dep", Typ := depType, Anonymous := true },
                { Name := "Bar", Typ := GoType.ptr bazType },
                { Name := "Name", Typ := GoType.basic Kind.String }] ∧
      DeepFields moreEnv 3 (GoType.ptr (GoType.named "app" "Ctl"))
        ≠ FlattenSpec moreEnv 3 (GoType.ptr (GoType.named "app" "Ctl")) := by
  refine ⟨by decide, by decide, by decide⟩

/-- C19, amended: for every type, `DeepFields` gives the reference definition without its
anonymous members, that is, an anonymous member that is not composite contributes nothing
instead of itself.  Whenever `DeepFields` ends, the reference definition ends, and whenever
the reference definition ends, `DeepFields` ends with one more level of recursion. -/
theorem DeepFields_is_spec_without_anonymous (env : TypeEnv) (fuel : Nat) (t : GoType) :
    (∀ l, DeepFields env fuel t = some l →
      ∃ l1, FlattenSpec env fuel t = some l1 ∧ l = l1.filter (fun f => !f.Anonymous)) ∧
    (∀ l1, FlattenSpec env fuel t = some l1 →
      DeepFields env (fuel + 1) t = some (l1.filter (fun f => !f.Anonymous))) :=
  ⟨DeepFields_to_spec env fuel t, spec_to_DeepFields env fuel t⟩

/-- A witness for C19, amended: the type `*Ctl`. -/
theorem DeepFields_is_spec_without_anonymous_witness :
    (∃ l1, FlattenSpec moreEnv 3 (GoType.ptr (GoType.named "app" "Ctl")) = some l1 ∧
      [{ Name := "Bar", Typ := GoType.ptr bazType },
       { Name := "Name", Typ := GoType.basic Kind.String }]
        = l1.filter (fun f => !f.Anonymous)) ∧
    DeepFields moreEnv 4 (GoType.ptr (GoType.named "app" "Ctl"))
      = some (List.filter (fun f => !f.Anonymous)
          [{ Name := "Dep", Typ := depType, Anonymous := true },
           { Name := "Bar", Typ := GoType.ptr bazType },
           { Name := "Name", Typ := GoType.basic Kind.String }]) :=
  ⟨(DeepFields_is_spec_without_anonymous moreEnv 3 (GoType.ptr (GoType.named "app" "Ctl"))).1
      _ (by decide),
   (DeepFields_is_spec_without_anonymous moreEnv 3 (GoType.ptr (GoType.named "app" "Ctl"))).2
      _ (by decide)⟩

/-! ## C20: the embedded interface member -/

/-- The loop of `GetEmbeddedInterfaceFieldByType` is decided by the first anonymous member. -/
theorem embeddedInterfaceLoop_first (env : TypeEnv) (search : GoType → Option StructField) :
    ∀ (fields : List StructField),
      embeddedInterfaceLoop env search fields =
        match fields.find? (fun f => f.Anonymous) with
        | none => some StructField.zero
        | some f => if f.Typ.Kind env = Kind.Interface then some f else search f.Typ := by
  intro fields
  induction fields with
  | nil => rfl
  | cons v rest ih =>
    unfold embeddedInterfaceLoop
    by_cases ha : v.Anonymous = true
    · simp [ha, List.find?]
    · simp only [ha, Bool.false_eq_true, if_false, ih, List.find?]

/-- The first anonymous member of interface kind is the first anonymous member when that one
is of interface kind, and there is none when there is no anonymous member. -/
theorem find_anonymous_interface (env : TypeEnv) :
    ∀ (fields : List StructField),
      (∀ f, fields.find? (fun f => f.Anonymous) = some f → f.Typ.Kind env = Kind.Interface) →
      fields.find? (fun f => f.Anonymous && f.Typ.Kind env == Kind.Interface)
        = fields.find? (fun f => f.Anonymous) := by
  intro fields
  induction fields with
  | nil =>
    intro _
    rfl
  | cons v rest ih =>
    intro h
    by_cases ha : v.Anonymous = true
    · have hk := h v (by simp [List.find?, ha])
      simp [List.find?, ha, hk]
    · have hr := ih (fun f hf => h f (by simpa [List.find?, ha] using hf))
      simpa [List.find?, ha] using hr

/-- Only a struct type has members. -/
theorem kind_of_fields (env : TypeEnv) (t : GoType) (h : t.Fields env ≠ []) :
    t.Kind env = Kind.Struct := by
  cases t with
  | basic k => simp [GoType.Fields] at h
  | ptr e => simp [GoType.Fields] at h
  | slice e => simp [GoType.Fields] at h
  | definedPtr p n e => simp [GoType.Fields] at h
  | definedSlice p n e => simp [GoType.Fields] at h
  | named p n =>
    unfold GoType.Fields at h
    unfold GoType.Kind
    cases hd : env.decl p n with
    | none => simp [hd] at h
    | some d =>
      simp only [hd] at h ⊢
      by_cases hk : d.kind = Kind.Struct
      · simp [hk]
      · simp [hk] at h

/-- C20, as stated, fails: `Late` declares the anonymous member `Foo`, a struct without
anonymous members, and behind it the anonymous member `Dep` of interface kind.  The first
anonymous member of interface kind is `Dep`; `GetEmbeddedInterfaceField` searches `Foo` only
and returns the zero descriptor. -/
theorem later_interface_member_is_not_found :
    FindCapabilityFieldSpec moreEnv (some (GoType.ptr (GoType.named "app" "Late"), Val.nil))
        = { Name := "Dep", Typ := depType, Anonymous := true } ∧
      GetEmbeddedInterfaceField moreEnv 3
          (some (GoType.ptr (GoType.named "app" "Late"), Val.nil))
        = some StructField.zero ∧
      StructField.zero ≠ { Name := "Dep", Typ := depType, Anonymous := true } := by
  refine ⟨by decide, by decide, by decide⟩

/-- C20, amended: the result is decided by the first anonymous member of the struct type of the
object, stripped of pointer and slice wrappers.  When there is none, or when it is of
interface kind, `GetEmbeddedInterfaceField` returns what the reference definition gives: the
first anonymous member of interface kind, or the zero descriptor.  When it is of another kind,
the result is that of the search in the type of that member, and the members behind it are
not considered.  For a nil object the result is the zero descriptor. -/
theorem first_anonymous_member_decides (env : TypeEnv) (fuel : Nat) (inst : Inst) :
    GetEmbeddedInterfaceField env fuel none = some StructField.zero ∧
    ((∀ f, ((IndirectType inst.1).Fields env).find? (fun f => f.Anonymous) = some f →
        f.Typ.Kind env = Kind.Interface) →
      GetEmbeddedInterfaceField env (fuel + 1) (some inst)
        = some (FindCapabilityFieldSpec env (some inst))) ∧
    (∀ f, ((IndirectType inst.1).Fields env).find? (fun f => f.Anonymous) = some f →
      f.Typ.Kind env ≠ Kind.Interface →
      GetEmbeddedInterfaceField env (fuel + 1) (some inst)
        = GetEmbeddedInterfaceFieldByType env fuel f.Typ) := by
  refine ⟨rfl, ?_, ?_⟩
  · intro h
    simp only [GetEmbeddedInterfaceField, GetEmbeddedInterfaceFieldByType,
      FindCapabilityFieldSpec, find_anonymous_interface env _ h]
    by_cases hk : (IndirectType inst.1).Kind env = Kind.Struct
    · rw [if_pos hk, embeddedInterfaceLoop_first]
      cases hf : ((IndirectType inst.1).Fields env).find? (fun f => f.Anonymous) with
      | none => rfl
      | some f => simp [h f hf]
    · rw [if_neg hk]
      have hnil : (IndirectType inst.1).Fields env = [] := by
        by_contra hne
        exact hk (kind_of_fields env _ hne)
      simp [hnil]
  · intro f hf hk
    have hs : (IndirectType inst.1).Kind env = Kind.Struct := by
      apply kind_of_fields
      intro hnil
      rw [hnil] at hf
      cases hf
    simp only [GetEmbeddedInterfaceField, GetEmbeddedInterfaceFieldByType, if_pos hs,
      embeddedInterfaceLoop_first, hf, if_neg hk]

/-- A witness for C20, amended: `*Ctl`, whose first anonymous member `Dep` is of interface
kind, and `*Late`, whose first anonymous member `Foo` is a struct. -/
theorem first_anonymous_member_decides_witness :
    GetEmbeddedInterfaceField moreEnv 3 (some (GoType.ptr (GoType.named "app" "Ctl"), Val.nil))
        = some (FindCapabilityFieldSpec moreEnv
            (some (GoType.ptr (GoType.named "app" "Ctl"), Val.nil))) ∧
      GetEmbeddedInterfaceField moreEnv 3
          (some (GoType.ptr (GoType.named "app" "Late"), Val.nil))
        = GetEmbeddedInterfaceFieldByType moreEnv 2 fooType :=
  ⟨(first_anonymous_member_decides moreEnv 2
      (GoType.ptr (GoType.named "app" "Ctl"), Val.nil)).2.1
      (by
        intro f hf
        have h1 : f = { Name := "Dep", Typ := depType, Anonymous := true } :=
          (Option.some.inj hf).symm
        rw [h1]
        decide),
   (first_anonymous_member_decides moreEnv 2
      (GoType.ptr (GoType.named "app" "Late"), Val.nil)).2.2
      { Name := "Foo", Typ := fooType, Anonymous := true } (by decide) (by decide)⟩

/-! ## C21: the keyword of a resolver -/

/-- The text `Tag` does not begin where a text without it is followed by `Tag`. -/
theorem isPrefixOf_part (c : Char) (cs rest : List Char)
    (hfree : ¬ ['T', 'a', 'g'] <:+: c :: cs) :
    List.isPrefixOf ['T', 'a', 'g'] (c :: (cs ++ (['T', 'a', 'g'] ++ rest))) = false := by
  cases hp : List.isPrefixOf ['T', 'a', 'g'] (c :: (cs ++ (['T', 'a', 'g'] ++ rest))) with
  | false => rfl
  | true =>
    exfalso
    match cs, hfree, hp with
    | [], _, hp => simp [List.isPrefixOf] at hp
    | [x], _, hp => simp [List.isPrefixOf] at hp
    | x :: y :: more, hfree, hp =>
      simp only [List.cons_append, List.isPrefixOf, Bool.and_eq_true, beq_iff_eq] at hp
      obtain ⟨h1, h2, h3, _⟩ := hp
      subst h1 h2 h3
      exact hfree ⟨[], more, rfl⟩

/-- Removing the occurrences of `Tag` from a text without one, followed by `Tag` and more text,
gives the text followed by what the removal leaves of the rest. -/
theorem removeAllLoop_part (rest : List Char) :
    ∀ (l : List Char), ¬ ['T', 'a', 'g'] <:+: l →
      removeAllLoop ['T', 'a', 'g'] 0 (l ++ (['T', 'a', 'g'] ++ rest))
        = l ++ removeAllLoop ['T', 'a', 'g'] 0 rest := by
  intro l
  induction l with
  | nil =>
    intro _
    simp [removeAllLoop, List.isPrefixOf]
  | cons c cs ih =>
    intro hfree
    have hcs : ¬ ['T', 'a', 'g'] <:+: cs := fun h => hfree (List.IsInfix.trans h
      (List.suffix_cons c cs).isInfix)
    have hstep : ∀ X, removeAllLoop ['T', 'a', 'g'] 0 (c :: X)
        = if List.isPrefixOf ['T', 'a', 'g'] (c :: X) then
            removeAllLoop ['T', 'a', 'g'] (['T', 'a', 'g'].length - 1) X
          else c :: removeAllLoop ['T', 'a', 'g'] 0 X := fun X => rfl
    rw [List.cons_append, hstep, isPrefixOf_part c cs rest hfree, ih hcs]
    simp

/-- Removing the occurrences of `Tag` from a text without one gives the text. -/
theorem removeAllLoop_free :
    ∀ (l : List Char), ¬ ['T', 'a', 'g'] <:+: l → removeAllLoop ['T', 'a', 'g'] 0 l = l := by
  intro l
  induction l with
  | nil =>
    intro _
    rfl
  | cons c cs ih =>
    intro hfree
    have hcs : ¬ ['T', 'a', 'g'] <:+: cs := fun h => hfree (List.IsInfix.trans h
      (List.suffix_cons c cs).isInfix)
    have hpre : List.isPrefixOf ['T', 'a', 'g'] (c :: cs) = false := by
      cases hp : List.isPrefixOf ['T', 'a', 'g'] (c :: cs) with
      | false => rfl
      | true =>
        exfalso
        exact hfree (List.isPrefixOf_iff_prefix.1 hp).isInfix
    simp only [removeAllLoop, hpre, Bool.false_eq_true, if_false, ih hcs]

/-- Removing the occurrences of `Tag` from the texts `parts`, each without one and each
followed by `Tag`, and a last text without one, gives the texts one after the other. -/
theorem removeAllLoop_parts (last : List Char) (hlast : ¬ ['T', 'a', 'g'] <:+: last) :
    ∀ (parts : List (List Char)), (∀ A ∈ parts, ¬ ['T', 'a', 'g'] <:+: A) →
      removeAllLoop ['T', 'a', 'g'] 0
          (parts.flatMap (fun A => A ++ ['T', 'a', 'g']) ++ last)
        = parts.flatten ++ last := by
  intro parts
  induction parts with
  | nil =>
    intro _
    simpa using removeAllLoop_free last hlast
  | cons A rest ih =>
    intro h
    have hA := h A (List.mem_cons_self _ _)
    have hrest := ih (fun B hB => h B (List.mem_cons_of_mem _ hB))
    simp only [List.flatMap_cons, List.append_assoc, List.flatten_cons]
    rw [removeAllLoop_part _ A hA, hrest]

/-- C21, as stated, fails.  For the type name `TagValueTag` the keyword is `value`: the text
`Tag` in front is removed as well, while stripping the suffix from the end and
lower-camel-casing the remainder gives `tagValue`. -/
theorem keyword_removes_every_occurrence :
    GetName [] [] (some (GoType.named "app" "TagValueTag", Val.struct Fields.nil))
        = some "TagValueTag" ∧
      ParseObjectName [] [] (some (GoType.named "app" "TagValueTag", Val.struct Fields.nil)) "Tag"
        = "value" ∧
      TagKeywordSpec "TagValueTag" "Tag" = "tagValue" := by
  refine ⟨by decide, by decide, by decide⟩

/-- C21, amended: let the type name `N` of a resolver consist of the texts `parts`, each
followed by `Tag`, and of a last text, none of these texts containing `Tag`.  The keyword is the lower-camel-case of these texts one after the other: every
occurrence of `Tag` is removed, the one at the end of `N` and those elsewhere in `N`.  So for
`N` a text `P` without `Tag` followed by `Tag`, the keyword is the lower-camel-case of `P`, the
name with the suffix stripped from its end and the remainder lower-camel-cased. -/
theorem keyword_of_type_name (env : TypeEnv) (h : Heap) (resolver : Option Inst) (N : String)
    (hname : GetName env h resolver = some N) :
    (∀ (parts : List (List Char)) (last : List Char),
      N.toList = parts.flatMap (fun A => A ++ "Tag".toList) ++ last →
      (∀ A ∈ parts, ¬ "Tag".toList <:+: A) → ¬ "Tag".toList <:+: last →
      ParseObjectName env h resolver "Tag" = ToLowerCamel (String.mk (parts.flatten ++ last))) ∧
    (∀ (P : String), N = P ++ "Tag" → ¬ "Tag".toList <:+: P.toList →
      ParseObjectName env h resolver "Tag" = ToLowerCamel P ∧
      ParseObjectName env h resolver "Tag" = TagKeywordSpec N "Tag") := by
  have h0 : "Tag".toList = ['T', 'a', 'g'] := rfl
  have hparts : ∀ (parts : List (List Char)) (last : List Char),
      N.toList = parts.flatMap (fun A => A ++ "Tag".toList) ++ last →
      (∀ A ∈ parts, ¬ "Tag".toList <:+: A) → ¬ "Tag".toList <:+: last →
      ParseObjectName env h resolver "Tag"
        = ToLowerCamel (String.mk (parts.flatten ++ last)) := by
    intro parts last hN hfree hlast
    rw [h0] at hN hfree hlast
    have hr : stringsRemoveAll N "Tag" = String.mk (parts.flatten ++ last) := by
      unfold stringsRemoveAll
      rw [h0, hN, removeAllLoop_parts last hlast parts hfree]
      simp
    simp only [ParseObjectName, hname, hr, LowerFirst]
  refine ⟨hparts, ?_⟩
  intro P hP hfree
  have hl : N.toList = [P.toList].flatMap (fun A => A ++ "Tag".toList) ++ [] := by
    rw [hP]
    show (P ++ "Tag").data = _
    rw [String.data_append]
    simp
  have h1 := hparts [P.toList] [] hl
    (by intro A hA; simp only [List.mem_singleton] at hA; subst hA; exact hfree)
    (by rw [h0]; intro hi; have := hi.length_le; simp at this)
  have h2 : String.mk ([P.toList].flatten ++ []) = P := by simp
  rw [h2] at h1
  refine ⟨h1, ?_⟩
  rw [h1]
  unfold TagKeywordSpec stripSuffixSpec
  have hs : "Tag".toList.isSuffixOf N.toList = true := by
    rw [List.isSuffixOf_iff_suffix, hP]
    show "Tag".data <:+ (P ++ "Tag").data
    rw [String.data_append]
    exact List.suffix_append _ _
  have ht : N.toList.take (N.toList.length - "Tag".toList.length) = P.toList := by
    rw [hP]
    show (P ++ "Tag").data.take ((P ++ "Tag").data.length - "Tag".data.length) = P.data
    rw [String.data_append]
    simp
  rw [if_pos hs, ht]
  rfl

/-- A witness for C21, amended: the resolver types `TagValueTag` and `ValueTag`. -/
theorem keyword_of_type_name_witness :
    ParseObjectName [] [] (some (GoType.named "app" "TagValueTag", Val.struct Fields.nil))
        "Tag" = ToLowerCamel (String.mk ([[], "Value".toList].flatten ++ [])) ∧
      (ParseObjectName [] [] (some (GoType.named "app" "ValueTag", Val.struct Fields.nil)) "Tag"
          = ToLowerCamel "Value" ∧
        ParseObjectName [] [] (some (GoType.named "app" "ValueTag", Val.struct Fields.nil)) "Tag"
          = TagKeywordSpec "ValueTag" "Tag") :=
  ⟨(keyword_of_type_name [] [] (some (GoType.named "app" "TagValueTag", Val.struct Fields.nil))
      "TagValueTag" (by decide)).1 [[], "Value".toList] [] (by decide)
      (by intro A hA; fin_cases hA <;> decide) (by decide),
   (keyword_of_type_name [] [] (some (GoType.named "app" "ValueTag", Val.struct Fields.nil))
      "ValueTag" (by decide)).2 "Value" (by decide) (by decide)⟩

/-! ## C22: the recursion into a member -/

/-- C22, as stated, fails: `Wrap` has the unexported member `inner`, a `Baz` by value.  The
member is a struct of another type than `Wrap`, but it cannot be set, and the body of the loop
ends without the recursive call, whatever this call would do. -/
theorem unsettable_struct_member_is_not_entered :
    (reflectIndirect lastEnv lastHeap (Value.ref bazType 13 ["inner"] true false)).Kind lastEnv
        = Kind.Struct ∧
      (reflectIndirect lastEnv lastHeap (Value.ref bazType 13 ["inner"] true false)).Type
        ≠ GoType.named "app" "Wrap" ∧
      (Value.ref bazType 13 ["inner"] true false).CanSet = false ∧
      ∀ (recur : Value → List Tag → State → Outcome (Option Error)),
        injectField { env := lastEnv } recur (ValueOf (some wrapPtr))
          (Value.ref (GoType.named "app" "Wrap") 13 [] false false) [] []
          { Name := "inner", PkgPath := "app", Typ := bazType } none (lastState [])
        = Outcome.done (Flow.next none) (lastState []) := by
  refine ⟨by decide, by decide, by decide, ?_⟩
  intro recur
  have hstep : injectStep { env := lastEnv } (ValueOf (some wrapPtr))
      (Value.ref (GoType.named "app" "Wrap") 13 [] false false) []
      { Name := "inner", PkgPath := "app", Typ := bazType } (lastState [])
      = Outcome.done (Flow.next (Value.ref bazType 13 ["inner"] true false)) (lastState []) := by
    decide
  simp only [injectField, hstep, nestedField, Value.CanSet]
  simp

/-- C22, amended: for every member of the flattened list, whether or not it was resolved, the
body of the loop makes the recursive call on the member, with the resolvers given to the call,
exactly when the member is valid and can be set and its current value, one pointer followed,
is a struct whose type differs from the type of the parent object.  When it makes the call
the body ends as the call does; otherwise it ends with the error unchanged, whatever the
recursive call would do. -/
theorem member_is_entered_iff_settable_struct (c : Ctx)
    (recur : Value → List Tag → State → Outcome (Option Error)) (object obj : Value)
    (tags targetTags : List Tag) (f : StructField) (err : Option Error) (s s2 : State)
    (fieldObj : Value)
    (hstep : injectStep c object obj targetTags f s = Outcome.done (Flow.next fieldObj) s2) :
    (((reflectIndirect c.env s2.heap fieldObj).Kind c.env = Kind.Struct ∧
        fieldObj.IsValid = true ∧ fieldObj.CanSet = true ∧
        (reflectIndirect c.env s2.heap fieldObj).Type ≠ obj.Type) →
      injectField c recur object obj tags targetTags f err s =
        match recur fieldObj tags s2 with
        | Outcome.done err1 s3 => Outcome.done (Flow.next err1) s3
        | Outcome.panic s3 => Outcome.panic s3
        | Outcome.diverge => Outcome.diverge) ∧
    (¬ ((reflectIndirect c.env s2.heap fieldObj).Kind c.env = Kind.Struct ∧
        fieldObj.IsValid = true ∧ fieldObj.CanSet = true ∧
        (reflectIndirect c.env s2.heap fieldObj).Type ≠ obj.Type) →
      injectField c recur object obj tags targetTags f err s
        = Outcome.done (Flow.next err) s2) := by
  constructor
  · intro h
    simp only [injectField, hstep, nestedField, if_pos h]
  · intro h
    simp only [injectField, hstep, nestedField, if_neg h]

/-- A witness for C22, amended: the exported member `Open` of `Wrap`, a `Baz` by value. -/
theorem member_is_entered_iff_settable_struct_witness :
    injectField { env := lastEnv } (IntoObjectValue { env := lastEnv } 3)
        (ValueOf (some wrapPtr)) (Value.ref (GoType.named "app" "Wrap") 13 [] false false) [] []
        { Name := "Open", Typ := bazType } none (lastState []) =
      match IntoObjectValue { env := lastEnv } 3 (Value.ref bazType 13 ["Open"] false false) []
          (lastState []) with
      | Outcome.done err1 s3 => Outcome.done (Flow.next err1) s3
      | Outcome.panic s3 => Outcome.panic s3
      | Outcome.diverge => Outcome.diverge :=
  (member_is_entered_iff_settable_struct { env := lastEnv }
    (IntoObjectValue { env := lastEnv } 3) (ValueOf (some wrapPtr))
    (Value.ref (GoType.named "app" "Wrap") 13 [] false false) [] []
    { Name := "Open", Typ := bazType } none (lastState []) (lastState [])
    (Value.ref bazType 13 ["Open"] false false) (by decide)).1
    ⟨by decide, by decide, by decide, by decide⟩

/-! ## C24: the error of `IntoFunc` -/

/-- A type that is not of pointer or slice kind is not changed by `IndirectType`. -/
theorem IndirectType_of_kind (env : TypeEnv) (T : GoType) (hp : T.Kind env ≠ Kind.Ptr)
    (hs : T.Kind env ≠ Kind.Slice) : IndirectType T = T := by
  cases T with
  | basic k => rfl
  | named p n => rfl
  | ptr e => exact absurd rfl hp
  | slice e => exact absurd rfl hs
  | definedPtr p n e => exact absurd rfl hp
  | definedSlice p n e => exact absurd rfl hs

/-- C25, amended: let the parameter be declared as `*T` for a type `T` whose kind is neither
interface nor slice nor pointer, with no registry entry under the name of `T` nor under its
qualified name.  The argument that `parseMethodInput` creates has exactly the type `*T`, it
is the pointer to a new cell that holds the zero value of `T`, and it is assignable to the
parameter: the check of the argument types at the invocation accepts it. -/
theorem created_argument_has_parameter_type (c : Ctx) (T : GoType) (s : State)
    (hp : T.Kind c.env ≠ Kind.Ptr) (hs : T.Kind c.env ≠ Kind.Slice)
    (hk : T.Kind c.env ≠ Kind.Interface)
    (h1 : getInstanceByName s T.Name = none)
    (h2 : getInstanceByName s (DirName T.PkgPath ++ T.Name) = none) :
    (parseMethodInput c (GoType.ptr T) s).1
        = (Value.imm (GoType.ptr T) (Val.ptr s.heap.length) false false, true) ∧
      (parseMethodInput c (GoType.ptr T) s).2.heap
        = s.heap ++ [zeroVal c.env (c.env.length + 1) T] ∧
      (parseMethodInput c (GoType.ptr T) s).2.heap[s.heap.length]?
        = some (zeroVal c.env (c.env.length + 1) T) ∧
      assignable c.env (parseMethodInput c (GoType.ptr T) s).1.1.Type (GoType.ptr T) = true := by
  have hit : IndirectType (GoType.ptr T) = T := by
    simpa [IndirectType] using IndirectType_of_kind c.env T hp hs
  have hpm : parseMethodInput c (GoType.ptr T) s
      = ((ValueOf (some (reflectNew c.env T s).1), true),
         (saveInstance T.Name (reflectNew c.env T s).1 (reflectNew c.env T s).2).2) := by
    unfold parseMethodInput
    simp only [hit, h1, h2]
    rw [if_neg]
    rintro (h | h)
    · exact hk h
    · exact hs h
  have hheap : (parseMethodInput c (GoType.ptr T) s).2.heap
      = s.heap ++ [zeroVal c.env (c.env.length + 1) T] := by
    rw [hpm, saveInstance_heap]
    rfl
  refine ⟨by rw [hpm]; rfl, hheap, ?_, ?_⟩
  · rw [hheap]
    simp
  · rw [hpm]
    simp [reflectNew, ValueOf, Value.Type, assignable]

/-- A witness for C25, amended: the parameter `*Service` in a registry without an entry for
`Service`. -/
theorem created_argument_has_parameter_type_witness :
    (parseMethodInput { env := moreEnv } (GoType.ptr (GoType.named "app" "Service"))
        (moreState [])).1
        = (Value.imm (GoType.ptr (GoType.named "app" "Service"))
            (Val.ptr (moreState []).heap.length) false false, true) ∧
      assignable moreEnv
        (parseMethodInput { env := moreEnv } (GoType.ptr (GoType.named "app" "Service"))
          (moreState [])).1.1.Type
        (GoType.ptr (GoType.named "app" "Service")) = true :=
  ⟨(created_argument_has_parameter_type { env := moreEnv } (GoType.named "app" "Service")
      (moreState []) (by decide) (by decide) (by decide) (by decide) (by decide)).1,
   (created_argument_has_parameter_type { env := moreEnv } (GoType.named "app" "Service")
      (moreState []) (by decide) (by decide) (by decide) (by decide) (by decide)).2.2.2⟩

/-! ## C26: registration -/

/-- What `appendParams` does, by the shape of the parameter list. -/
theorem appendParams_cases (env : TypeEnv) (container : List (List (Option Inst)))
    (params : List (Option Inst)) :
    ∃ r err, appendParams env container params = some (r, err) ∧
      (err = none ↔ ∃ inst, registeredInstanceSpec env params = some inst ∧
        (inst.1.Kind env = Kind.Func ∨ inst.1.Kind env = Kind.Ptr)) ∧
      (err = none → ∃ item, r = container ++ [item]) ∧
      (err ≠ none → err = some AppError.ErrInvalidObjectType ∧ r = container) := by
  have hfail : ∀ inst : Option Inst,
      (¬ ∃ i, inst = some i ∧ (i.1.Kind env = Kind.Func ∨ i.1.Kind env = Kind.Ptr)) →
      ∀ two : Bool, (match inst with
        | some inst =>
          if inst.1.Kind env = Kind.Func ∨ inst.1.Kind env = Kind.Ptr then
            some (container ++
              [if two then [(params[0]?).getD none, (params[1]?).getD none]
               else [(params[0]?).getD none, none]], (none : Option AppError))
          else some (container, some AppError.ErrInvalidObjectType)
        | none => some (container, some AppError.ErrInvalidObjectType))
        = some (container, some AppError.ErrInvalidObjectType) := by
    intro inst h two
    cases inst with
    | none => rfl
    | some i =>
      simp only
      rw [if_neg]
      exact fun hk => h ⟨i, rfl, hk⟩
  -- the two ways in which the call ends
  have fails : ∀ (inst : Option Inst), registeredInstanceSpec env params = inst →
      (¬ ∃ i, inst = some i ∧ (i.1.Kind env = Kind.Func ∨ i.1.Kind env = Kind.Ptr)) →
      appendParams env container params
        = some (container, some AppError.ErrInvalidObjectType) →
      ∃ r err, appendParams env container params = some (r, err) ∧
        (err = none ↔ ∃ inst, registeredInstanceSpec env params = some inst ∧
          (inst.1.Kind env = Kind.Func ∨ inst.1.Kind env = Kind.Ptr)) ∧
        (err = none → ∃ item, r = container ++ [item]) ∧
        (err ≠ none → err = some AppError.ErrInvalidObjectType ∧ r = container) := by
    intro inst hspec hno happ
    refine ⟨container, some AppError.ErrInvalidObjectType, happ, ?_, ?_, ?_⟩
    · constructor
      · intro h
        cases h
      · rintro ⟨i, hi, hk⟩
        exact absurd ⟨i, by rw [← hspec, hi], hk⟩ hno
    · intro h
      cases h
    · intro _
      exact ⟨rfl, rfl⟩
  have succeeds : ∀ (i : Inst) (item : List (Option Inst)),
      registeredInstanceSpec env params = some i →
      (i.1.Kind env = Kind.Func ∨ i.1.Kind env = Kind.Ptr) →
      appendParams env container params = some (container ++ [item], none) →
      ∃ r err, appendParams env container params = some (r, err) ∧
        (err = none ↔ ∃ inst, registeredInstanceSpec env params = some inst ∧
          (inst.1.Kind env = Kind.Func ∨ inst.1.Kind env = Kind.Ptr)) ∧
        (err = none → ∃ item, r = container ++ [item]) ∧
        (err ≠ none → err = some AppError.ErrInvalidObjectType ∧ r = container) := by
    intro i item hspec hk happ
    refine ⟨container ++ [item], none, happ, ?_, ?_, ?_⟩
    · exact ⟨fun _ => ⟨i, hspec, hk⟩, fun _ => rfl⟩
    · intro _
      exact ⟨item, rfl⟩
    · intro h
      exact absurd rfl h
  match params with
  | [] =>
    exact fails none rfl (by rintro ⟨i, hi, _⟩; cases hi) (by simp [appendParams])
  | none :: rest =>
    refine fails none ?_ (by rintro ⟨i, hi, _⟩; cases hi) (by simp [appendParams])
    cases rest with
    | nil => rfl
    | cons x xs =>
      cases xs with
      | nil => rfl
      | cons y ys => rfl
  | [some first] =>
    by_cases hk : first.1.Kind env = Kind.Func ∨ first.1.Kind env = Kind.Ptr
    · exact succeeds first [some first, none] rfl hk
        (by simp [appendParams, hasTwoParams, hk])
    · refine fails (some first) rfl (by rintro ⟨i, hi, hki⟩; cases hi; exact hk hki) ?_
      simp [appendParams, hasTwoParams, hk]
  | [some first, second] =>
    by_cases hs : first.1.Kind env = Kind.String
    · by_cases hk : ∃ i, second = some i ∧ (i.1.Kind env = Kind.Func ∨ i.1.Kind env = Kind.Ptr)
      · obtain ⟨i, hi, hki⟩ := hk
        subst hi
        exact succeeds i [some first, some i] (by simp [registeredInstanceSpec, hs]) hki
          (by simp [appendParams, hasTwoParams, hs, hki])
      · refine fails second (by simp [registeredInstanceSpec, hs]) hk ?_
        simp only [appendParams, hasTwoParams, List.length_cons, List.length_nil,
          OfNat.ofNat_ne_zero, List.getElem?_cons_zero, Option.some.injEq, reduceCtorEq,
          or_self, if_false, if_true, hs, beq_self_eq_true, List.getElem?_cons_succ,
          Option.getD_some]
        exact hfail second hk true
    · by_cases hk : first.1.Kind env = Kind.Func ∨ first.1.Kind env = Kind.Ptr
      · exact succeeds first [some first, none] (by simp [registeredInstanceSpec, hs]) hk
          (by simp [appendParams, hasTwoParams, hs, hk])
      · refine fails (some first) (by simp [registeredInstanceSpec, hs])
          (by rintro ⟨i, hi, hki⟩; cases hi; exact hk hki) ?_
        simp [appendParams, hasTwoParams, hs, hk]
  | some first :: x :: y :: rest =>
    by_cases hk : first.1.Kind env = Kind.Func ∨ first.1.Kind env = Kind.Ptr
    · exact succeeds first [some first, none] rfl hk
        (by simp [appendParams, hasTwoParams, hk])
    · refine fails (some first) rfl (by rintro ⟨i, hi, hki⟩; cases hi; exact hk hki) ?_
      simp [appendParams, hasTwoParams, hk]

/-- C26: `appendParams` never panics, and it returns no error exactly when the registered
instance (the second argument when exactly two arguments are given and the first is a string,
otherwise the first argument) is not nil and of func or pointer kind.  It then returns the
container with one item appended at its end; otherwise it returns `ErrInvalidObjectType` and
the container as it was.  `AutoConfiguration` does this to `configContainer` and `Component`
to `componentContainer`, and each leaves the other container as it is. -/
theorem registration_succeeds_iff (env : TypeEnv) (container : List (List (Option Inst)))
    (params : List (Option Inst)) (a : Containers) :
    (∃ r err, appendParams env container params = some (r, err) ∧
      (err = none ↔ ∃ inst, registeredInstanceSpec env params = some inst ∧
        (inst.1.Kind env = Kind.Func ∨ inst.1.Kind env = Kind.Ptr)) ∧
      (err = none → ∃ item, r = container ++ [item]) ∧
      (err ≠ none → err = some AppError.ErrInvalidObjectType ∧ r = container)) ∧
    (∃ a2 err, AutoConfiguration env params a = some (err, a2) ∧
      (err = none ↔ ∃ inst, registeredInstanceSpec env params = some inst ∧
        (inst.1.Kind env = Kind.Func ∨ inst.1.Kind env = Kind.Ptr)) ∧
      (err = none → ∃ item, a2.configContainer = a.configContainer ++ [item]) ∧
      (err ≠ none → err = some AppError.ErrInvalidObjectType ∧ a2 = a) ∧
      a2.componentContainer = a.componentContainer) ∧
    (∃ a2 err, Component env params a = some (err, a2) ∧
      (err = none ↔ ∃ inst, registeredInstanceSpec env params = some inst ∧
        (inst.1.Kind env = Kind.Func ∨ inst.1.Kind env = Kind.Ptr)) ∧
      (err = none → ∃ item, a2.componentContainer = a.componentContainer ++ [item]) ∧
      (err ≠ none → err = some AppError.ErrInvalidObjectType ∧ a2 = a) ∧
      a2.configContainer = a.configContainer) := by
  refine ⟨appendParams_cases env container params, ?_, ?_⟩
  · obtain ⟨r, err, happ, hiff, hok, hfail⟩ := appendParams_cases env a.configContainer params
    refine ⟨{ a with configContainer := r }, err, by simp [AutoConfiguration, happ], hiff, hok,
      ?_, rfl⟩
    intro he
    obtain ⟨h1, h2⟩ := hfail he
    exact ⟨h1, by rw [h2]⟩
  · obtain ⟨r, err, happ, hiff, hok, hfail⟩ :=
      appendParams_cases env a.componentContainer params
    refine ⟨{ a with componentContainer := r }, err, by simp [Component, happ], hiff, hok,
      ?_, rfl⟩
    intro he
    obtain ⟨h1, h2⟩ := hfail he
    exact ⟨h1, by rw [h2]⟩

/-- A witness for C26: the registration of `&Baz` under the name `a`. -/
theorem registration_succeeds_iff_witness :
    ∃ a2 err, AutoConfiguration lastEnv
        [some (GoType.basic Kind.String, Val.str "a"), some bazInst] { } = some (err, a2) ∧
      (err = none ↔ ∃ inst, registeredInstanceSpec lastEnv
          [some (GoType.basic Kind.String, Val.str "a"), some bazInst] = some inst ∧
        (inst.1.Kind lastEnv = Kind.Func ∨ inst.1.Kind lastEnv = Kind.Ptr)) ∧
      (err = none → ∃ item, a2.configContainer = ({ } : Containers).configContainer ++ [item]) ∧
      (err ≠ none → err = some AppError.ErrInvalidObjectType ∧ a2 = { }) ∧
      a2.componentContainer = ({ } : Containers).componentContainer :=
  (registration_succeeds_iff lastEnv []
    [some (GoType.basic Kind.String, Val.str "a"), some bazInst] { }).2.1

/-! ## C23: termination -/

/-- The declaration that a name refers to is one of the declarations, and has that name. -/
theorem decl_mem (env : TypeEnv) (p n : String) (d : TypeDecl) (h : env.decl p n = some d) :
    d ∈ env ∧ d.PkgPath = p ∧ d.Name = n := by
  unfold TypeEnv.decl at h
  have h1 := List.mem_of_find?_eq_some h
  have h2 := List.find?_some h
  simp only [Bool.and_eq_true, beq_iff_eq] at h2
  exact ⟨h1, h2.1, h2.2⟩

/-- A type with members is a declared type whose declaration is that of a struct. -/
theorem fields_decl (env : TypeEnv) (t : GoType) (f : StructField) (h : f ∈ t.Fields env) :
    ∃ d, d ∈ env ∧ d.kind = Kind.Struct ∧ t = GoType.named d.PkgPath d.Name ∧
      t.Fields env = d.Fields := by
  cases t with
  | basic k => simp [GoType.Fields] at h
  | ptr e => simp [GoType.Fields] at h
  | slice e => simp [GoType.Fields] at h
  | definedPtr p n e => simp [GoType.Fields] at h
  | definedSlice p n e => simp [GoType.Fields] at h
  | named p n =>
    simp only [GoType.Fields] at h
    cases hd : env.decl p n with
    | none => simp [hd] at h
    | some d =>
      simp only [hd] at h
      obtain ⟨hm, hp, hn⟩ := decl_mem env p n d hd
      by_cases hk : d.kind = Kind.Struct
      · subst hp hn
        exact ⟨d, hm, hk, rfl, by simp [GoType.Fields, hd, hk]⟩
      · simp [hk] at h

/-- A type of struct kind is not changed by `IndirectType`. -/
theorem IndirectType_struct (env : TypeEnv) (t : GoType) (h : t.Kind env = Kind.Struct) :
    IndirectType t = t := by
  cases t with
  | basic k => rfl
  | named p n => rfl
  | ptr e => simp [GoType.Kind] at h
  | slice e => simp [GoType.Kind] at h
  | definedPtr p n e => simp [GoType.Kind] at h
  | definedSlice p n e => simp [GoType.Kind] at h

theorem IndirectType_idem : ∀ (t : GoType), IndirectType (IndirectType t) = IndirectType t
  | .basic _ => rfl
  | .named _ _ => rfl
  | .ptr e => by simpa [IndirectType] using IndirectType_idem e
  | .slice e => by simpa [IndirectType] using IndirectType_idem e
  | .definedPtr _ _ e => by simpa [IndirectType] using IndirectType_idem e
  | .definedSlice _ _ e => by simpa [IndirectType] using IndirectType_idem e

/-- The struct type of `T` or `*T` is what `IndirectType` gives. -/
theorem structOf_indirect (env : TypeEnv) (t u : GoType) (h : structOf env t = some u) :
    u.Kind env = Kind.Struct ∧ IndirectType t = u := by
  cases t with
  | ptr e =>
    simp only [structOf] at h
    split at h
    · rename_i hk
      simp only [Option.some.injEq] at h
      subst h
      exact ⟨hk, by simpa [IndirectType] using IndirectType_struct env e hk⟩
    · cases h
  | definedPtr p n e =>
    simp only [structOf] at h
    split at h
    · rename_i hk
      simp only [Option.some.injEq] at h
      subst h
      exact ⟨hk, by simpa [IndirectType] using IndirectType_struct env e hk⟩
    · cases h
  | definedSlice p n e =>
    simp only [structOf] at h
    split at h
    · rename_i hk
      simp [GoType.Kind] at hk
    · cases h
  | basic k =>
    simp only [structOf] at h
    split at h
    · rename_i hk
      simp only [Option.some.injEq] at h
      subst h
      exact ⟨hk, rfl⟩
    · cases h
  | named p n =>
    simp only [structOf] at h
    split at h
    · rename_i hk
      simp only [Option.some.injEq] at h
      subst h
      exact ⟨hk, rfl⟩
    · cases h
  | slice e =>
    simp only [structOf] at h
    split at h
    · rename_i hk
      simp [GoType.Kind] at hk
    · cases h

/-- What the rank gives for the members of a struct type. -/
theorem ranked_fields (env : TypeEnv) (rk : GoType → Nat) (hfree : selfReferenceFree env rk = true)
    (t : GoType) (f : StructField) (hf : f ∈ t.Fields env) :
    (f.Anonymous = true → rk (IndirectType f.Typ) < rk t) ∧
    (∀ u, structOf env f.Typ = some u → rk u < rk t) := by
  obtain ⟨d, hm, hk, htd, hfd⟩ := fields_decl env t f hf
  simp only [selfReferenceFree, List.all_eq_true] at hfree
  have hd := hfree d hm
  simp only [hk, bne_self_eq_false, Bool.false_or, rankedDecl, Bool.and_eq_true,
    List.all_eq_true] at hd
  rw [hfd] at hf
  have h1 := hd.1 f hf
  rw [htd]
  constructor
  · intro ha
    simpa [ha] using h1.1
  · intro u hu
    simpa [hu] using h1.2

/-- The loop of `DeepFields` ends when the recursive calls for the anonymous members do. -/
theorem deepFieldsLoop_some (deep : GoType → Option (List StructField)) :
    ∀ (fields : List StructField),
      (∀ v ∈ fields, v.Anonymous = true → ∃ l, deep v.Typ = some l) →
      ∃ l, deepFieldsLoop deep fields = some l := by
  intro fields
  induction fields with
  | nil =>
    intro _
    exact ⟨[], rfl⟩
  | cons v rest ih =>
    intro h
    obtain ⟨l, hl⟩ := ih (fun w hw => h w (List.mem_cons_of_mem _ hw))
    by_cases ha : v.Anonymous = true
    · obtain ⟨sub, hsub⟩ := h v (List.mem_cons_self _ _) ha
      exact ⟨sub ++ l, by simp [deepFieldsLoop, ha, hsub, hl]⟩
    · exact ⟨v :: l, by simp [deepFieldsLoop, ha, hl]⟩

/-- The flattening of a type of rank at most `n` ends with fuel `n + 1`. -/
theorem DeepFields_ends (env : TypeEnv) (rk : GoType → Nat)
    (hfree : selfReferenceFree env rk = true) :
    ∀ (n : Nat) (t : GoType) (fuel : Nat), rk (IndirectType t) ≤ n → n + 1 ≤ fuel →
      ∃ l, DeepFields env fuel t = some l := by
  intro n
  induction n with
  | zero =>
    intro t fuel hr hfuel
    obtain ⟨k, rfl⟩ : ∃ k, fuel = k + 1 := ⟨fuel - 1, by omega⟩
    unfold DeepFields
    split
    · apply deepFieldsLoop_some
      intro v hv ha
      have := (ranked_fields env rk hfree _ v hv).1 ha
      omega
    · exact ⟨[], rfl⟩
  | succ n ih =>
    intro t fuel hr hfuel
    obtain ⟨k, rfl⟩ : ∃ k, fuel = k + 1 := ⟨fuel - 1, by omega⟩
    unfold DeepFields
    split
    · apply deepFieldsLoop_some
      intro v hv ha
      have := (ranked_fields env rk hfree _ v hv).1 ha
      exact ih v.Typ k (by omega) (by omega)
    · exact ⟨[], rfl⟩

/-- A Value that `Elem` takes to a valid Value is of a pointer type or of a declared pointer
type, and `Elem` gives a Value of the pointee type. -/
theorem Elem_type (env : TypeEnv) (h : Heap) (v : Value)
    (hk : (v.Elem h).Kind env ≠ Kind.Invalid) :
    ∃ e, (v.Type = GoType.ptr e ∨ ∃ p n, v.Type = GoType.definedPtr p n e) ∧
      (v.Elem h).Type = e := by
  unfold Value.Elem at hk ⊢
  split
  · rename_i e a ht hl
    cases v with
    | zero => simp [Value.Type] at ht
    | imm t val st em => exact ⟨e, Or.inl ht, rfl⟩
    | ref t a1 path st em => exact ⟨e, Or.inl ht, rfl⟩
  · rename_i p n e a ht hl
    cases v with
    | zero => simp [Value.Type] at ht
    | imm t val st em => exact ⟨e, Or.inr ⟨p, n, ht⟩, rfl⟩
    | ref t a1 path st em => exact ⟨e, Or.inr ⟨p, n, ht⟩, rfl⟩
  · rename_i hne1 hne2
    split at hk
    · rename_i e a ht hl
      exact absurd hl (hne1 e a ht)
    · rename_i p n e a ht hl
      exact absurd hl (hne2 p n e a ht)
    · simp [Value.Kind] at hk

/-- The Value that `reflect.Indirect` takes to a struct has the type `T` or `*T` of that
struct, or a declared pointer type over it. -/
theorem structOf_reflectIndirect (env : TypeEnv) (h : Heap) (v : Value)
    (hk : (reflectIndirect env h v).Kind env = Kind.Struct) :
    structOf env v.Type = some (reflectIndirect env h v).Type := by
  unfold reflectIndirect at hk ⊢
  by_cases hp : v.Kind env = Kind.Ptr
  · simp only [hp, ne_eq, not_true_eq_false, if_false] at hk ⊢
    obtain ⟨e, ht, he⟩ := Elem_type env h v (by rw [hk]; decide)
    have hke : e.Kind env = Kind.Struct := by
      rw [← he]
      cases hv : v.Elem h with
      | zero => simp [hv, Value.Kind] at hk
      | imm t val st em => simpa [hv, Value.Kind] using hk
      | ref t a path st em => simpa [hv, Value.Kind] using hk
    rcases ht with ht | ⟨p, n, ht⟩
    · rw [ht, he]
      simp [structOf, hke]
    · rw [ht, he]
      simp [structOf, hke]
  · simp only [hp, ne_eq, not_false_eq_true, if_true] at hk ⊢
    have hkt : v.Type.Kind env = Kind.Struct := by
      cases v with
      | zero => simp [Value.Kind] at hk
      | imm t val st em => simpa [Value.Kind] using hk
      | ref t a path st em => simpa [Value.Kind] using hk
    cases ht : v.Type with
    | ptr e => simp [ht, GoType.Kind] at hkt
    | basic k =>
      rw [ht] at hkt
      simp [structOf, hkt]
    | named p n =>
      rw [ht] at hkt
      simp [structOf, hkt]
    | slice e => simp [ht, GoType.Kind] at hkt
    | definedPtr p n e => simp [ht, GoType.Kind] at hkt
    | definedSlice p n e => simp [ht, GoType.Kind] at hkt

/-- A Value that `reflector.Indirect` takes to a struct has the static type of that struct
under its pointers. -/
theorem indirectLoop_type (env : TypeEnv) (h : Heap) :
    ∀ (n : Nat) (v : Value), v.Type.ptrDepth = n →
      (indirectLoop env h n v).Kind env = Kind.Struct →
      IndirectType v.Type = (indirectLoop env h n v).Type := by
  intro n
  induction n with
  | zero =>
    intro v _ hk
    simp only [indirectLoop] at hk ⊢
    have hkt : v.Type.Kind env = Kind.Struct := by
      cases v with
      | zero => simp [Value.Kind] at hk
      | imm t val st em => simpa [Value.Kind] using hk
      | ref t a path st em => simpa [Value.Kind] using hk
    exact IndirectType_struct env _ hkt
  | succ n ih =>
    intro v hd hk
    have hvk : v.Kind env = Kind.Ptr := by
      have hkt : v.Type.Kind env = Kind.Ptr := by
        cases ht : v.Type with
        | basic k => simp [ht, GoType.ptrDepth] at hd
        | named p m => simp [ht, GoType.ptrDepth] at hd
        | slice e => simp [ht, GoType.ptrDepth] at hd
        | definedSlice p m e => simp [ht, GoType.ptrDepth] at hd
        | ptr e => rfl
        | definedPtr p m e => rfl
      cases v with
      | zero => simp [Value.Type, GoType.ptrDepth] at hd
      | imm t val st em => exact hkt
      | ref t a path st em => exact hkt
    simp only [indirectLoop, hvk, if_true] at hk ⊢
    by_cases hinv : (v.Elem h).Kind env = Kind.Invalid
    · rw [indirectLoop_of_not_ptr env h n _ (by rw [hinv]; decide), hinv] at hk
      cases hk
    · obtain ⟨e1, ht1, he1⟩ := Elem_type env h v hinv
      have hd1 : e1.ptrDepth = n := by
        rcases ht1 with ht1 | ⟨p, m, ht1⟩
        · rw [ht1, GoType.ptrDepth] at hd
          omega
        · rw [ht1, GoType.ptrDepth] at hd
          omega
      have := ih (v.Elem h) (by rw [he1]; exact hd1) hk
      rw [he1] at this
      rcases ht1 with ht1 | ⟨p, m, ht1⟩
      · rw [ht1]
        simpa [IndirectType] using this
      · rw [ht1]
        simpa [IndirectType] using this

theorem Indirect_type (env : TypeEnv) (h : Heap) (v : Value)
    (hk : (Indirect env h v).Kind env = Kind.Struct) :
    IndirectType v.Type = (Indirect env h v).Type :=
  indirectLoop_type env h _ v rfl hk

/-- The member at the end of a chain of `Type.FieldByName` is of lower rank than the struct the
chain starts from, when it is or points to a struct. -/
theorem fieldChains_rank (env : TypeEnv) (rk : GoType → Nat)
    (hfree : selfReferenceFree env rk = true) (name : String) :
    ∀ (d : Nat) (t : GoType) (chain : List StructField), chain ∈ fieldChains env name d t →
      ∃ last, chain.getLast? = some last ∧
        ∀ u, structOf env last.Typ = some u → rk u < rk t := by
  intro d
  induction d with
  | zero =>
    intro t chain h
    simp only [fieldChains, List.mem_map, List.mem_filter] at h
    obtain ⟨f, ⟨hf, _⟩, rfl⟩ := h
    exact ⟨f, rfl, (ranked_fields env rk hfree t f hf).2⟩
  | succ d ih =>
    intro t chain h
    simp only [fieldChains, List.mem_flatMap] at h
    obtain ⟨g, hg, hc⟩ := h
    cases he : embeddedStruct env g with
    | none => simp [he] at hc
    | some e =>
      simp only [he, List.mem_map] at hc
      obtain ⟨chain1, hc1, rfl⟩ := hc
      obtain ⟨last, hl, hr⟩ := ih e chain1 hc1
      have hge : rk e < rk t := by
        apply (ranked_fields env rk hfree t g hg).2
        unfold embeddedStruct at he
        split at he
        · cases hgt : g.Typ with
          | ptr e1 => simpa [hgt, structOf] using he
          | basic k => simpa [hgt, structOf] using he
          | named p n => simpa [hgt, structOf] using he
          | slice e1 => simpa [hgt, structOf] using he
          | definedPtr p n e1 => simp [hgt, GoType.Kind] at he
          | definedSlice p n e1 => simp [hgt, GoType.Kind] at he
        · cases he
      refine ⟨last, ?_, fun u hu => lt_trans (hr u hu) hge⟩
      cases chain1 with
      | nil => simp at hl
      | cons x xs => simpa [List.getLast?_cons_cons] using hl

theorem searchField_rank (env : TypeEnv) (rk : GoType → Nat)
    (hfree : selfReferenceFree env rk = true) (name : String) (t : GoType) :
    ∀ (levels d : Nat) (chain : List StructField),
      searchField env name t levels d = some chain →
      ∃ last, chain.getLast? = some last ∧
        ∀ u, structOf env last.Typ = some u → rk u < rk t := by
  intro levels
  induction levels with
  | zero =>
    intro d chain h
    simp [searchField] at h
  | succ levels ih =>
    intro d chain h
    simp only [searchField] at h
    split at h
    · exact ih (d + 1) chain h
    · rename_i c1 hc
      simp only [Option.some.injEq] at h
      subst h
      exact fieldChains_rank env rk hfree name d t c1 (by rw [hc]; simp)
    · cases h

/-- A member selected from a Value is the zero Value or of the type of the member. -/
theorem Field_type (v : Value) (f : StructField) :
    v.Field f = Value.zero ∨ (v.Field f).Type = f.Typ := by
  cases v with
  | zero => exact Or.inl rfl
  | imm t val st em => exact Or.inr rfl
  | ref t a path st em => exact Or.inr rfl

theorem FieldByIndex_type (env : TypeEnv) (h : Heap) :
    ∀ (chain : List StructField) (first : Bool) (v w : Value) (last : StructField),
      Value.FieldByIndex env h first v chain = some w → chain.getLast? = some last →
      w = Value.zero ∨ w.Type = last.Typ := by
  intro chain
  induction chain with
  | nil =>
    intro first v w last _ hl
    simp at hl
  | cons f rest ih =>
    intro first v w last hres hl
    cases rest with
    | nil =>
      simp only [List.getLast?_singleton, Option.some.injEq] at hl
      subst hl
      simp only [Value.FieldByIndex] at hres
      split at hres
      · split at hres
        · cases hres
        · simp only [Option.some.injEq] at hres
          subst hres
          exact Field_type _ f
      · simp only [Option.some.injEq] at hres
        subst hres
        exact Field_type _ f
    | cons g rest1 =>
      rw [List.getLast?_cons_cons] at hl
      rw [Value.FieldByIndex] at hres
      split at hres
      · split at hres
        · cases hres
        · exact ih false _ w last hres hl
      · exact ih false _ w last hres hl

/-- A member that the engine recurses into is of lower rank than the object. -/
theorem member_rank (env : TypeEnv) (rk : GoType → Nat)
    (hfree : selfReferenceFree env rk = true) (h h2 : Heap) (obj fieldObj : Value)
    (name : String) (hf : obj.FieldByName env h name = some fieldObj)
    (hk : (reflectIndirect env h2 fieldObj).Kind env = Kind.Struct) :
    rk (reflectIndirect env h2 fieldObj).Type < rk obj.Type := by
  have hs := structOf_reflectIndirect env h2 fieldObj hk
  have hnz : fieldObj ≠ Value.zero := by
    intro hz
    rw [hz] at hk
    simp [reflectIndirect, Value.Kind] at hk
  unfold Value.FieldByName at hf
  split at hf
  · rename_i chain hc
    obtain ⟨last, hl, hr⟩ := searchField_rank env rk hfree name obj.Type env.length 0 chain hc
    rcases FieldByIndex_type env h chain true obj fieldObj last hf hl with hz | ht
    · exact absurd hz hnz
    · rw [ht] at hs
      exact hr _ hs
  · simp only [Option.some.injEq] at hf
    exact absurd hf.symm hnz

theorem lookup_mem {α : Type} (k : String) (v : α) :
    ∀ (l : List (String × α)), l.lookup k = some v → (k, v) ∈ l := by
  intro l
  induction l with
  | nil =>
    intro h
    simp at h
  | cons p rest ih =>
    intro h
    obtain ⟨k1, v1⟩ := p
    simp only [List.lookup_cons] at h
    split at h
    · rename_i heq
      simp only [beq_iff_eq] at heq
      simp only [Option.some.injEq] at h
      subst heq h
      exact List.mem_cons_self _ _
    · exact List.mem_cons_of_mem _ (ih h)

/-- What the registry holds under a name is within the bound of the name. -/
theorem rankedRegistry_lookup (env : TypeEnv) (rk : GoType → Nat) (nrk : String → Nat)
    (s : State) (hs : s.rankedRegistry env rk nrk = true) (name : String) (inst : Inst)
    (h : getInstanceByName s name = some inst) (u : GoType)
    (hu : structOf env inst.1 = some u) : rk u ≤ nrk (ToLowerCamel name) := by
  unfold getInstanceByName at h
  unfold State.rankedRegistry at hs
  cases hf : s.appFactory with
  | none => simp [hf] at h
  | some r =>
    simp only [hf, List.all_eq_true] at h hs
    have hm : (ToLowerCamel name, inst) ∈ r := by
      unfold Registry.GetInstance at h
      exact lookup_mem _ _ r h
    have := hs _ hm
    simpa [hu] using this

/-- The registry stays ranked when an instance within the bound of its name is saved. -/
theorem rankedRegistry_save (env : TypeEnv) (rk : GoType → Nat) (nrk : String → Nat)
    (s : State) (hs : s.rankedRegistry env rk nrk = true) (name : String) (inst : Inst)
    (hi : ∀ u, structOf env inst.1 = some u → rk u ≤ nrk (LowerFirst name)) :
    (saveInstance name inst s).2.rankedRegistry env rk nrk = true := by
  unfold saveInstance
  cases hf : s.appFactory with
  | none => simp [State.rankedRegistry, hf]
  | some r =>
    simp only [State.rankedRegistry, hf] at hs
    simp only [Registry.SetInstance]
    cases hl : r.lookup (LowerFirst name) with
    | some w => simpa [State.rankedRegistry, State.emit] using hs
    | none =>
      simp only [State.rankedRegistry, State.emit, List.all_append, hs, Bool.true_and,
        List.all_cons, List.all_nil, Bool.and_true]
      cases hu : structOf env inst.1 with
      | none => rfl
      | some u => simp [hi u hu]

theorem rankedRegistry_emit (env : TypeEnv) (rk : GoType → Nat) (nrk : String → Nat)
    (s : State) (e : Event) :
    (s.emit e).rankedRegistry env rk nrk = s.rankedRegistry env rk nrk := rfl

/-- The loop over the resolvers keeps the registry ranked, when what a singleton resolver
yields for a member is within the bound of the name of the member. -/
theorem tagLoop_ranked (c : Ctx) (rk : GoType → Nat) (nrk : String → Nat) (object : Value)
    (f : StructField) :
    ∀ (tags : List Tag) (i : Nat) (s : State),
      (∀ t ∈ tags, t.IsSingleton = true → ∀ (tag : String) (inst : Inst),
        t.Decode object f tag = some inst →
        ∀ u, structOf c.env inst.1 = some u → rk u ≤ nrk (LowerFirst f.Name)) →
      s.rankedRegistry c.env rk nrk = true →
      (tagLoop c object f tags i s).2.rankedRegistry c.env rk nrk = true := by
  intro tags
  induction tags with
  | nil =>
    intro i s _ hs
    exact hs
  | cons r rest ih =>
    intro i s hres hs
    have hrest := fun t ht => hres t (List.mem_cons_of_mem _ ht)
    unfold tagLoop
    split
    · exact hs
    · split
      · rename_i tag hl
        split
        · rename_i inst hd
          split
          · rename_i hsing
            apply rankedRegistry_save
            · exact hs
            · exact hres r (List.mem_cons_self _ _) hsing tag inst hd
          · exact hs
        · exact ih (i + 1) _ hrest hs
      · exact ih (i + 1) s hrest hs

/-- The resolution of a member keeps the registry ranked. -/
theorem resolveField_ranked (c : Ctx) (rk : GoType → Nat) (nrk : String → Nat)
    (object : Value) (f : StructField) (targetTags : List Tag) (s : State)
    (hres : ∀ t ∈ targetTags, t.IsSingleton = true → ∀ (tag : String) (inst : Inst),
      t.Decode object f tag = some inst →
      ∀ u, structOf c.env inst.1 = some u → rk u ≤ nrk (LowerFirst f.Name))
    (hs : s.rankedRegistry c.env rk nrk = true) :
    (resolveField c object targetTags f s).2.rankedRegistry c.env rk nrk = true := by
  unfold resolveField
  split
  · exact hs
  · exact tagLoop_ranked c rk nrk object f targetTags 0 s hres hs

/-- The injection proper of a member does not run out of fuel and keeps the registry
ranked. -/
theorem injectStep_ends (c : Ctx) (rk : GoType → Nat) (nrk : String → Nat)
    (object obj : Value) (f : StructField) (targetTags : List Tag) (s : State)
    (hres : ∀ t ∈ targetTags, t.IsSingleton = true → ∀ (tag : String) (inst : Inst),
      t.Decode object f tag = some inst →
      ∀ u, structOf c.env inst.1 = some u → rk u ≤ nrk (LowerFirst f.Name))
    (hs : s.rankedRegistry c.env rk nrk = true) :
    (injectStep c object obj targetTags f s).ends
      (fun s2 => s2.rankedRegistry c.env rk nrk = true) := by
  unfold injectStep
  split
  · exact hs
  · rename_i fieldObj hfo
    have hr := resolveField_ranked c rk nrk object f targetTags s hres hs
    cases hrf : resolveField c object targetTags f s with
    | mk fl s1 =>
      rw [hrf] at hr
      have hr1 : s1.rankedRegistry c.env rk nrk = true := hr
      cases fl with
      | ret e => exact hr1
      | next injectedObject =>
        simp only
        cases injectedObject with
        | none => exact hr1
        | some inst =>
          by_cases hcs : fieldObj.CanSet = true
          · simp only [assignField, hcs, if_true]
            cases hv : Value.Set c.env fieldObj inst s1 with
            | done u s2 =>
              have := (Value.Set_frame c.env fieldObj inst s1 s2 hv).1
              simp only [Outcome.ends, State.rankedRegistry, this]
              exact hr1
            | panic s2 =>
              have := Value.Set_panic c.env fieldObj inst s1 s2 hv
              subst this
              exact hr1
            | diverge => exact absurd hv (Value.Set_not_diverge c.env fieldObj inst s1)
          · simp only [assignField, hcs]
            exact hr1

/-- A type with the hook is `T` or `*T` for a declared struct `T`, and the parameters of the
hook after the receiver are those of the declaration. -/
theorem hook_decl (env : TypeEnv) (t : GoType) (ins : List GoType)
    (h : MethodByName env t = some ins) :
    ∃ d m, d ∈ env ∧ d.kind = Kind.Struct ∧ d.Init = some m ∧ ins.tail = m.In ∧
      IndirectType t = GoType.named d.PkgPath d.Name := by
  cases t with
  | basic k => simp [MethodByName] at h
  | slice e => simp [MethodByName] at h
  | definedPtr p n e => simp [MethodByName] at h
  | definedSlice p n e => simp [MethodByName] at h
  | named p n =>
    simp only [MethodByName] at h
    cases hd : env.decl p n with
    | none => simp [hd] at h
    | some d =>
      simp only [hd] at h
      obtain ⟨hm, hp, hn⟩ := decl_mem env p n d hd
      by_cases hk : d.kind = Kind.Struct
      · simp only [hk, if_true] at h
        cases hi : d.Init with
        | none => simp [hi] at h
        | some m =>
          simp only [hi] at h
          split at h
          · cases h
          · simp only [Option.some.injEq] at h
            subst hp hn
            exact ⟨d, m, hm, hk, hi, by rw [← h]; rfl, rfl⟩
      · simp [hk] at h
  | ptr e =>
    cases e with
    | basic k => simp [MethodByName] at h
    | slice e1 => simp [MethodByName] at h
    | ptr e1 => simp [MethodByName] at h
    | definedPtr p n e1 => simp [MethodByName] at h
    | definedSlice p n e1 => simp [MethodByName] at h
    | named p n =>
      simp only [MethodByName] at h
      cases hd : env.decl p n with
      | none => simp [hd] at h
      | some d =>
        simp only [hd] at h
        obtain ⟨hm, hp, hn⟩ := decl_mem env p n d hd
        by_cases hk : d.kind = Kind.Struct
        · simp only [hk, if_true] at h
          cases hi : d.Init with
          | none => simp [hi] at h
          | some m =>
            simp only [hi, Option.some.injEq] at h
            subst hp hn
            exact ⟨d, m, hm, hk, hi, by rw [← h]; rfl, rfl⟩
        · simp [hk] at h

/-- What the ranks give for a parameter of the hook of a type. -/
theorem hook_ranks (env : TypeEnv) (rk : GoType → Nat) (nrk : String → Nat)
    (hfree : selfReferenceFree env rk = true) (hhooks : rankedHooks env rk nrk = true)
    (t : GoType) (ins : List GoType) (h : MethodByName env t = some ins) (p : GoType)
    (hp : p ∈ ins.tail) :
    ((IndirectType p).Kind env = Kind.Struct → rk (IndirectType p) < rk (IndirectType t)) ∧
    nrk (ToLowerCamel (IndirectType p).Name) < rk (IndirectType t) ∧
    nrk (ToLowerCamel (DirName (IndirectType p).PkgPath ++ (IndirectType p).Name))
      < rk (IndirectType t) ∧
    ((IndirectType p).Kind env = Kind.Struct →
      rk (IndirectType p) ≤ nrk (LowerFirst (IndirectType p).Name)) := by
  obtain ⟨d, m, hm, hk, hi, htail, ht⟩ := hook_decl env t ins h
  rw [htail] at hp
  rw [ht]
  simp only [selfReferenceFree, List.all_eq_true] at hfree
  have h1 := hfree d hm
  simp only [hk, bne_self_eq_false, Bool.false_or, rankedDecl, Bool.and_eq_true, hi,
    List.all_eq_true] at h1
  have h1p := h1.2 p hp
  simp only [rankedHooks, List.all_eq_true] at hhooks
  have h2 := hhooks d hm
  simp only [hk, bne_self_eq_false, Bool.false_or, hi, List.all_eq_true] at h2
  have h2p := h2 p hp
  simp only [Bool.and_eq_true, decide_eq_true_eq, Bool.or_eq_true, bne_iff_ne, ne_eq] at h1p h2p
  refine ⟨fun hs => ?_, h2p.1.1, h2p.1.2, fun hs => ?_⟩
  · rcases h1p with h | h
    · exact absurd hs h
    · exact h
  · rcases h2p.2 with h | h
    · exact absurd hs h
    · exact h

/-- The resolution of a parameter keeps the registry ranked, when the instance created for it
is within the bound of the name it is stored under. -/
theorem parseMethodInput_ranked (c : Ctx) (rk : GoType → Nat) (nrk : String → Nat)
    (p : GoType) (s : State) (hs : s.rankedRegistry c.env rk nrk = true)
    (hp : (IndirectType p).Kind c.env = Kind.Struct →
      rk (IndirectType p) ≤ nrk (LowerFirst (IndirectType p).Name)) :
    (parseMethodInput c p s).2.rankedRegistry c.env rk nrk = true := by
  unfold parseMethodInput
  split
  · exact hs
  · split
    · exact hs
    · split
      · exact hs
      · apply rankedRegistry_save
        · exact hs
        · intro u hu
          simp only [reflectNew, structOf] at hu
          split at hu
          · rename_i hk
            cases hu
            exact hp hk
          · cases hu

/-- The value that the resolution of a parameter yields is of a rank below `b`, when it is or
points to a struct, `b` being above the bounds of the two names the parameter is looked up
under and above the rank of the struct type of the parameter. -/
theorem parseMethodInput_rank (c : Ctx) (rk : GoType → Nat) (nrk : String → Nat)
    (p : GoType) (s s1 : State) (val : Value) (b : Nat)
    (hs : s.rankedRegistry c.env rk nrk = true)
    (hpm : parseMethodInput c p s = ((val, true), s1))
    (h1 : nrk (ToLowerCamel (IndirectType p).Name) < b)
    (h2 : nrk (ToLowerCamel (DirName (IndirectType p).PkgPath ++ (IndirectType p).Name)) < b)
    (h3 : (IndirectType p).Kind c.env = Kind.Struct → rk (IndirectType p) < b)
    (hk : (reflectIndirect c.env s1.heap val).Kind c.env = Kind.Struct) :
    rk (reflectIndirect c.env s1.heap val).Type < b := by
  have hso := structOf_reflectIndirect c.env s1.heap val hk
  have hvt : ∀ inst : Inst, (ValueOf (some inst)).Type = inst.1 := fun inst => rfl
  unfold parseMethodInput at hpm
  cases hr1 : getInstanceByName s (IndirectType p).Name with
  | some inst =>
    simp only [hr1, Prod.mk.injEq, and_true] at hpm
    obtain ⟨hv, _⟩ := hpm
    subst hv
    rw [hvt] at hso
    have := rankedRegistry_lookup c.env rk nrk s hs _ inst hr1 _ hso
    omega
  | none =>
    cases hr2 : getInstanceByName s
        (DirName (IndirectType p).PkgPath ++ (IndirectType p).Name) with
    | some inst =>
      simp only [hr1, hr2, Prod.mk.injEq, and_true] at hpm
      obtain ⟨hv, _⟩ := hpm
      subst hv
      rw [hvt] at hso
      have := rankedRegistry_lookup c.env rk nrk s hs _ inst hr2 _ hso
      omega
    | none =>
      simp only [hr1, hr2] at hpm
      split at hpm
      · simp at hpm
      · simp only [Prod.mk.injEq, and_true] at hpm
        obtain ⟨hv, _⟩ := hpm
        subst hv
        rw [hvt] at hso
        simp only [reflectNew, structOf] at hso
        split at hso
        · rename_i hks
          simp only [Option.some.injEq] at hso
          have hgoal : (reflectIndirect c.env s1.heap
              (ValueOf (some (reflectNew c.env (IndirectType p) s).1))).Type
              = IndirectType p := hso.symm
          rw [hgoal]
          exact h3 hks
        · cases hso

/-- The member that the injection proper returns is the member looked up by name in the
object. -/
theorem injectStep_field (c : Ctx) (object obj : Value) (targetTags : List Tag)
    (f : StructField) (s s2 : State) (fieldObj : Value)
    (h : injectStep c object obj targetTags f s = Outcome.done (Flow.next fieldObj) s2) :
    (if obj.IsValid && obj.Kind c.env == Kind.Struct then obj.FieldByName c.env s.heap f.Name
      else some Value.zero) = some fieldObj := by
  unfold injectStep at h
  split at h
  · cases h
  · rename_i fo hfo
    split at h
    · cases h
    · split at h
      · simp only [Outcome.done.injEq, Flow.next.injEq] at h
        rw [hfo, h.1]
      · cases h
      · cases h

/-- The recursive call on a member ends, when the recursive calls on objects of lower rank than
the object do. -/
theorem nestedField_ends (c : Ctx) (rk : GoType → Nat) (Inv : State → Prop)
    (hfree : selfReferenceFree c.env rk = true)
    (recur : Value → List Tag → State → Outcome (Option Error)) (tags : List Tag)
    (obj fieldObj : Value) (h : Heap) (name : String)
    (hrec : ∀ v s, Inv s → (Indirect c.env s.heap v).Kind c.env = Kind.Struct →
      rk (Indirect c.env s.heap v).Type < rk obj.Type → (recur v tags s).ends Inv)
    (hfo : (if obj.IsValid && obj.Kind c.env == Kind.Struct then
        obj.FieldByName c.env h name else some Value.zero) = some fieldObj)
    (err : Option Error) (s : State) (hs : Inv s) :
    (nestedField c.env recur obj fieldObj tags err s).ends Inv := by
  unfold nestedField
  split
  · rename_i hg
    have hk := indirect_of_reflectIndirect c.env s.heap fieldObj hg.1
    apply hrec fieldObj s hs
    · rw [hk]
      exact hg.1
    · rw [hk]
      split at hfo
      · exact member_rank c.env rk hfree h s.heap obj fieldObj name hfo hg.1
      · simp only [Option.some.injEq] at hfo
        rw [← hfo] at hg
        simp [Value.IsValid] at hg
  · exact hs

/-- The loop over the members ends, when the recursive calls on objects of lower rank than the
object do. -/
theorem fieldLoop_ends (c : Ctx) (rk : GoType → Nat) (nrk : String → Nat)
    (hfree : selfReferenceFree c.env rk = true)
    (recur : Value → List Tag → State → Outcome (Option Error)) (tags targetTags : List Tag)
    (object obj : Value)
    (hres : ∀ t ∈ targetTags, t.IsSingleton = true → ∀ (object : Value) (f : StructField)
      (tag : String) (inst : Inst), t.Decode object f tag = some inst →
      ∀ u, structOf c.env inst.1 = some u → rk u ≤ nrk (LowerFirst f.Name))
    (hrec : ∀ v s, s.rankedRegistry c.env rk nrk = true →
      (Indirect c.env s.heap v).Kind c.env = Kind.Struct →
      rk (Indirect c.env s.heap v).Type < rk obj.Type →
      (recur v tags s).ends (fun s2 => s2.rankedRegistry c.env rk nrk = true)) :
    ∀ (fields : List StructField) (err : Option Error) (s : State),
      s.rankedRegistry c.env rk nrk = true →
      (fieldLoop c recur object obj tags targetTags fields err s).ends
        (fun s2 => s2.rankedRegistry c.env rk nrk = true) := by
  intro fields
  induction fields with
  | nil =>
    intro err s hs
    exact hs
  | cons f rest ih =>
    intro err s hs
    unfold fieldLoop
    have hstep := injectStep_ends c rk nrk object obj f targetTags s
      (fun t ht hsing tag inst hd => hres t ht hsing object f tag inst hd) hs
    have hif : (injectField c recur object obj tags targetTags f err s).ends
        (fun s2 => s2.rankedRegistry c.env rk nrk = true) := by
      unfold injectField
      cases hst : injectStep c object obj targetTags f s with
      | done r s1 =>
        rw [hst] at hstep
        cases r with
        | ret e => exact hstep
        | next fieldObj =>
          simp only
          have hfo := injectStep_field c object obj targetTags f s s1 fieldObj hst
          have hn := nestedField_ends c rk _ hfree recur tags obj fieldObj s.heap f.Name hrec
            hfo err s1 hstep
          cases hnf : nestedField c.env recur obj fieldObj tags err s1 with
          | done e s2 =>
            rw [hnf] at hn
            exact hn
          | panic s2 =>
            rw [hnf] at hn
            exact hn
          | diverge =>
            rw [hnf] at hn
            exact hn
      | panic s1 =>
        rw [hst] at hstep
        exact hstep
      | diverge =>
        rw [hst] at hstep
        exact hstep
    cases hi : injectField c recur object obj tags targetTags f err s with
    | done r s1 =>
      rw [hi] at hif
      cases r with
      | ret e => exact hif
      | next err1 => exact ih err1 s1 hif
    | panic s1 =>
      rw [hi] at hif
      exact hif
    | diverge =>
      rw [hi] at hif
      exact hif

/-- The loop over the parameters of the hook ends, when the recursive calls on objects of lower
rank than the object do and the values of the parameters are of lower rank. -/
theorem paramLoop_ends (c : Ctx) (rk : GoType → Nat) (nrk : String → Nat)
    (recur : Value → List Tag → State → Outcome (Option Error)) (tags : List Tag)
    (obj : Value)
    (hrec : ∀ v s, s.rankedRegistry c.env rk nrk = true →
      (Indirect c.env s.heap v).Kind c.env = Kind.Struct →
      rk (Indirect c.env s.heap v).Type < rk obj.Type →
      (recur v tags s).ends (fun s2 => s2.rankedRegistry c.env rk nrk = true)) :
    ∀ (ins : List GoType) (inputs : List Value) (err : Option Error) (s : State),
      (∀ p ∈ ins,
        ((IndirectType p).Kind c.env = Kind.Struct → rk (IndirectType p) < rk obj.Type) ∧
        nrk (ToLowerCamel (IndirectType p).Name) < rk obj.Type ∧
        nrk (ToLowerCamel (DirName (IndirectType p).PkgPath ++ (IndirectType p).Name))
          < rk obj.Type ∧
        ((IndirectType p).Kind c.env = Kind.Struct →
          rk (IndirectType p) ≤ nrk (LowerFirst (IndirectType p).Name))) →
      s.rankedRegistry c.env rk nrk = true →
      (paramLoop c recur obj tags ins inputs err s).ends
        (fun s2 => s2.rankedRegistry c.env rk nrk = true) := by
  intro ins
  induction ins with
  | nil =>
    intro inputs err s _ hs
    exact hs
  | cons p rest ih =>
    intro inputs err s hp hs
    have hrest := fun q hq => hp q (List.mem_cons_of_mem _ hq)
    obtain ⟨h3, h1, h2, h4⟩ := hp p (List.mem_cons_self _ _)
    unfold paramLoop
    have hpm := parseMethodInput_ranked c rk nrk p s hs h4
    cases hres : parseMethodInput c p s with
    | mk vo s1 =>
      rw [hres] at hpm
      obtain ⟨val, flag⟩ := vo
      cases flag with
      | false => exact hpm
      | true =>
        simp only
        split
        · rename_i hg
          have hk := indirect_of_reflectIndirect c.env s1.heap val hg.2.2.2
          have hr := parseMethodInput_rank c rk nrk p s s1 val _ hs hres h1 h2 h3 hg.2.2.2
          have hcall := hrec val s1 hpm (by rw [hk]; exact hg.2.2.2) (by rw [hk]; exact hr)
          cases hrc : recur val tags s1 with
          | done e s2 =>
            rw [hrc] at hcall
            exact ih _ e s2 hrest hcall
          | panic s2 =>
            rw [hrc] at hcall
            exact hcall
          | diverge =>
            rw [hrc] at hcall
            exact hcall
        · exact ih _ err s1 hrest hpm

/-- The method injection ends, when the recursive calls on objects of lower rank than the
object do. -/
theorem injectMethod_ends (c : Ctx) (rk : GoType → Nat) (nrk : String → Nat)
    (hfree : selfReferenceFree c.env rk = true) (hhooks : rankedHooks c.env rk nrk = true)
    (recur : Value → List Tag → State → Outcome (Option Error)) (tags : List Tag)
    (object obj : Value) (hobj : IndirectType object.Type = obj.Type)
    (hrec : ∀ v s, s.rankedRegistry c.env rk nrk = true →
      (Indirect c.env s.heap v).Kind c.env = Kind.Struct →
      rk (Indirect c.env s.heap v).Type < rk obj.Type →
      (recur v tags s).ends (fun s2 => s2.rankedRegistry c.env rk nrk = true))
    (err : Option Error) (s : State) (hs : s.rankedRegistry c.env rk nrk = true) :
    (injectMethod c recur object obj tags err s).ends
      (fun s2 => s2.rankedRegistry c.env rk nrk = true) := by
  unfold injectMethod
  cases hm : MethodByName c.env object.Type with
  | none => exact hs
  | some ins =>
    simp only
    have hp : ∀ p ∈ ins.tail,
        ((IndirectType p).Kind c.env = Kind.Struct → rk (IndirectType p) < rk obj.Type) ∧
        nrk (ToLowerCamel (IndirectType p).Name) < rk obj.Type ∧
        nrk (ToLowerCamel (DirName (IndirectType p).PkgPath ++ (IndirectType p).Name))
          < rk obj.Type ∧
        ((IndirectType p).Kind c.env = Kind.Struct →
          rk (IndirectType p) ≤ nrk (LowerFirst (IndirectType p).Name)) := by
      intro p hp
      have := hook_ranks c.env rk nrk hfree hhooks object.Type ins hm p hp
      rw [hobj] at this
      exact this
    cases obj with
    | zero => exact hs
    | imm t val st em => exact hs
    | ref t a path st em =>
      simp only
      have hl := paramLoop_ends c rk nrk recur tags (Value.ref t a path st em) hrec ins.tail []
        err s hp hs
      cases hpl : paramLoop c recur (Value.ref t a path st em) tags ins.tail [] err s with
      | done r s1 =>
        rw [hpl] at hl
        obtain ⟨⟨ok, inputs⟩, err1⟩ := r
        cases ok with
        | false => exact hl
        | true =>
          simp only
          have hl1 : s1.rankedRegistry c.env rk nrk = true := hl
          by_cases hchk : ((List.zipWith (fun (a : GoType) (t : GoType) => assignable c.env a t)
              (GoType.ptr (Value.ref t a path st em).Type :: inputs.map Value.Type) ins).all
              (fun ok => ok) && !(Value.ref t a path st em).isRO) = true
          · simp only [callHook, hchk, if_true]
            exact hl1
          · simp only [callHook, hchk]
            exact hl1
      | panic s1 =>
        rw [hpl] at hl
        exact hl
      | diverge =>
        rw [hpl] at hl
        exact hl

/-- A call of `IntoObjectValue` on an object of rank at most `n` ends with fuel `n + 2`, in a
state whose registry is ranked. -/
theorem IntoObjectValue_ends (c : Ctx) (rk : GoType → Nat) (nrk : String → Nat)
    (tags : List Tag)
    (hfree : selfReferenceFree c.env rk = true) (hhooks : rankedHooks c.env rk nrk = true)
    (hres : ∀ t ∈ (if tags.length ≠ 0 then tags else c.tagsContainer), t.IsSingleton = true →
      ∀ (object : Value) (f : StructField) (tag : String) (inst : Inst),
      t.Decode object f tag = some inst →
      ∀ u, structOf c.env inst.1 = some u → rk u ≤ nrk (LowerFirst f.Name)) :
    ∀ (n : Nat) (object : Value) (s : State) (fuel : Nat),
      ((Indirect c.env s.heap object).Kind c.env = Kind.Struct →
        rk (Indirect c.env s.heap object).Type ≤ n) →
      n + 2 ≤ fuel → s.rankedRegistry c.env rk nrk = true →
      (IntoObjectValue c fuel object tags s).ends
        (fun s2 => s2.rankedRegistry c.env rk nrk = true) := by
  intro n
  induction n using Nat.strong_induction_on with
  | _ n ih =>
    intro object s fuel hrank hfuel hs
    obtain ⟨k, rfl⟩ : ∃ k, fuel = k + 1 := ⟨fuel - 1, by omega⟩
    unfold IntoObjectValue
    split
    · exact hs
    · split
      · exact hs
      · rename_i hkind
        have hk : (Indirect c.env s.heap object).Kind c.env = Kind.Struct := not_not.1 hkind
        have hty := Indirect_type c.env s.heap object hk
        have hrk := hrank hk
        have hrec : ∀ v s1, s1.rankedRegistry c.env rk nrk = true →
            (Indirect c.env s1.heap v).Kind c.env = Kind.Struct →
            rk (Indirect c.env s1.heap v).Type < rk (Indirect c.env s.heap object).Type →
            (IntoObjectValue c k v tags s1).ends
              (fun s2 => s2.rankedRegistry c.env rk nrk = true) := by
          intro v s1 hs1 _ hlt
          exact ih (rk (Indirect c.env s1.heap v).Type) (by omega) v s1 k (fun _ => le_refl _)
            (by omega) hs1
        split
        · exact hs
        · split
          · exact hs
          · split
            · exact hs
            · split
              · exact hs
              · obtain ⟨l, hl⟩ := DeepFields_ends c.env rk hfree n object.Type k
                  (by rw [hty]; exact hrk) (by omega)
                rw [hl]
                simp only
                have hfl := fieldLoop_ends c rk nrk hfree (IntoObjectValue c k) tags
                  (if tags.length ≠ 0 then tags else c.tagsContainer) object
                  (Indirect c.env s.heap object) hres hrec l none s hs
                cases hf : fieldLoop c (IntoObjectValue c k) object
                    (Indirect c.env s.heap object) tags
                    (if tags.length ≠ 0 then tags else c.tagsContainer) l none s with
                | done r s1 =>
                  rw [hf] at hfl
                  cases r with
                  | ret e => exact hfl
                  | next err =>
                    exact injectMethod_ends c rk nrk hfree hhooks (IntoObjectValue c k) tags
                      object (Indirect c.env s.heap object) hty hrec err s1 hfl
                | panic s1 =>
                  rw [hf] at hfl
                  exact hfl
                | diverge =>
                  rw [hf] at hfl
                  exact hfl

/-- The registry holds a `*Ping` under `dep` and a `*Pong` under `other`; `Ping` has the hook
`Init(Other)` and `Pong` the hook `Init(Dep)`.  The injection into either never ends: with any
fuel the calls run out of it. -/
theorem ping_pong_diverges :
    ∀ (fuel : Nat),
      IntoObjectValue { env := lastEnv } fuel (ValueOf (some pingPtr)) []
          (lastState [("dep", pingPtr), ("other", pongPtr)]) = Outcome.diverge ∧
        IntoObjectValue { env := lastEnv } fuel (ValueOf (some pongPtr)) []
          (lastState [("dep", pingPtr), ("other", pongPtr)]) = Outcome.diverge := by
  intro fuel
  induction fuel with
  | zero => exact ⟨rfl, rfl⟩
  | succ n ih =>
    cases n with
    | zero => exact ⟨by decide, by decide⟩
    | succ m =>
      have hconf : (lastState [("dep", pingPtr), ("other", pongPtr)]).configured = true := by
        decide
      have hdeep : ∀ t : GoType, (IndirectType t).Kind lastEnv = Kind.Struct →
          (IndirectType t).Fields lastEnv = [] → DeepFields lastEnv (m + 1) t = some [] := by
        intro t hk hf
        simp only [DeepFields, hk, if_true, hf, deepFieldsLoop]
      constructor
      · rw [IntoObjectValue_configured { env := lastEnv } (m + 1) (ValueOf (some pingPtr)) []
          (lastState [("dep", pingPtr), ("other", pongPtr)]) [] hconf (by decide)
          (hdeep _ (by decide) (by decide))]
        have hobj : Indirect lastEnv (lastState [("dep", pingPtr), ("other", pongPtr)]).heap
            (ValueOf (some pingPtr)) = Value.ref (GoType.named "app" "Ping") 14 [] false false := by
          decide
        have hmeth : MethodByName lastEnv (ValueOf (some pingPtr)).Type
            = some [GoType.ptr (GoType.named "app" "Ping"), otherType] := by decide
        have hpm : parseMethodInput { env := lastEnv } otherType
            (lastState [("dep", pingPtr), ("other", pongPtr)])
            = ((ValueOf (some pongPtr), true),
               lastState [("dep", pingPtr), ("other", pongPtr)]) := by decide
        have hcond : (ValueOf (some pongPtr)).IsValid = true ∧
            (reflectIndirect lastEnv (lastState [("dep", pingPtr), ("other", pongPtr)]).heap
              (ValueOf (some pongPtr))).IsValid = true ∧
            (reflectIndirect lastEnv (lastState [("dep", pingPtr), ("other", pongPtr)]).heap
              (ValueOf (some pongPtr))).Type
                ≠ (Value.ref (GoType.named "app" "Ping") 14 [] false false).Type ∧
            (reflectIndirect lastEnv (lastState [("dep", pingPtr), ("other", pongPtr)]).heap
              (ValueOf (some pongPtr))).Kind lastEnv = Kind.Struct := by
          refine ⟨by decide, by decide, by decide, by decide⟩
        simp only [fieldLoop, injectMethod, hmeth, hobj, List.tail_cons, paramLoop, hpm,
          if_pos hcond, ih.2]
      · rw [IntoObjectValue_configured { env := lastEnv } (m + 1) (ValueOf (some pongPtr)) []
          (lastState [("dep", pingPtr), ("other", pongPtr)]) [] hconf (by decide)
          (hdeep _ (by decide) (by decide))]
        have hobj : Indirect lastEnv (lastState [("dep", pingPtr), ("other", pongPtr)]).heap
            (ValueOf (some pongPtr)) = Value.ref (GoType.named "app" "Pong") 15 [] false false := by
          decide
        have hmeth : MethodByName lastEnv (ValueOf (some pongPtr)).Type
            = some [GoType.ptr (GoType.named "app" "Pong"), depType] := by decide
        have hpm : parseMethodInput { env := lastEnv } depType
            (lastState [("dep", pingPtr), ("other", pongPtr)])
            = ((ValueOf (some pingPtr), true),
               lastState [("dep", pingPtr), ("other", pongPtr)]) := by decide
        have hcond : (ValueOf (some pingPtr)).IsValid = true ∧
            (reflectIndirect lastEnv (lastState [("dep", pingPtr), ("other", pongPtr)]).heap
              (ValueOf (some pingPtr))).IsValid = true ∧
            (reflectIndirect lastEnv (lastState [("dep", pingPtr), ("other", pongPtr)]).heap
              (ValueOf (some pingPtr))).Type
                ≠ (Value.ref (GoType.named "app" "Pong") 15 [] false false).Type ∧
            (reflectIndirect lastEnv (lastState [("dep", pingPtr), ("other", pongPtr)]).heap
              (ValueOf (some pingPtr))).Kind lastEnv = Kind.Struct := by
          refine ⟨by decide, by decide, by decide, by decide⟩
        simp only [fieldLoop, injectMethod, hmeth, hobj, List.tail_cons, paramLoop, hpm,
          if_pos hcond, ih.1]

/-- C23, as stated, fails: the declarations of the examples are without structural
self-reference (the rank `exampleRank` goes down along every embedded, struct-typed or
pointer-to-struct member and every hook parameter type), but the registry of the configured
system holds a `*Ping` under `dep` and a `*Pong` under `other`, and the hooks `Init(Other)` of
`Ping` and `Init(Dep)` of `Pong` take their arguments from it: the injection into the `Ping`
runs out of any fuel. -/
theorem registry_cycle_never_ends :
    selfReferenceFree lastEnv exampleRank = true ∧
      (lastState [("dep", pingPtr), ("other", pongPtr)]).configured = true ∧
      ∀ (fuel : Nat), IntoObject { env := lastEnv } fuel (some pingPtr)
        (lastState [("dep", pingPtr), ("other", pongPtr)]) = Outcome.diverge := by
  refine ⟨by decide, by decide, fun fuel => (ping_pong_diverges fuel).1⟩

/-- C23, amended: let the declarations be without structural self-reference, witnessed by a
rank `rk` of the types, and let the rank also go down from a struct with a hook to what the
registry holds, and what the engine and the singleton resolvers store, under the names by
which the parameters of the hook are looked up, witnessed by a bound `nrk` for each name.
Then the flattening of the type of every object ends, and the injection into every object
ends, by a return or a panic, with any fuel above the rank of the object. -/
theorem injection_terminates (c : Ctx) (rk : GoType → Nat) (nrk : String → Nat)
    (tags : List Tag) (object : Value) (s : State)
    (hfree : selfReferenceFree c.env rk = true) (hhooks : rankedHooks c.env rk nrk = true)
    (hres : ∀ t ∈ (if tags.length ≠ 0 then tags else c.tagsContainer), t.IsSingleton = true →
      ∀ (object : Value) (f : StructField) (tag : String) (inst : Inst),
      t.Decode object f tag = some inst →
      ∀ u, structOf c.env inst.1 = some u → rk u ≤ nrk (LowerFirst f.Name))
    (hs : s.rankedRegistry c.env rk nrk = true) :
    (∀ fuel, rk (IndirectType object.Type) + 1 ≤ fuel →
      ∃ l, DeepFields c.env fuel object.Type = some l) ∧
    (∀ fuel, rk (IndirectType object.Type) + 2 ≤ fuel →
      IntoObjectValue c fuel object tags s ≠ Outcome.diverge) := by
  constructor
  · intro fuel hfuel
    exact DeepFields_ends c.env rk hfree _ object.Type fuel (le_refl _) hfuel
  · intro fuel hfuel hdiv
    have := IntoObjectValue_ends c rk nrk tags hfree hhooks hres
      (rk (IndirectType object.Type)) object s fuel
      (fun hk => by rw [Indirect_type c.env s.heap object hk]) hfuel hs
    rw [hdiv] at this
    exact this

/-- A witness for C23, amended: the declarations of the examples with the rank `exampleRank`
and the bound `exampleBound` for the names, the registry with the entry `bar`, and the `Worker`
with the hook `Init(*Service)`. -/
theorem injection_terminates_witness :
    (∃ l, DeepFields lastEnv 2 (ValueOf (some workerPtr)).Type = some l) ∧
      IntoObjectValue { env := lastEnv } 3 (ValueOf (some workerPtr)) []
        (lastState [("bar", bazInst)]) ≠ Outcome.diverge :=
  ⟨(injection_terminates { env := lastEnv } exampleRank exampleBound []
      (ValueOf (some workerPtr)) (lastState [("bar", bazInst)]) (by decide) (by decide)
      (by intro t ht; simp at ht) (by decide)).1 2 (by decide),
   (injection_terminates { env := lastEnv } exampleRank exampleBound []
      (ValueOf (some workerPtr)) (lastState [("bar", bazInst)]) (by decide) (by decide)
      (by intro t ht; simp at ht) (by decide)).2 3 (by decide)⟩

/-! ## C6: a singleton is found again -/

theorem lookup_append_of_none {α : Type} (k : String) (v : α) :
    ∀ (l : List (String × α)), l.lookup k = none → (l ++ [(k, v)]).lookup k = some v := by
  intro l
  induction l with
  | nil =>
    intro _
    simp [List.lookup]
  | cons p rest ih =>
    intro h
    obtain ⟨k1, v1⟩ := p
    simp only [List.lookup_cons] at h
    split at h
    · cases h
    · rename_i hne
      simp only [List.cons_append, List.lookup_cons, hne]
      exact ih h

/-- What `saveInstance` stores under a name that was free is found by `getInstanceByName`
under that name. -/
theorem saveInstance_lookup (name : String) (inst : Inst) (s : State)
    (hmiss : getInstanceByName s name = none) (hfac : s.appFactory ≠ none) :
    getInstanceByName (saveInstance name inst s).2 name = some inst := by
  unfold saveInstance
  cases hf : s.appFactory with
  | none => exact absurd hf hfac
  | some r =>
    simp only [getInstanceByName, hf, Registry.GetInstance] at hmiss
    simp only [Registry.SetInstance, LowerFirst, hmiss, getInstanceByName, State.emit,
      Registry.GetInstance]
    exact lookup_append_of_none _ inst r hmiss

/-- The property that the registry reference is set is kept by a call. -/
theorem preserved_factory (c : Ctx) : Preserved c (fun s => s.appFactory ≠ none) :=
  { tag := by
      intro s i object f tag hs _
      exact hs
    save := by
      intro s name inst hs
      unfold saveInstance
      cases hf : s.appFactory with
      | none => exact absurd hf hs
      | some r =>
        exact Option.some_ne_none _
    assign := by
      intro _ s1 _ _ _ _ fieldObj inst s2 _ hs1 _ _ _ hv
      rw [(Value.Set_frame c.env fieldObj inst s1 s2 hv).1]
      exact hs1
    alloc := by
      intro s t hs
      exact hs
    call := by
      intro s obj args hs
      exact hs }

/-- The instance that a singleton resolver, the first to yield one, gives for a member without
registry entry is in the registry under the name of the member when the loop over the resolvers
is done. -/
theorem tagLoop_first_saved (c : Ctx) (object : Value) (f : StructField) (s : State)
    (pre : List Tag) (t : Tag) (post : List Tag) (v : Inst)
    (hpre : ∀ r ∈ pre, ParseObjectName c.env s.heap r.self "Tag" ≠ "" ∧
      decodes c s.heap object f r = none)
    (ht : decodes c s.heap object f t = some v) (hsing : t.IsSingleton = true)
    (hmiss : getInstanceByName s f.Name = none) (hfac : s.appFactory ≠ none) :
    getInstanceByName (tagLoop c object f (pre ++ t :: post) 0 s).2 f.Name = some v := by
  obtain ⟨tag, hl, hd⟩ := decodes_some c s.heap object f t v ht
  obtain ⟨evs1, _, heq⟩ := tagLoop_skip c object f s.heap (t :: post) pre 0 s rfl hpre
  have hk := lookup_some_keyword_ne _ _ _ hl
  rw [heq]
  simp only [tagLoop, hk, if_false, hl, hd, hsing, if_true]
  apply saveInstance_lookup
  · simpa [getInstanceByName, State.emit] using hmiss
  · simpa [State.emit] using hfac

/-- A loop over the members that goes through the members in front carries on with the members
behind them. -/
theorem fieldLoop_append (c : Ctx) (recur : Value → List Tag → State → Outcome (Option Error))
    (object obj : Value) (tags targetTags : List Tag) (l2 : List StructField)
    (err1 : Option Error) (sa : State) :
    ∀ (l1 : List StructField) (err : Option Error) (s : State),
      fieldLoop c recur object obj tags targetTags l1 err s = Outcome.done (Flow.next err1) sa →
      fieldLoop c recur object obj tags targetTags (l1 ++ l2) err s
        = fieldLoop c recur object obj tags targetTags l2 err1 sa := by
  intro l1
  induction l1 with
  | nil =>
    intro err s h
    simp only [fieldLoop, Outcome.done.injEq, Flow.next.injEq] at h
    obtain ⟨h1, h2⟩ := h
    subst h1 h2
    rfl
  | cons g rest ih =>
    intro err s h
    cases hif : injectField c recur object obj tags targetTags g err s with
    | done r s2 =>
      cases r with
      | next e2 =>
        simp only [fieldLoop, hif] at h
        simp only [List.cons_append, fieldLoop, hif]
        exact ih e2 s2 h
      | ret e2 => simp [fieldLoop, hif] at h
    | panic s2 => simp [fieldLoop, hif] at h
    | diverge => simp [fieldLoop, hif] at h

/-- C6: the round trip of store and lookup.  In a configured system let the object dereference
to a struct, let the loop over the flattened members have gone through the members in front of
the member `f`, and let `f` have no registry entry under its name when its turn comes.  When
the first resolver to yield an instance for `f` yields `v` and reports `IsSingleton() == true`,
then after a call that returns the convention lookup under the name of `f` (the lookup under
the lower-camel-case of the name) returns `v`. -/
theorem singleton_is_found_after_call (c : Ctx) (fuel : Nat) (object : Value) (tags : List Tag)
    (s sa s2 : State) (l1 l2 : List StructField) (f : StructField) (v : Inst)
    (pre : List Tag) (t : Tag) (post : List Tag) (err1 e : Option Error)
    (hconf : s.configured = true)
    (hobj : (Indirect c.env s.heap object).Kind c.env = Kind.Struct)
    (hdeep : DeepFields c.env fuel object.Type = some (l1 ++ f :: l2))
    (htags : (if tags.length ≠ 0 then tags else c.tagsContainer) = pre ++ t :: post)
    (hfront : fieldLoop c (IntoObjectValue c fuel) object (Indirect c.env s.heap object) tags
      (pre ++ t :: post) l1 none s = Outcome.done (Flow.next err1) sa)
    (hmiss : getInstanceByName sa f.Name = none)
    (hpre : ∀ r ∈ pre, ParseObjectName c.env sa.heap r.self "Tag" ≠ "" ∧
      decodes c sa.heap object f r = none)
    (ht : decodes c sa.heap object f t = some v) (hsing : t.IsSingleton = true)
    (hres : IntoObjectValue c (fuel + 1) object tags s = Outcome.done e s2) :
    getInstanceByName s2 f.Name = some v := by
  rw [IntoObjectValue_configured c fuel object tags s _ hconf hobj hdeep, htags,
    fieldLoop_append c _ object _ tags _ (f :: l2) err1 sa l1 none s hfront] at hres
  have hfac0 : s.appFactory ≠ none := by
    intro h
    simp [State.configured, h] at hconf
  have hl1 := fieldLoop_inv c _ (preserved_factory c) (IntoObjectValue c fuel)
    (IntoObjectValue_inv c _ (preserved_factory c) fuel) object
    (Indirect c.env s.heap object) tags (pre ++ t :: post) l1 none s hfac0 (by simp)
  rw [hfront] at hl1
  have hfac : sa.appFactory ≠ none := hl1.1
  have herr1 : err1 ≠ some Error.ErrInvalidObject := hl1.2.2 err1 rfl
  have hrec := IntoObjectValue_inv c _ (preserved_entry c f.Name v) fuel
  have hsaved := tagLoop_first_saved c object f sa pre t post v hpre ht hsing hmiss hfac
  have hfirst := (tagLoop_first c object f sa pre t post v hpre ht).1
  -- the injection of `f` stores `v`, and the rest of the call keeps it
  have hinj : (injectStep c object (Indirect c.env s.heap object) (pre ++ t :: post) f sa).holds
      (fun r s3 => getInstanceByName s3 f.Name = some v ∧ ∃ fieldObj, r = Flow.next fieldObj)
      (fun _ => True) := by
    unfold injectStep
    cases hfo : (if (Indirect c.env s.heap object).IsValid
        && (Indirect c.env s.heap object).Kind c.env == Kind.Struct then
        (Indirect c.env s.heap object).FieldByName c.env sa.heap f.Name
        else some Value.zero) with
    | none => trivial
    | some fieldObj =>
      simp only
      rw [resolveField_of_miss c object _ f sa hmiss]
      cases hloop : tagLoop c object f (pre ++ t :: post) 0 sa with
      | mk fl sb =>
        rw [hloop] at hsaved hfirst
        simp only at hfirst hsaved
        subst hfirst
        simp only
        cases ha : assignField c.env fieldObj (some v) sb with
        | done u sc =>
          refine ⟨?_, fieldObj, rfl⟩
          have := (assignField_frame c.env fieldObj (some v) sb sc ha).1
          simpa [getInstanceByName, this] using hsaved
        | panic sc => trivial
        | diverge => trivial
  have hstep : (injectField c (IntoObjectValue c fuel) object (Indirect c.env s.heap object)
      tags (pre ++ t :: post) f err1 sa).holds
      (fun r s3 => getInstanceByName s3 f.Name = some v ∧
        (∀ e1, r = Flow.ret e1 → False) ∧
        (∀ e1, r = Flow.next e1 → e1 ≠ some Error.ErrInvalidObject))
      (fun _ => True) := by
    unfold injectField
    cases hst : injectStep c object (Indirect c.env s.heap object) (pre ++ t :: post) f sa with
    | done r sc =>
      rw [hst] at hinj
      obtain ⟨hsc, fieldObj, hr⟩ := hinj
      subst hr
      simp only
      have hn := nestedField_inv c _ (IntoObjectValue c fuel) hrec
        (Indirect c.env s.heap object) fieldObj tags err1 sc hsc herr1
      cases hnf : nestedField c.env (IntoObjectValue c fuel) (Indirect c.env s.heap object)
          fieldObj tags err1 sc with
      | done e2 sd =>
        rw [hnf] at hn
        refine ⟨hn.1, ?_, ?_⟩
        · intro e1 h1
          cases h1
        · intro e1 h1
          cases h1
          exact hn.2
      | panic sd => trivial
      | diverge => trivial
    | panic sc => trivial
    | diverge => trivial
  simp only [fieldLoop] at hres
  cases hif : injectField c (IntoObjectValue c fuel) object (Indirect c.env s.heap object)
      tags (pre ++ t :: post) f err1 sa with
  | done r s3 =>
    rw [hif] at hstep hres
    cases r with
    | ret e1 => exact absurd rfl (fun h => hstep.2.1 e1 h)
    | next err2 =>
      simp only at hres
      have hrest := fieldLoop_inv c _ (preserved_entry c f.Name v) (IntoObjectValue c fuel)
        hrec object (Indirect c.env s.heap object) tags (pre ++ t :: post) l2 err2 s3
        hstep.1 (hstep.2.2 err2 rfl)
      cases hfl : fieldLoop c (IntoObjectValue c fuel) object (Indirect c.env s.heap object)
          tags (pre ++ t :: post) l2 err2 s3 with
      | done r2 s4 =>
        rw [hfl] at hrest hres
        cases r2 with
        | ret e3 =>
          simp only [Outcome.done.injEq] at hres
          rw [← hres.2]
          exact hrest.1
        | next err3 =>
          simp only at hres
          have hhook := injectMethod_inv c _ (preserved_entry c f.Name v)
            (IntoObjectValue c fuel) hrec object (Indirect c.env s.heap object) tags err3 s4
            hrest.1 (hrest.2.2 err3 rfl)
          rw [hres] at hhook
          exact hhook.1
      | panic s4 =>
        rw [hfl] at hres
        cases hres
      | diverge =>
        rw [hfl] at hres
        cases hres
  | panic s3 =>
    rw [hif] at hres
    cases hres
  | diverge =>
    rw [hif] at hres
    cases hres

/-- A witness for C6: the member `My_Dep` of the zero `Holder`, which has no registry entry,
and the singleton resolver `firstTag`, which yields `&Baz`. -/
theorem singleton_is_found_after_call_witness :
    getInstanceByName
      { appFactory := some (configuredRegistry ++ [("myDep", bazInst)]),
        heap := exampleHeap.set 4 (Val.struct (Fields.cons "My_Dep" (Val.ptr 1) Fields.nil)),
        trace := [Event.tagInit 0 (ValueOf (some holderPtr)) "My_Dep",
          Event.tagDecode 0 (ValueOf (some holderPtr)) "My_Dep" "a",
          Event.store "myDep" bazInst true,
          Event.set 4 ["My_Dep"] bazInst] } "My_Dep" = some bazInst :=
  singleton_is_found_after_call
    { env := exampleEnv, tagsContainer := [firstTag (some bazInst) true] } 2
    (ValueOf (some holderPtr)) [] (exampleState []) (exampleState []) _ [] [] holderField bazInst
    [] (firstTag (some bazInst) true) [] none none
    (by decide) (by decide) (by decide) rfl rfl (by decide)
    (by intro r hr; cases hr) (by decide) rfl (by decide)

/-! ## C7: what the processing of a member stores -/

/-- C7, as stated, fails: `Owner` has the member `W *Worker` with the tag key `first`, and the
resolver `firstTag`, which reports `IsSingleton() == false`, yields the `Worker` for it.  The
member has no registry entry and is resolved through this resolver; the body of the loop for
`W` then injects into the `Worker` (line 185), whose hook `Init(*Service)` has a parameter
that is created and stored: after the processing of `W` the registry holds the new entry
`service`, and the trace holds the call of `SetInstance`. -/
theorem nested_injection_stores :
    (firstTag (some workerPtr) false).IsSingleton = false ∧
      getInstanceByName (extraState []) ownerField.Name = none ∧
      (resolveField { env := extraEnv } (ValueOf (some ownerPtr))
        [firstTag (some workerPtr) false] ownerField (extraState [])).1
        = Flow.next (some workerPtr) ∧
      (extraState []).appFactory = some configuredRegistry ∧
      (injectField { env := extraEnv } (IntoObjectValue { env := extraEnv } 3)
          (ValueOf (some ownerPtr)) (Value.ref (GoType.named "app" "Owner") 16 [] false false) []
          [firstTag (some workerPtr) false] ownerField none (extraState [])).returned.map
        (fun r => r.2.appFactory)
        = some (some (configuredRegistry ++
            [("service", (GoType.ptr serviceType, Val.ptr 17))])) ∧
      (injectField { env := extraEnv } (IntoObjectValue { env := extraEnv } 3)
          (ValueOf (some ownerPtr)) (Value.ref (GoType.named "app" "Owner") 16 [] false false) []
          [firstTag (some workerPtr) false] ownerField none (extraState [])).returned.map
        (fun r => r.2.trace)
        = some [Event.tagInit 0 (ValueOf (some ownerPtr)) "W",
            Event.tagDecode 0 (ValueOf (some ownerPtr)) "W" "a",
            Event.set 16 ["W"] workerPtr,
            Event.store "service" (GoType.ptr serviceType, Val.ptr 17) true,
            Event.call (Value.ref (GoType.named "app" "Worker") 12 [] false false)
              [Value.imm (GoType.ptr serviceType) (Val.ptr 17) false false]] := by
  refine ⟨rfl, by decide, by decide, rfl, by decide, by decide⟩

/-! ## C18: a parameter of an unnamed type -/

/-- C18, as stated, fails: the function `func([]Dep)` has a parameter of the slice type
`[]Dep`, which is not resolved (`Dep` is an interface without registry entry).  The name of
the type `[]Dep` is empty, and the error that `IntoFunc` returns is formatted with the empty
text: it does not name the type of the parameter. -/
theorem unnamed_parameter_type_is_not_named :
    (GoType.named "" "func([]Dep)").In extraEnv = [GoType.slice depType] ∧
      (parseMethodInput { env := extraEnv } (GoType.slice depType) (extraState [])).1.2 = false ∧
      (GoType.slice depType).Name = "" ∧
      IntoFunc { env := extraEnv } 4 (some (GoType.named "" "func([]Dep)", Val.func 2))
          (extraState [])
        = Outcome.done (none, some (Error.notInjected "")) (extraState []) := by
  refine ⟨by decide, by decide, rfl, by decide⟩

/-! ## C25: a parameter that points to a declared pointer type -/

/-- C25, as stated, fails: `P` is the declared type `type P *Foo`, a named type that is neither
an interface nor a slice, and the function `func(*P)` has a parameter declared as `*P`.
`IndirectType` strips the pointer and then `P` itself, so `parseMethodInput` creates a `Foo`:
the argument has the type `*Foo`, which is not assignable to `*P`, and the invocation
panics. -/
theorem created_argument_of_other_type :
    pType.Kind extraEnv = Kind.Ptr ∧
      (GoType.named "" "func(*P)").In extraEnv = [GoType.ptr pType] ∧
      (parseMethodInput { env := extraEnv } (GoType.ptr pType) (extraState [])).1
        = (Value.imm (GoType.ptr fooType) (Val.ptr 17) false false, true) ∧
      assignable extraEnv (GoType.ptr fooType) (GoType.ptr pType) = false ∧
      IntoFunc { env := extraEnv } 4 (some (GoType.named "" "func(*P)", Val.func 3))
          (extraState [])
        = Outcome.panic
          { appFactory := some (configuredRegistry ++ [("foo", (GoType.ptr fooType, Val.ptr 17))]),
            heap := extraHeap ++ [Val.struct (Fields.cons "Bar" Val.nil Fields.nil)],
            trace := [Event.store "foo" (GoType.ptr fooType, Val.ptr 17) true] } := by
  refine ⟨rfl, by decide, by decide, by decide, by decide⟩

/-! ## The hook calls of a call -/

end Hiboot
